import Mathlib

/-!
# Join Dots (Connect Four): board model, win detector and move policy

A shallow embedding of the decision core of `src/main.js`.

* A cell of the JavaScript board is `null`, `'red'` or `'yellow'`; here it is
  `Option Side` with `none` for `null`.
* The board is the 6 x 7 array `board[row][col]`, row 0 at the top.
* Coordinates are integers, because the loops of `checkWinner` step to `-1`
  and to `6` / `7` before their guard stops them.  A read outside the grid is
  `undefined` in JavaScript; `Board.get` returns `none` for it.
-/

namespace JoinDots

/-- The two colours: `'red'` is the human, `'yellow'` the automated side. -/
inductive Side where
  | red
  | yellow
  deriving DecidableEq, Repr

/-- A cell value: `none` is JavaScript `null`. -/
abbrev Cell := Option Side

/-- The board `Array(6).fill().map(() => Array(7).fill(null))`, as a total map
on the 6 x 7 index set. -/
abbrev Board := Fin 6 → Fin 7 → Cell

/-- The initial board of `startGame`: every cell `null`. -/
def emptyBoard : Board := fun _ _ => none

/-- A board written row by row (row 0 first); missing entries are `null`. -/
def Board.ofRows (rows : List (List Cell)) : Board :=
  fun i j => (rows.getD i.val []).getD j.val none

/-- The read `board[r][c]`: `some v` inside the grid, `none` (the JavaScript
`undefined`) outside it. -/
def Board.get (b : Board) (r c : Int) : Option Cell :=
  if h : 0 ≤ r ∧ r < 6 ∧ 0 ≤ c ∧ c < 7 then
    some (b ⟨r.toNat, by omega⟩ ⟨c.toNat, by omega⟩)
  else none

/-- The copy-and-write `newBoard = board.map(r => [...r]); newBoard[r][c] = v`. -/
def Board.set (b : Board) (r c : Int) (v : Cell) : Board :=
  fun i j => if (i.val : Int) = r ∧ (j.val : Int) = c then v else b i j

/-- The cell `(r, c)` lies inside the 6 x 7 grid. -/
def inBounds (r c : Int) : Prop := 0 ≤ r ∧ r < 6 ∧ 0 ≤ c ∧ c < 7

instance (r c : Int) : Decidable (inBounds r c) := by
  unfold inBounds; exact inferInstance

/-! ## Board model -/

/-- `getAvailableRow`: scan `row = 5, 4, ..., 0` and return the first row whose
cell in column `col` is `null`; `-1` when there is none. -/
def getAvailableRow (board : Board) (col : Int) : Int :=
  match ([5, 4, 3, 2, 1, 0] : List Int).find? (fun row => board.get row col = some none) with
  | some row => row
  | none => -1

/-- `getValidMoves`: the columns `0..6`, in ascending order, whose
`getAvailableRow` is not `-1`. -/
def getValidMoves (board : Board) : List Int :=
  ([0, 1, 2, 3, 4, 5, 6] : List Int).filter (fun col => getAvailableRow board col ≠ -1)

/-- `isBoardFull`: `board[0].every(cell => cell !== null)`. -/
def isBoardFull (board : Board) : Bool :=
  ([0, 1, 2, 3, 4, 5, 6] : List Int).all (fun col => board.get 0 col ≠ some none)

/-! ## Win detector -/

/-- The inner `while` loop of `checkWinner`, started at `(r, c)` with step
`(dr, dc)`: the cells pushed while the guard
`r >= 0 && r < 6 && c >= 0 && c < 7 && board[r][c] === player` holds.
The first argument bounds the number of guard evaluations; `collect_fuel`
shows that 7 evaluations always reach a failing guard. -/
def collect (board : Board) (player : Side) (dr dc : Int) : Nat → Int → Int → List (Int × Int)
  | 0, _, _ => []
  | fuel + 1, r, c =>
    if 0 ≤ r ∧ r < 6 ∧ 0 ≤ c ∧ c < 7 ∧ board.get r c = some (some player) then
      (r, c) :: collect board player dr dc fuel (r + dr) (c + dc)
    else []

/-- The four direction pairs of `checkWinner`, in source order: horizontal,
vertical, diagonal, anti-diagonal. -/
def directions : List ((Int × Int) × (Int × Int)) :=
  [((0, 1), (0, -1)), ((1, 0), (-1, 0)), ((1, 1), (-1, -1)), ((1, -1), (-1, 1))]

/-- The array `cells` built by one iteration of the outer loop of
`checkWinner`: the origin, then the run along `dir1`, then the run along
`dir2`. -/
def lineCells (board : Board) (player : Side) (row col : Int)
    (d : (Int × Int) × (Int × Int)) : List (Int × Int) :=
  (row, col) ::
    (collect board player d.1.1 d.1.2 7 (row + d.1.1) (col + d.1.2) ++
     collect board player d.2.1 d.2.2 7 (row + d.2.1) (col + d.2.2))

/-- `checkWinner` together with the argument of its `setWinningCells` call:
`none` is the `return null`, `some (player, cells)` is `return player` after
`setWinningCells(cells)` for the first direction pair with
`cells.length >= 4`. -/
def checkWinnerCells (board : Board) (row col : Int) : Option (Side × List (Int × Int)) :=
  match board.get row col with
  | some (some player) =>
    match directions.find? (fun d => 4 ≤ (lineCells board player row col d).length) with
    | some d => some (player, lineCells board player row col d)
    | none => none
  | _ => none

/-- The return value of `checkWinner(board, row, col)`. -/
def checkWinner (board : Board) (row col : Int) : Cell :=
  (checkWinnerCells board row col).map Prod.fst

/-- `checkWinningMove`: drop `player` in `col` on a copy of the board and ask
`checkWinner` about the dropped piece. -/
def checkWinningMove (board : Board) (col : Int) (player : Side) : Bool :=
  let row := getAvailableRow board col
  if row = -1 then false
  else decide (checkWinner (board.set row col (some player)) row col = some player)

/-! ## Threat analyzer -/

/-- The `type` field of a threat object. -/
inductive ThreatType where
  | immediate
  | critical
  | potential
  deriving DecidableEq, Repr

/-- The `reason` field of a critical threat: `'open-ended-2'` or
`'prevents-open-3'`. -/
inductive Reason where
  | openEnded2
  | preventsOpen3
  deriving DecidableEq, Repr

/-- A threat object `{ type, column, row, reason }`; `reason` is absent on the
objects built by `analyzePositions`. -/
structure Threat where
  type : ThreatType
  column : Int
  row : Int
  reason : Option Reason
  deriving DecidableEq, Repr

/-- The playability test of `analyzePositions`:
`r === 5 || (r < 5 && board[r+1][c] !== null)`. -/
def playable (board : Board) (r c : Int) : Bool :=
  decide (r = 5 ∨ (r < 5 ∧ board.get (r + 1) c ≠ some none))

/-- `analyzePositions`: count the cells of the window equal to `player` and
the `null` cells (kept in window order in `emptyPositions`), then classify. -/
def analyzePositions (board : Board) (positions : List (Int × Int)) (player : Side) :
    Option Threat :=
  let playerCount := (positions.filter
    (fun p => decide (board.get p.1 p.2 = some (some player)))).length
  let emptyPositions := positions.filter (fun p => decide (board.get p.1 p.2 = some none))
  let emptyCount := emptyPositions.length
  if playerCount = 3 ∧ emptyCount = 1 then
    match emptyPositions with
    | (r, c) :: _ =>
      if playable board r c then some ⟨ThreatType.immediate, c, r, none⟩ else none
    | [] => none
  else if playerCount = 2 ∧ emptyCount = 2 then
    match emptyPositions.find? (fun p => playable board p.1 p.2) with
    | some (r, c) => some ⟨ThreatType.potential, c, r, none⟩
    | none => none
  else none

/-- The body of the first double loop of `findThreats` at `(row, col)`: the
horizontal, vertical, diagonal and anti-diagonal windows starting there. -/
def windowThreats (board : Board) (player : Side) (row col : Int) : List Threat :=
  (if col ≤ 3 then
    (analyzePositions board
      [(row, col), (row, col + 1), (row, col + 2), (row, col + 3)] player).toList
   else []) ++
  (if row ≤ 2 then
    (analyzePositions board
      [(row, col), (row + 1, col), (row + 2, col), (row + 3, col)] player).toList
   else []) ++
  (if row ≤ 2 ∧ col ≤ 3 then
    (analyzePositions board
      [(row, col), (row + 1, col + 1), (row + 2, col + 2), (row + 3, col + 3)] player).toList
   else []) ++
  (if row ≥ 3 ∧ col ≤ 3 then
    (analyzePositions board
      [(row, col), (row - 1, col + 1), (row - 2, col + 2), (row - 3, col + 3)] player).toList
   else [])

/-- The first pattern of the second double loop of `findThreats`: `_XX_`. -/
def openEndedThreat (board : Board) (player : Side) (row col : Int) : List Threat :=
  if board.get row col = some none ∧
     board.get row (col + 1) = some (some player) ∧
     board.get row (col + 2) = some (some player) ∧
     col + 3 < 7 ∧ board.get row (col + 3) = some none then
    let leftPlayable : Bool := decide (row = 5 ∨ board.get (row + 1) col ≠ some none)
    let rightPlayable : Bool := decide (row = 5 ∨ board.get (row + 1) (col + 3) ≠ some none)
    if leftPlayable ∨ rightPlayable then
      [⟨ThreatType.critical, if leftPlayable then col else col + 3, row,
        some Reason.openEnded2⟩]
    else []
  else []

/-- The second pattern of the second double loop of `findThreats`: `X_X`. -/
def splitThreat (board : Board) (player : Side) (row col : Int) : List Threat :=
  if col ≤ 3 ∧
     board.get row col = some (some player) ∧
     board.get row (col + 1) = some none ∧
     board.get row (col + 2) = some (some player) then
    let midPlayable : Bool := decide (row = 5 ∨ board.get (row + 1) (col + 1) ≠ some none)
    if midPlayable then
      let leftOpen : Bool := decide (col = 0 ∨ board.get row (col - 1) = some none)
      let rightOpen : Bool := decide (col + 3 ≥ 7 ∨ board.get row (col + 3) = some none)
      if leftOpen ∧ rightOpen then
        [⟨ThreatType.critical, col + 1, row, some Reason.preventsOpen3⟩]
      else []
    else []
  else []

/-- `findThreats`: the threats pushed by the first double loop (rows 0..5,
columns 0..6), followed by those pushed by the second (rows 0..5, columns
0..4), in push order. -/
def findThreats (board : Board) (player : Side) : List Threat :=
  (([0, 1, 2, 3, 4, 5] : List Int).flatMap fun row =>
    ([0, 1, 2, 3, 4, 5, 6] : List Int).flatMap fun col =>
      windowThreats board player row col) ++
  (([0, 1, 2, 3, 4, 5] : List Int).flatMap fun row =>
    ([0, 1, 2, 3, 4] : List Int).flatMap fun col =>
      openEndedThreat board player row col ++ splitThreat board player row col)

/-! ## Move policy: the fallback of `makeAIMove` -/

/-- The constant `centerPriority`. -/
def centerPriority : List Int := [3, 2, 4, 1, 5, 0, 6]

/-- The value of `chosenMove` at the end of the five steps of the `catch`
block of `makeAIMove`; `none` is `null`.  Each step after the first runs only
`if (chosenMove === null)`. -/
def fallbackChoice (board : Board) : Option Int :=
  let validMoves := getValidMoves board
  let chosen1 : Option Int :=
    validMoves.find? (fun col => checkWinningMove board col Side.yellow)
  let chosen2 : Option Int :=
    if chosen1 = none then
      validMoves.find? (fun col => checkWinningMove board col Side.red)
    else chosen1
  let chosen3 : Option Int :=
    if chosen2 = none then
      match (findThreats board Side.red).filter
          (fun t => decide (t.type = ThreatType.critical) && validMoves.contains t.column) with
      | t :: _ => some t.column
      | [] => none
    else chosen2
  let chosen4 : Option Int :=
    if chosen3 = none then
      match (findThreats board Side.red).filter
          (fun t => decide (t.type = ThreatType.immediate) && validMoves.contains t.column) with
      | t :: _ => some t.column
      | [] => none
    else chosen3
  if chosen4 = none then
    centerPriority.find? (fun col => validMoves.contains col)
  else chosen4

/-! ## Game state and turns -/

/-- The state `gameState`: `'menu'`, `'playing'` or `'gameOver'`. -/
inductive Phase where
  | menu
  | playing
  | gameOver
  deriving DecidableEq, Repr

/-- The state `currentPlayer`: `'human'` or `'ai'`. -/
inductive Player where
  | human
  | ai
  deriving DecidableEq, Repr

/-- The non-null values of the state `winner`: a colour or `'draw'`. -/
inductive Outcome where
  | win (s : Side)
  | draw
  deriving DecidableEq, Repr

/-- The part of the component state that the game logic reads and writes.
The highlight state `winningCells` is the second component of
`checkWinnerCells`; thoughts, hover, animation and difficulty do not reach the
game logic and are left out.  `lastMove` holds the row and the column index of
the cell written last; the source stores the value `col` itself, which for an
advisory reply is whatever the reply held and names that column. -/
structure State where
  gameState : Phase
  board : Board
  currentPlayer : Player
  winner : Option Outcome
  isAIThinking : Bool
  lastMove : Option (Int × Int)

/-- The state set by `startGame`. -/
def startGame : State :=
  ⟨Phase.playing, emptyBoard, Player.human, none, false, none⟩

/-- The block shared by `handleColumnClick` and both branches of `makeAIMove`
once a row and column are fixed: write `side` at `(row, col)` on a copy of the
board, record the move, then `checkWinner`, then `isBoardFull`, else hand the
turn to `next`. -/
def placePiece (s : State) (row col : Int) (side : Side) (next : Player) : State :=
  let newBoard := s.board.set row col (some side)
  let s1 : State := { s with board := newBoard, lastMove := some (row, col) }
  match checkWinner newBoard row col with
  | some w => { s1 with winner := some (Outcome.win w), gameState := Phase.gameOver }
  | none =>
    if isBoardFull newBoard then
      { s1 with winner := some Outcome.draw, gameState := Phase.gameOver }
    else { s1 with currentPlayer := next }

/-- `handleColumnClick(col)` for a column index `0..6` of the rendered grid. -/
def handleColumnClick (s : State) (col : Int) : State :=
  if s.gameState ≠ Phase.playing ∨ s.currentPlayer ≠ Player.human ∨ s.isAIThinking then s
  else
    let row := getAvailableRow s.board col
    if row = -1 then s
    else placePiece s row col Side.red Player.ai

/-- The value of `aiResponse.column`, by what it does as the key of
`board[row][col]` and as the operand of `col + dc`:

* `int n` is the whole number `n` (a key of the row when `0 <= n < 7`, and
  `col + dc` is a sum);
* `key k` is a value that is not a number but whose property key is the name
  of column `k`, such as the text `"3"` or the array `[3]`: `board[row][col]`
  is the cell of column `k`, and `col + dc` joins text;
* `other` is any value whose property key names no element of a row (a
  missing `column`, a fraction, `true`, `null`, an object, any other text), so
  that `board[row][col]` is `null` in no row (it is `undefined`, or a
  property every array has, such as `length`) and `getAvailableRow` is `-1`. -/
inductive JsIndex where
  | int (n : Int)
  | key (k : Fin 7)
  | other
  deriving DecidableEq, Repr

/-- The loop variable `c` of `checkWinner` read as a number, when `col` is not
a number but names column `k`.  There `c = col + dc` and `c += dc` join text:
`c` is the digit of `k` followed by the text of every step added so far
(`"31"`, `"30"`, `"3-1"`, then `"311"`, ...).  With no negative step that text
is a decimal numeral; with a minus sign inside it is `NaN` (here `none`), for
which every comparison is false. -/
def keyNumber (k : Fin 7) (steps : List Int) : Option Int :=
  if steps.all (fun t => decide (0 ≤ t)) then
    some (steps.foldl (fun n t => 10 * n + t) (k.val : Int))
  else none

/-- The read `board[r][c]` for that text: without a step the text is the key
of column `k`; with at least one step it has two or more characters, a row has
the keys `"0"` to `"6"` only, and the read is `undefined`. -/
def keyRead (board : Board) (r : Int) (k : Fin 7) (steps : List Int) : Option Cell :=
  match steps with
  | [] => board.get r (k.val : Int)
  | _ :: _ => none

/-- The guard `r >= 0 && r < 6 && c >= 0 && c < 7 && board[r][c] === player`
of the inner loop of `checkWinner` for such a `c`. -/
def keyGuard (board : Board) (player : Side) (r : Int) (k : Fin 7) (steps : List Int) : Bool :=
  decide (0 ≤ r) && decide (r < 6) &&
    (match keyNumber k steps with
      | some n => decide (0 ≤ n) && decide (n < 7)
      | none => false) &&
    decide (keyRead board r k steps = some (some player))

/-- The inner `while` loop of `checkWinner` for such a `c`: the rows of the
cells pushed while the guard holds.  The first argument bounds the number of
guard evaluations; `collectKey_eq_nil` shows that the first evaluation fails,
so the bound is never reached. -/
def collectKey (board : Board) (player : Side) (dr dc : Int) (k : Fin 7) :
    Nat → Int → List Int → List Int
  | 0, _, _ => []
  | fuel + 1, r, steps =>
    if keyGuard board player r k steps then
      r :: collectKey board player dr dc k fuel (r + dr) (steps ++ [dc])
    else []

/-- The return value of `checkWinner(board, row, col)` when `col` is not a
number but names column `k`: `player` is the piece of column `k`, and for each
direction pair `cells` is the origin followed by what the two loops push. -/
def checkWinnerKey (board : Board) (row : Int) (k : Fin 7) : Cell :=
  match board.get row (k.val : Int) with
  | some (some player) =>
    if directions.any (fun d =>
        decide (4 ≤ 1 +
          (collectKey board player d.1.1 d.1.2 k 7 (row + d.1.1) [d.1.2]).length +
          (collectKey board player d.2.1 d.2.2 k 7 (row + d.2.1) [d.2.2]).length)) then
      some player
    else none
  | _ => none

/-- What the single `window.claude.complete` call and the parse of its reply
amount to. -/
inductive Advisory where
  /-- The awaited call rejects. -/
  | callThrows
  /-- `JSON.parse(response)` throws. -/
  | notJson
  /-- The parsed value has no `thoughts`, so reading `thoughts.length` throws. -/
  | noThoughts
  /-- A parsed reply with a `thoughts` array. -/
  | reply (column : JsIndex) (thoughts : List String)
  deriving DecidableEq, Repr

/-- The `catch` block of `makeAIMove`: choose by `fallbackChoice`, and when a
column was chosen drop a yellow piece in it. -/
def fallbackMove (s : State) : State :=
  match fallbackChoice s.board with
  | some chosenMove =>
    placePiece s (getAvailableRow s.board chosenMove) chosenMove Side.yellow Player.human
  | none => s

/-- The move block of the `try` branch of `makeAIMove` when the reply's column
is not a number but names column `k`: the writes of `placePiece` for yellow on
`(row, k)`, with `checkWinner` called on the reply's value. -/
def placeKeyed (s : State) (row : Int) (k : Fin 7) : State :=
  let newBoard := s.board.set row (k.val : Int) (some Side.yellow)
  let s1 : State := { s with board := newBoard, lastMove := some (row, (k.val : Int)) }
  match checkWinnerKey newBoard row k with
  | some w => { s1 with winner := some (Outcome.win w), gameState := Phase.gameOver }
  | none =>
    if isBoardFull newBoard then
      { s1 with winner := some Outcome.draw, gameState := Phase.gameOver }
    else { s1 with currentPlayer := Player.human }

/-- The `try` block of `makeAIMove` after a reply was parsed and its thoughts
shown: `row = getAvailableRow(board, col)` and the move `if (row !== -1)`,
which has no `else`. -/
def advisoryMove (s : State) (column : JsIndex) : State :=
  match column with
  | JsIndex.int col =>
    let row := getAvailableRow s.board col
    if row ≠ -1 then placePiece s row col Side.yellow Player.human else s
  | JsIndex.key k =>
    let row := getAvailableRow s.board (k.val : Int)
    if row ≠ -1 then placeKeyed s row k else s
  | JsIndex.other => s

/-- The effect that runs `makeAIMove`: nothing unless it is the automated
side's turn in a running game; otherwise the `try` / `catch` / `finally` of
`makeAIMove` for the given outcome of the advisory call. -/
def makeAIMove (s : State) (adv : Advisory) : State :=
  if s.currentPlayer ≠ Player.ai ∨ s.gameState ≠ Phase.playing then s
  else
    let s1 : State :=
      match adv with
      | Advisory.reply column _ => advisoryMove s column
      | _ => fallbackMove s
    { s1 with isAIThinking := false }

/-! ## Vocabulary of the specification -/

/-- Gravity: no column has an empty cell below a non-empty one (rows grow
downwards). -/
def gravity (board : Board) : Prop :=
  ∀ (c : Fin 7) (r r' : Fin 6), r < r' → board r c ≠ none → board r' c ≠ none

/-- The number of occupied (non-`null`) cells of column `c`. -/
def occupiedCount (board : Board) (c : Fin 7) : Nat :=
  (List.finRange 6).countP (fun r => (board r c).isSome)

/-- The four line directions as single steps: horizontal, vertical, diagonal,
anti-diagonal. -/
def lineDirs : List (Int × Int) := [(0, 1), (1, 0), (1, 1), (1, -1)]

/-- Four consecutive in-bounds cells on one horizontal, vertical, diagonal or
anti-diagonal line that include `(row, col)` and all hold `s`: the window is
the cells `(row, col) + (k - a) * d` for `k = 0..3`, where `d` is the step of
the line and `a` in `0..3` is the place of `(row, col)` in the window. -/
def fourInLine (board : Board) (s : Side) (row col : Int) : Prop :=
  ∃ d ∈ lineDirs, ∃ a : Nat, a ≤ 3 ∧ ∀ k : Nat, k ≤ 3 →
    inBounds (row + ((k : Int) - (a : Int)) * d.1) (col + ((k : Int) - (a : Int)) * d.2) ∧
    board.get (row + ((k : Int) - (a : Int)) * d.1) (col + ((k : Int) - (a : Int)) * d.2)
      = some (some s)

/-- Tiers 1 and 2 in the words of the specification: the smallest valid column
in which `side` wins immediately. -/
def smallestWinning (board : Board) (side : Side) : Option Int :=
  ((getValidMoves board).filter (fun c => checkWinningMove board c side)).min?

/-- Tiers 3 and 4 in the words of the specification: the column of the first
threat of kind `ty` in `findThreats(board, red)` whose column is valid. -/
def firstThreatColumn (board : Board) (ty : ThreatType) : Option Int :=
  ((findThreats board Side.red).find?
    (fun t => decide (t.type = ty ∧ t.column ∈ getValidMoves board))).map Threat.column

/-- Tier 5 in the words of the specification: the first valid column in the
order 3, 2, 4, 1, 5, 0, 6. -/
def firstCenter (board : Board) : Option Int :=
  ([3, 2, 4, 1, 5, 0, 6] : List Int).find? (fun c => decide (c ∈ getValidMoves board))

/-- The strict priority list of the specification: the first defined value
among the five tiers. -/
def fallbackPriority (board : Board) : Option Int :=
  [smallestWinning board Side.yellow, smallestWinning board Side.red,
   firstThreatColumn board ThreatType.critical, firstThreatColumn board ThreatType.immediate,
   firstCenter board].findSome? id

instance (board : Board) : Decidable (gravity board) := by
  unfold gravity; exact inferInstance

/-! ## Concrete positions -/

instance (board : Board) (s : Side) (row col : Int) : Decidable (fourInLine board s row col) := by
  unfold fourInLine; exact inferInstance

/-- Red has four in the bottom row, yellow three on the row above. -/
def redRowBoard : Board := Board.ofRows
  [[], [], [], [],
   [some Side.yellow, some Side.yellow, some Side.yellow],
   [some Side.red, some Side.red, some Side.red, some Side.red]]

/-- Yellow to move: column 4 wins for yellow (bottom row), while column 0 is a
must-block column (red has three stacked there). -/
def winBlockBoard : Board := Board.ofRows
  [[], [], [],
   [some Side.red],
   [some Side.red],
   [some Side.red, some Side.yellow, some Side.yellow, some Side.yellow, none, none,
    some Side.red]]

/-- Yellow to move: red has three stacked in column 0, yellow cannot win. -/
def mustBlockBoard : Board := Board.ofRows
  [[], [], [],
   [some Side.red],
   [some Side.red],
   [some Side.red, some Side.yellow, some Side.yellow]]

/-- A state in which the automated side is to move on `board`. -/
def aiToMove (board : Board) : State :=
  ⟨Phase.playing, board, Player.ai, none, false, none⟩

/-! ## Vocabulary of the threat claims -/

/-- Playability in the words of the specification: the cell is in row 5, or
the cell directly below it is non-empty (holds a piece). -/
def playableCell (board : Board) (r c : Int) : Prop :=
  r = 5 ∨ ∃ s : Side, board.get (r + 1) c = some (some s)

instance (board : Board) (r c : Int) : Decidable (playableCell board r c) :=
  decidable_of_iff
    (r = 5 ∨ board.get (r + 1) c = some (some Side.red) ∨
      board.get (r + 1) c = some (some Side.yellow))
    (by
      unfold playableCell
      constructor
      · rintro (h | h | h)
        · exact Or.inl h
        · exact Or.inr ⟨_, h⟩
        · exact Or.inr ⟨_, h⟩
      · rintro (h | ⟨s, h⟩)
        · exact Or.inl h
        · cases s
          · exact Or.inr (Or.inl h)
          · exact Or.inr (Or.inr h))

/-- The bottom row holds `. . R R . . .` and nothing else. -/
def openTwoBoard : Board := Board.ofRows
  [[], [], [], [], [],
   [none, none, some Side.red, some Side.red]]

/-- The move rule: `side` written on the lowest empty cell of column `col`,
the board update made by `handleColumnClick`, by both branches of
`makeAIMove` and on the test board of `checkWinningMove`. -/
def dropPiece (board : Board) (col : Int) (side : Side) : Board :=
  board.set (getAvailableRow board col) col (some side)

/-- Red to move; the bottom row holds `R . R . . Y Y`: the split pair of red
touches the left wall. -/
def splitWallBoard : Board := Board.ofRows
  [[], [], [], [], [],
   [some Side.red, none, some Side.red, none, none, some Side.yellow, some Side.yellow]]

/-- Red to move; row 4 holds `. . R . R . .` above `. . Y R Y . Y`: the cells
at both ends of the split pair are empty but hang over empty cells. -/
def splitHangingBoard : Board := Board.ofRows
  [[], [], [], [],
   [none, none, some Side.red, none, some Side.red],
   [none, none, some Side.yellow, some Side.red, some Side.yellow, none, some Side.yellow]]

/-- Red to move; the bottom row holds `. R . R . Y Y`: a split pair of red
whose two outer neighbours are empty bottom-row cells. -/
def splitOpenBoard : Board := Board.ofRows
  [[], [], [], [], [],
   [none, some Side.red, none, some Side.red, none, some Side.yellow, some Side.yellow]]

/-- Column `c` is full: none of its six cells is empty. -/
def columnFull (board : Board) (c : Fin 7) : Prop :=
  ∀ r : Fin 6, board r c ≠ none

instance (board : Board) (c : Fin 7) : Decidable (columnFull board c) := by
  unfold columnFull; exact inferInstance

/-- Tier 5 over the cells of the board: the first column of the order
3, 2, 4, 1, 5, 0, 6 that is not full. -/
def firstOpenCenter (board : Board) : Option Int :=
  (([3, 2, 4, 1, 5, 0, 6] : List (Fin 7)).find?
    (fun c => decide (¬ columnFull board c))).map (fun c => (c.val : Int))

/-! ## Vocabulary of the game claims -/

/-- The states of a game: the state set by `startGame`, followed by any
sequence of column clicks and automated turns.  An automated turn runs on any
advisory outcome: a failed call, or a parsed reply whose column is a number,
names a column as text, or names no cell. -/
inductive Reachable : State → Prop where
  | start : Reachable startGame
  | human (s : State) (col : Int) : Reachable s → Reachable (handleColumnClick s col)
  | auto (s : State) (adv : Advisory) : Reachable s → Reachable (makeAIMove s adv)

/-- One round with the fallback deciding: the human clicks `col`, then the
automated turn runs with a failed advisory call. -/
def playFallback (s : State) (col : Int) : State :=
  makeAIMove (handleColumnClick s col) Advisory.callThrows

/-- The outcome of a move of `side` on `(row, col)` that led from `s` to `s'`:
the board of `s'` is the board of `s` with the piece on `(row, col)`; it is
a draw exactly when the placed piece completes no four in line and all 42
cells are occupied; a win of `side` when it completes a four in line (full
board or not); otherwise the game stays in play, the winner is untouched and
the turn passes to `next`. -/
def MoveOutcome (s s' : State) (side : Side) (row col : Int) (next : Player) : Prop :=
  s'.board = s.board.set row col (some side) ∧
  ((s'.winner = some Outcome.draw ∧ s'.gameState = Phase.gameOver) ↔
    (¬ fourInLine s'.board side row col ∧ ∀ (r : Fin 6) (c : Fin 7), s'.board r c ≠ none)) ∧
  (fourInLine s'.board side row col →
    s'.winner = some (Outcome.win side) ∧ s'.gameState = Phase.gameOver) ∧
  (¬ fourInLine s'.board side row col → (∃ (r : Fin 6) (c : Fin 7), s'.board r c = none) →
    s'.gameState = Phase.playing ∧ s'.winner = s.winner ∧ s'.currentPlayer = next)

/-- A game played from `s` along a list of columns: the human clicks the
first column, the automated side plays the second on a parsed advisory reply,
and so on in turn. -/
def playAdvised : State → List Int → State
  | s, [] => s
  | s, [c] => handleColumnClick s c
  | s, c :: a :: rest =>
    playAdvised (makeAIMove (handleColumnClick s c) (Advisory.reply (JsIndex.int a) [])) rest

/-- The first 41 moves of a game without any four in line: they fill every
cell except `(0, 6)` with the rows `RRYYRRY` and `YYRRYYR` in turn. -/
def drawMoves : List Int :=
  [3, 3, 3, 3, 3, 3, 2, 2, 2, 2, 2, 2, 6, 4, 4, 4, 4, 4, 4, 1, 1, 1, 1, 1, 1,
   5, 5, 5, 5, 5, 5, 0, 0, 0, 0, 0, 0, 6, 6, 6, 6]

/-- The state after `drawMoves`: one empty cell, the automated side to move. -/
def lastCellState : State := playAdvised startGame drawMoves

/-! ## Vocabulary of the last claims -/

/-- The four window directions of the first loop of `findThreats`, as single
steps from the window's first cell: horizontal, vertical, diagonal, and
anti-diagonal (up and to the right). -/
def scanDirs : List (Int × Int) := [(0, 1), (1, 0), (1, 1), (-1, 1)]

/-- The three cells that, together with `(r, c)`, make a window of four
consecutive cells along step `d` in which `(r, c)` has place `a` (counted from
0) all hold `s`. -/
def threeAround (board : Board) (s : Side) (r c : Int) (d : Int × Int) (a : Nat) : Prop :=
  ∀ i : Nat, i ≤ 3 → i ≠ a →
    board.get (r + ((i : Int) - (a : Int)) * d.1) (c + ((i : Int) - (a : Int)) * d.2)
      = some (some s)

/-- The window of `findThreats` that starts at `(row, col)` and steps by `d`. -/
def scanWindow (row col : Int) (d : Int × Int) : List (Int × Int) :=
  [(row, col), (row + d.1, col + d.2), (row + 2 * d.1, col + 2 * d.2),
   (row + 3 * d.1, col + 3 * d.2)]

/-- The cell `p` lies on the maximal contiguous run of `s` through
`(row, col)` along `d`: it is `(row, col) + k * d` for an integer `k`, and
every cell from `(row, col)` to `p` along the line holds `s`. -/
def onRun (board : Board) (s : Side) (row col : Int) (d : Int × Int) (p : Int × Int) : Prop :=
  ∃ k : Int, p = (row + k * d.1, col + k * d.2) ∧
    ∀ j : Int, ((0 ≤ j ∧ j ≤ k) ∨ (k ≤ j ∧ j ≤ 0)) →
      board.get (row + j * d.1) (col + j * d.2) = some (some s)

/-- Red holds five cells of the bottom row and four cells of column 2. -/
def longRunBoard : Board := Board.ofRows
  [[], [],
   [none, none, some Side.red],
   [none, none, some Side.red],
   [none, none, some Side.red],
   [some Side.red, some Side.red, some Side.red, some Side.red, some Side.red]]

/-- The number of cells of the board that hold a piece of `s`. -/
def countPieces (board : Board) (s : Side) : Nat :=
  (Finset.univ.filter (fun p : Fin 6 × Fin 7 => board p.1 p.2 = some s)).card

/-- Turn ownership in a state that is in play: red has as many pieces as
yellow when the human is to move and one more when the automated side is to
move, and the last placed piece belongs to the side that is not to move. -/
def TurnInv (s : State) : Prop :=
  s.gameState = Phase.playing →
    (s.currentPlayer = Player.human →
      (countPieces s.board Side.red : Int) - (countPieces s.board Side.yellow : Int) = 0) ∧
    (s.currentPlayer = Player.ai →
      (countPieces s.board Side.red : Int) - (countPieces s.board Side.yellow : Int) = 1) ∧
    (∀ r c : Int, s.lastMove = some (r, c) →
      s.board.get r c =
        some (some (if s.currentPlayer = Player.ai then Side.red else Side.yellow)))

/-- Wins and the board: a state in play has no winner; a state whose winner is
a side is over and has a four in line of that side through the last placed
piece. -/
def WinInv (s : State) : Prop :=
  (s.gameState = Phase.playing → s.winner = none) ∧
  (∀ w : Side, s.winner = some (Outcome.win w) →
    s.gameState = Phase.gameOver ∧
    ∃ r c : Int, s.lastMove = some (r, c) ∧ fourInLine s.board w r c)

/-- What the move block leaves behind when it wrote `side` on `(row, col)` of
the board of `s`: the new board and last move, and one of its three branches
(`checkWinner` returned a side, the board is full, the turn passes to
`next`). -/
def Placed (s s' : State) (side : Side) (row col : Int) (next : Player) : Prop :=
  s'.board = s.board.set row col (some side) ∧ s'.lastMove = some (row, col) ∧
  ((∃ w : Side, checkWinner (s.board.set row col (some side)) row col = some w ∧
      s'.winner = some (Outcome.win w) ∧ s'.gameState = Phase.gameOver) ∨
    (s'.winner = some Outcome.draw ∧ s'.gameState = Phase.gameOver) ∨
    (s'.winner = s.winner ∧ s'.gameState = s.gameState ∧ s'.currentPlayer = next))

/-- One round with a parsed reply whose column is the text of column `k`: the
human clicks `col`, then the automated turn runs on the reply
`{"column": "k", "thoughts": []}`. -/
def playText (s : State) (col : Int) (k : Fin 7) : State :=
  makeAIMove (handleColumnClick s col) (Advisory.reply (JsIndex.key k) [])

/-- The human clicks columns 0, 0, 1, 1 and every reply names column 3 as
text: yellow is stacked on rows 5 to 2 of column 3. -/
def textStackState : State :=
  playText (playText (playText (playText startGame 0 3) 0 3) 1 3) 1 3

end JoinDots

/-! # Verification -/

namespace JoinDots

/-! ## Reads and writes -/

theorem get_fin (b : Board) (r : Fin 6) (c : Fin 7) :
    b.get (r.val : Int) (c.val : Int) = some (b r c) := by
  have hr := r.isLt
  have hc := c.isLt
  unfold Board.get
  rw [dif_pos (by omega)]
  simp

theorem get_eq_some (b : Board) (r c : Int) (v : Cell) (h : b.get r c = some v) :
    inBounds r c ∧ ∃ (i : Fin 6) (j : Fin 7), (i.val : Int) = r ∧ (j.val : Int) = c ∧ b i j = v := by
  unfold Board.get at h
  split at h
  · rename_i hb
    refine ⟨hb, ⟨r.toNat, by omega⟩, ⟨c.toNat, by omega⟩, ?_, ?_, ?_⟩
    · simp; omega
    · simp; omega
    · simpa using h
  · simp at h

theorem get_of_not_inBounds (b : Board) (r c : Int) (h : ¬ inBounds r c) : b.get r c = none := by
  unfold Board.get
  unfold inBounds at h
  rw [dif_neg h]

theorem get_set (b : Board) (r c : Int) (v : Cell) (r' c' : Int) :
    (b.set r c v).get r' c' =
      if inBounds r' c' then (if r' = r ∧ c' = c then some v else b.get r' c') else none := by
  unfold Board.get inBounds
  by_cases hb : 0 ≤ r' ∧ r' < 6 ∧ 0 ≤ c' ∧ c' < 7
  · rw [dif_pos hb, dif_pos hb, if_pos hb]
    have h1 : ((r'.toNat : Nat) : Int) = r' := by omega
    have h2 : ((c'.toNat : Nat) : Int) = c' := by omega
    simp only [Board.set, h1, h2]
    split <;> rfl
  · rw [dif_neg hb, if_neg hb]

/-! ## `getAvailableRow` -/

theorem getAvailableRow_cases (b : Board) (c : Int) :
    (getAvailableRow b c = -1 ∧ ∀ r : Int, 0 ≤ r → r < 6 → b.get r c ≠ some none) ∨
    (0 ≤ getAvailableRow b c ∧ getAvailableRow b c < 6 ∧
      b.get (getAvailableRow b c) c = some none ∧
      ∀ r : Int, getAvailableRow b c < r → r < 6 → b.get r c ≠ some none) := by
  have key : ∀ r : Int, 0 ≤ r → r < 6 →
      r = 0 ∨ r = 1 ∨ r = 2 ∨ r = 3 ∨ r = 4 ∨ r = 5 := by intro r h1 h2; omega
  unfold getAvailableRow
  by_cases h5 : b.get 5 c = some none
  · right; simp [List.find?, h5]; intro r h1 h2; omega
  by_cases h4 : b.get 4 c = some none
  · right; simp [List.find?, h5, h4]
    intro r h1 h2; have : r = 5 := by omega
    subst this; exact h5
  by_cases h3 : b.get 3 c = some none
  · right; simp [List.find?, h5, h4, h3]
    intro r h1 h2; have : r = 4 ∨ r = 5 := by omega
    rcases this with rfl | rfl <;> assumption
  by_cases h2 : b.get 2 c = some none
  · right; simp [List.find?, h5, h4, h3, h2]
    intro r h1 h2; have : r = 3 ∨ r = 4 ∨ r = 5 := by omega
    rcases this with rfl | rfl | rfl <;> assumption
  by_cases h1 : b.get 1 c = some none
  · right; simp [List.find?, h5, h4, h3, h2, h1]
    intro r h1 h2; have : r = 2 ∨ r = 3 ∨ r = 4 ∨ r = 5 := by omega
    rcases this with rfl | rfl | rfl | rfl <;> assumption
  by_cases h0 : b.get 0 c = some none
  · right; simp [List.find?, h5, h4, h3, h2, h1, h0]
    intro r h1 h2; have : r = 1 ∨ r = 2 ∨ r = 3 ∨ r = 4 ∨ r = 5 := by omega
    rcases this with rfl | rfl | rfl | rfl | rfl <;> assumption
  · left; simp [List.find?, h5, h4, h3, h2, h1, h0]
    intro r hr1 hr2
    rcases key r hr1 hr2 with rfl | rfl | rfl | rfl | rfl | rfl <;> assumption

theorem getAvailableRow_fin (board : Board) (c : Fin 7) :
    (getAvailableRow board (c.val : Int) = -1 ∧ ∀ r : Fin 6, board r c ≠ none) ∨
    (∃ r : Fin 6, getAvailableRow board (c.val : Int) = (r.val : Int) ∧ board r c = none ∧
        ∀ r' : Fin 6, r < r' → board r' c ≠ none) := by
  rcases getAvailableRow_cases board (c.val : Int) with ⟨h1, h2⟩ | ⟨h1, h2, h3, h4⟩
  · left
    refine ⟨h1, fun r hr => ?_⟩
    have := h2 (r.val : Int) (by omega) (by have := r.isLt; omega)
    rw [get_fin] at this
    exact this (by rw [hr])
  · right
    obtain ⟨_, i, j, hi, hj, hv⟩ := get_eq_some _ _ _ _ h3
    have hjc : j = c := by apply Fin.ext; omega
    subst hjc
    refine ⟨i, hi.symm, hv, fun r' hr' => ?_⟩
    have hlt : (i.val : Int) < (r'.val : Int) := by
      have : i.val < r'.val := hr'
      omega
    have := h4 (r'.val : Int) (by omega) (by have := r'.isLt; omega)
    rw [get_fin] at this
    intro hn
    exact this (by rw [hn])

theorem getAvailableRow_spec (board : Board) (c : Fin 7) :
    (getAvailableRow board (c.val : Int) = -1 ↔ ∀ r : Fin 6, board r c ≠ none) ∧
    (getAvailableRow board (c.val : Int) ≠ -1 →
      ∃ r : Fin 6, getAvailableRow board (c.val : Int) = (r.val : Int) ∧ board r c = none ∧
        ∀ r' : Fin 6, r < r' → board r' c ≠ none) := by
  rcases getAvailableRow_fin board c with ⟨h1, h2⟩ | ⟨r, h1, h2, h3⟩
  · exact ⟨⟨fun _ => h2, fun _ => h1⟩, fun h => absurd h1 h⟩
  · refine ⟨⟨fun h => ?_, fun h => absurd h2 (h r)⟩, fun _ => ⟨r, h1, h2, h3⟩⟩
    rw [h1] at h
    omega

/-- C10: `getAvailableRow(board, c)` is `-1` exactly when column `c` has no
empty cell; otherwise it is a row `r` in `0..5` whose cell is empty while every
cell of the column in rows `r+1..5` is non-empty (the lowest empty row). -/
theorem getAvailableRow_lowest_empty (board : Board) (c : Fin 7) :
    (getAvailableRow board (c.val : Int) = -1 ↔ ∀ r : Fin 6, board r c ≠ none) ∧
    (getAvailableRow board (c.val : Int) ≠ -1 →
      ∃ r : Fin 6, getAvailableRow board (c.val : Int) = (r.val : Int) ∧ board r c = none ∧
        ∀ r' : Fin 6, r < r' → board r' c ≠ none) :=
  getAvailableRow_spec board c

theorem getAvailableRow_count_aux (board : Board) (c : Fin 7) :
    (getAvailableRow board (c.val : Int) = -1 ↔ occupiedCount board c = 6) ∧
    (gravity board →
      getAvailableRow board (c.val : Int) = 5 - (occupiedCount board c : Int)) := by
  have hlen : (List.finRange 6).length = 6 := by simp
  have hfull : occupiedCount board c = 6 ↔ ∀ r : Fin 6, board r c ≠ none := by
    have h := List.countP_eq_length (p := fun r : Fin 6 => (board r c).isSome)
      (l := List.finRange 6)
    rw [hlen] at h
    unfold occupiedCount
    rw [h]
    simp [Option.isSome_iff_ne_none]
  refine ⟨?_, fun hg => ?_⟩
  · rw [hfull]; exact (getAvailableRow_spec board c).1
  · rcases getAvailableRow_fin board c with ⟨h1, h2⟩ | ⟨r, h1, h2, h3⟩
    · rw [h1, hfull.mpr h2]; rfl
    · have hsome : ∀ r' : Fin 6, (board r' c).isSome = decide (r < r') := by
        intro r'
        by_cases hlt : r < r'
        · simpa [hlt, Option.isSome_iff_ne_none] using h3 r' hlt
        · have hle : r' ≤ r := not_lt.mp hlt
          have : board r' c = none := by
            rcases eq_or_lt_of_le hle with heq | hlt'
            · rw [heq]; exact h2
            · by_contra hne
              exact hg c r' r hlt' hne h2
          simp [this, hlt]
      have key : ∀ r : Fin 6, (r.val : Int) =
          5 - ((List.finRange 6).countP (fun r' => decide (r < r')) : Int) := by decide
      rw [h1]
      unfold occupiedCount
      simp only [hsome]
      exact key r

/-! ## The ray walk of `checkWinner` -/

theorem collect_succ_pos (b : Board) (s : Side) (dr dc : Int) (fuel : Nat) (r c : Int)
    (h : b.get r c = some (some s)) :
    collect b s dr dc (fuel + 1) r c = (r, c) :: collect b s dr dc fuel (r + dr) (c + dc) := by
  obtain ⟨hb, -⟩ := get_eq_some _ _ _ _ h
  unfold inBounds at hb
  rw [collect, if_pos ⟨hb.1, hb.2.1, hb.2.2.1, hb.2.2.2, h⟩]

theorem collect_succ_neg (b : Board) (s : Side) (dr dc : Int) (fuel : Nat) (r c : Int)
    (h : b.get r c ≠ some (some s)) :
    collect b s dr dc (fuel + 1) r c = [] := by
  rw [collect, if_neg (fun hg => h hg.2.2.2.2)]

theorem collect_all (b : Board) (s : Side) (dr dc : Int) (fuel : Nat) (r c : Int) :
    ∀ p ∈ collect b s dr dc fuel r c, b.get p.1 p.2 = some (some s) := by
  induction fuel generalizing r c with
  | zero => intro p hp; simp [collect] at hp
  | succ n ih =>
    intro p hp
    by_cases h : b.get r c = some (some s)
    · rw [collect_succ_pos _ _ _ _ _ _ _ h] at hp
      rcases List.mem_cons.mp hp with rfl | hp'
      · exact h
      · exact ih _ _ p hp'
    · rw [collect_succ_neg _ _ _ _ _ _ _ h] at hp
      simp at hp

theorem collect_length_le (b : Board) (s : Side) (dr dc : Int) (fuel : Nat) (r c : Int) :
    (collect b s dr dc fuel r c).length ≤ fuel := by
  induction fuel generalizing r c with
  | zero => simp [collect]
  | succ n ih =>
    by_cases h : b.get r c = some (some s)
    · rw [collect_succ_pos _ _ _ _ _ _ _ h]
      have := ih (r + dr) (c + dc)
      simp only [List.length_cons]
      omega
    · rw [collect_succ_neg _ _ _ _ _ _ _ h]
      simp

theorem collect_eq_map (b : Board) (s : Side) (dr dc : Int) (fuel : Nat) (r c : Int) :
    collect b s dr dc fuel r c =
      (List.range (collect b s dr dc fuel r c).length).map
        (fun k : Nat => (r + (k : Int) * dr, c + (k : Int) * dc)) := by
  induction fuel generalizing r c with
  | zero => simp [collect]
  | succ n ih =>
    by_cases h : b.get r c = some (some s)
    · rw [collect_succ_pos _ _ _ _ _ _ _ h]
      simp only [List.length_cons, List.range_succ_eq_map, List.map_cons, List.map_map]
      congr 1
      · simp
      · conv_lhs => rw [ih (r + dr) (c + dc)]
        apply List.map_congr_left
        intro k _
        simp only [Function.comp, Nat.cast_succ, Prod.mk.injEq]
        constructor <;> ring
    · rw [collect_succ_neg _ _ _ _ _ _ _ h]
      simp

theorem get_collect (b : Board) (s : Side) (dr dc : Int) (fuel : Nat) (r c : Int) (k : Nat)
    (hk : k < (collect b s dr dc fuel r c).length) :
    b.get (r + (k : Int) * dr) (c + (k : Int) * dc) = some (some s) := by
  have hmem : (r + (k : Int) * dr, c + (k : Int) * dc) ∈ collect b s dr dc fuel r c := by
    rw [collect_eq_map]
    exact List.mem_map.mpr ⟨k, List.mem_range.mpr hk, rfl⟩
  exact collect_all _ _ _ _ _ _ _ _ hmem

theorem le_length_collect (b : Board) (s : Side) (dr dc : Int) (fuel : Nat) (r c : Int) (n : Nat)
    (hn : n ≤ fuel)
    (h : ∀ k : Nat, k < n → b.get (r + (k : Int) * dr) (c + (k : Int) * dc) = some (some s)) :
    n ≤ (collect b s dr dc fuel r c).length := by
  induction fuel generalizing r c n with
  | zero => omega
  | succ m ih =>
    rcases Nat.eq_zero_or_pos n with rfl | hpos
    · omega
    · have h0 : b.get r c = some (some s) := by simpa using h 0 hpos
      rw [collect_succ_pos _ _ _ _ _ _ _ h0]
      simp only [List.length_cons]
      have := ih (r + dr) (c + dc) (n - 1) (by omega) (by
        intro k hk
        have := h (k + 1) (by omega)
        have e1 : r + dr + (k : Int) * dr = r + ((k + 1 : Nat) : Int) * dr := by
          push_cast; ring
        have e2 : c + dc + (k : Int) * dc = c + ((k + 1 : Nat) : Int) * dc := by
          push_cast; ring
        rw [e1, e2]; exact this)
      omega

/-- The bound 7 on the loop of `collect` is never what stops it: from a
neighbour of an in-bounds cell, along a non-zero step, the guard fails within
7 evaluations, so any larger bound gives the same cells. -/
theorem collect_fuel (b : Board) (s : Side) (dr dc : Int) (row col : Int)
    (hb : inBounds row col) (hd : dr ≠ 0 ∨ dc ≠ 0) (n : Nat) (hn : 7 ≤ n) :
    collect b s dr dc n (row + dr) (col + dc) = collect b s dr dc 7 (row + dr) (col + dc) := by
  have hstop : ∀ (fuel : Nat) (r c : Int) (m : Nat),
      (collect b s dr dc fuel r c).length < fuel → fuel ≤ m →
      collect b s dr dc m r c = collect b s dr dc fuel r c := by
    intro fuel
    induction fuel with
    | zero => intro r c m h; simp at h
    | succ k ih =>
      intro r c m h hm
      obtain ⟨m', rfl⟩ : ∃ m', m = m' + 1 := ⟨m - 1, by omega⟩
      by_cases hg : b.get r c = some (some s)
      · rw [collect_succ_pos _ _ _ _ _ _ _ hg] at h ⊢
        rw [collect_succ_pos _ _ _ _ _ _ _ hg]
        simp only [List.length_cons] at h
        rw [ih (r + dr) (c + dc) m' (by omega) (by omega)]
      · rw [collect_succ_neg _ _ _ _ _ _ _ hg, collect_succ_neg _ _ _ _ _ _ _ hg]
  apply hstop 7 _ _ n _ hn
  by_contra hlt
  have hlen : 6 < (collect b s dr dc 7 (row + dr) (col + dc)).length := by
    have := collect_length_le b s dr dc 7 (row + dr) (col + dc)
    omega
  have h6 := get_collect b s dr dc 7 (row + dr) (col + dc) 6 hlen
  have h0 := get_collect b s dr dc 7 (row + dr) (col + dc) 0 (by omega)
  obtain ⟨hb6, -⟩ := get_eq_some _ _ _ _ h6
  obtain ⟨hb0, -⟩ := get_eq_some _ _ _ _ h0
  unfold inBounds at hb hb6 hb0
  simp only [Nat.cast_ofNat, Nat.cast_zero] at hb6 hb0
  rcases hd with hd | hd <;> omega

/-! ## `checkWinner` -/

theorem lineCells_length (b : Board) (s : Side) (row col : Int) (d : (Int × Int) × (Int × Int)) :
    (lineCells b s row col d).length =
      1 + (collect b s d.1.1 d.1.2 7 (row + d.1.1) (col + d.1.2)).length +
        (collect b s d.2.1 d.2.2 7 (row + d.2.1) (col + d.2.2)).length := by
  simp [lineCells]; omega

theorem lineCells_length_iff (b : Board) (s : Side) (row col dr dc : Int)
    (hcell : b.get row col = some (some s)) :
    4 ≤ (lineCells b s row col ((dr, dc), (-dr, -dc))).length ↔
      ∃ a : Nat, a ≤ 3 ∧ ∀ k : Nat, k ≤ 3 →
        b.get (row + ((k : Int) - (a : Int)) * dr) (col + ((k : Int) - (a : Int)) * dc)
          = some (some s) := by
  rw [lineCells_length]
  simp only
  constructor
  · intro hlen
    have hwin : ∀ a : Nat, a ≤ 3 →
        a ≤ (collect b s (-dr) (-dc) 7 (row + -dr) (col + -dc)).length →
        3 - a ≤ (collect b s dr dc 7 (row + dr) (col + dc)).length →
        ∀ k : Nat, k ≤ 3 →
          b.get (row + ((k : Int) - (a : Int)) * dr) (col + ((k : Int) - (a : Int)) * dc)
            = some (some s) := by
      intro a _ h2 h1 k hk
      rcases Nat.lt_trichotomy k a with hlt | heq | hgt
      · obtain ⟨j, hj⟩ : ∃ j : Nat, a = k + j + 1 := ⟨a - k - 1, by omega⟩
        have hg := get_collect b s (-dr) (-dc) 7 (row + -dr) (col + -dc) j (by omega)
        have e : (k : Int) - (a : Int) = -((j : Int) + 1) := by omega
        have e1 : row + -dr + (j : Int) * -dr = row + ((k : Int) - (a : Int)) * dr := by
          rw [e]; ring
        have e2 : col + -dc + (j : Int) * -dc = col + ((k : Int) - (a : Int)) * dc := by
          rw [e]; ring
        rw [e1, e2] at hg; exact hg
      · subst heq; simpa using hcell
      · obtain ⟨j, hj⟩ : ∃ j : Nat, k = a + j + 1 := ⟨k - a - 1, by omega⟩
        have hg := get_collect b s dr dc 7 (row + dr) (col + dc) j (by omega)
        have e : (k : Int) - (a : Int) = (j : Int) + 1 := by omega
        have e1 : row + dr + (j : Int) * dr = row + ((k : Int) - (a : Int)) * dr := by
          rw [e]; ring
        have e2 : col + dc + (j : Int) * dc = col + ((k : Int) - (a : Int)) * dc := by
          rw [e]; ring
        rw [e1, e2] at hg; exact hg
    by_cases h3 : 3 ≤ (collect b s (-dr) (-dc) 7 (row + -dr) (col + -dc)).length
    · exact ⟨3, le_refl _, hwin 3 (le_refl _) h3 (by omega)⟩
    · exact ⟨_, by omega, hwin _ (by omega) (le_refl _) (by omega)⟩
  · rintro ⟨a, ha, hw⟩
    have h1 : 3 - a ≤ (collect b s dr dc 7 (row + dr) (col + dc)).length := by
      apply le_length_collect _ _ _ _ _ _ _ _ (by omega)
      intro j hj
      have hg := hw (a + j + 1) (by omega)
      have e : ((a + j + 1 : Nat) : Int) - (a : Int) = (j : Int) + 1 := by omega
      have e1 : row + dr + (j : Int) * dr =
          row + (((a + j + 1 : Nat) : Int) - (a : Int)) * dr := by rw [e]; ring
      have e2 : col + dc + (j : Int) * dc =
          col + (((a + j + 1 : Nat) : Int) - (a : Int)) * dc := by rw [e]; ring
      rw [e1, e2]; exact hg
    have h2 : a ≤ (collect b s (-dr) (-dc) 7 (row + -dr) (col + -dc)).length := by
      apply le_length_collect _ _ _ _ _ _ _ _ (by omega)
      intro j hj
      have hg := hw (a - j - 1) (by omega)
      have e : ((a - j - 1 : Nat) : Int) - (a : Int) = -((j : Int) + 1) := by omega
      have e1 : row + -dr + (j : Int) * -dr =
          row + (((a - j - 1 : Nat) : Int) - (a : Int)) * dr := by rw [e]; ring
      have e2 : col + -dc + (j : Int) * -dc =
          col + (((a - j - 1 : Nat) : Int) - (a : Int)) * dc := by rw [e]; ring
      rw [e1, e2]; exact hg
    omega

theorem checkWinnerCells_of_cell (b : Board) (s : Side) (row col : Int)
    (hcell : b.get row col = some (some s)) :
    checkWinnerCells b row col =
      (directions.find? (fun d => decide (4 ≤ (lineCells b s row col d).length))).map
        (fun d => (s, lineCells b s row col d)) := by
  unfold checkWinnerCells
  rw [hcell]
  simp only
  cases directions.find? (fun d => decide (4 ≤ (lineCells b s row col d).length)) <;> rfl

theorem checkWinnerCells_of_empty (b : Board) (row col : Int)
    (hcell : ∀ s, b.get row col ≠ some (some s)) : checkWinnerCells b row col = none := by
  unfold checkWinnerCells
  split
  · rename_i p hp; exact absurd hp (hcell p)
  · rfl

theorem checkWinner_of_cell (b : Board) (s : Side) (row col : Int)
    (hcell : b.get row col = some (some s)) :
    (checkWinner b row col = some s ↔
      ∃ d ∈ directions, 4 ≤ (lineCells b s row col d).length) ∧
    (checkWinner b row col = none ↔
      ¬ ∃ d ∈ directions, 4 ≤ (lineCells b s row col d).length) := by
  unfold checkWinner
  rw [checkWinnerCells_of_cell b s row col hcell]
  cases hf : directions.find? (fun d => decide (4 ≤ (lineCells b s row col d).length)) with
  | none =>
    rw [List.find?_eq_none] at hf
    have hne : ¬ ∃ d ∈ directions, 4 ≤ (lineCells b s row col d).length :=
      fun ⟨d, hd, h⟩ => hf d hd (by simpa using h)
    simp only [Option.map_none']
    exact ⟨⟨fun h => by simp at h, fun h => absurd h hne⟩, ⟨fun _ => hne, fun _ => trivial⟩⟩
  | some d =>
    have h1 := List.find?_some hf
    have h2 := List.mem_of_find?_eq_some hf
    simp only [decide_eq_true_eq] at h1
    have hex : ∃ d ∈ directions, 4 ≤ (lineCells b s row col d).length := ⟨d, h2, h1⟩
    simp only [Option.map_some']
    exact ⟨⟨fun _ => hex, fun _ => trivial⟩, ⟨fun h => by simp at h, fun h => absurd hex h⟩⟩

theorem exists_direction_iff_fourInLine (b : Board) (s : Side) (row col : Int)
    (hcell : b.get row col = some (some s)) :
    (∃ d ∈ directions, 4 ≤ (lineCells b s row col d).length) ↔ fourInLine b s row col := by
  have hin : ∀ (r c : Int), b.get r c = some (some s) ↔
      (inBounds r c ∧ b.get r c = some (some s)) :=
    fun r c => ⟨fun h => ⟨(get_eq_some _ _ _ _ h).1, h⟩, fun h => h.2⟩
  have h1 := lineCells_length_iff b s row col 0 1 hcell
  have h2 := lineCells_length_iff b s row col 1 0 hcell
  have h3 := lineCells_length_iff b s row col 1 1 hcell
  have h4 := lineCells_length_iff b s row col 1 (-1) hcell
  simp only [neg_zero, neg_neg] at h1 h2 h3 h4
  unfold fourInLine
  simp only [directions, lineDirs, List.mem_cons, List.mem_singleton, List.mem_nil_iff,
    or_false, exists_eq_or_imp, exists_eq_left, h1, h2, h3, h4, ← hin]

/-- C1: for every board and in-bounds cell `(row, col)`: on an empty cell
`checkWinner` returns `null`; on a cell holding `s` it returns `s` exactly when
four consecutive in-bounds cells of one horizontal, vertical, diagonal or
anti-diagonal line include `(row, col)` and all hold `s`, and `null`
otherwise. -/
theorem checkWinner_iff_fourInLine (board : Board) (row : Fin 6) (col : Fin 7) :
    (board row col = none → checkWinner board (row.val : Int) (col.val : Int) = none) ∧
    (∀ s : Side, board row col = some s →
      (checkWinner board (row.val : Int) (col.val : Int) = some s ↔
        fourInLine board s (row.val : Int) (col.val : Int)) ∧
      (¬ fourInLine board s (row.val : Int) (col.val : Int) →
        checkWinner board (row.val : Int) (col.val : Int) = none)) := by
  constructor
  · intro h
    unfold checkWinner
    rw [checkWinnerCells_of_empty]
    · rfl
    · intro s; rw [get_fin, h]; simp
  · intro s h
    have hcell : board.get (row.val : Int) (col.val : Int) = some (some s) := by
      rw [get_fin, h]
    have hw := checkWinner_of_cell board s _ _ hcell
    have hf := exists_direction_iff_fourInLine board s _ _ hcell
    exact ⟨hw.1.trans hf, fun hn => hw.2.mpr (fun he => hn (hf.mp he))⟩

theorem step_ne_zero (dr dc : Int) (hd : dr ≠ 0 ∨ dc ≠ 0) (n : Int) (hn : n ≠ 0)
    (h1 : n * dr = 0) (h2 : n * dc = 0) : False := by
  rcases hd with hd | hd
  · rcases mul_eq_zero.mp h1 with h | h
    · exact hn h
    · exact hd h
  · rcases mul_eq_zero.mp h2 with h | h
    · exact hn h
    · exact hd h

theorem mem_collect (b : Board) (s : Side) (dr dc : Int) (fuel : Nat) (r c : Int)
    (p : Int × Int) (hp : p ∈ collect b s dr dc fuel r c) :
    ∃ j : Nat, p = (r + (j : Int) * dr, c + (j : Int) * dc) := by
  rw [collect_eq_map] at hp
  obtain ⟨j, -, hj⟩ := List.mem_map.mp hp
  exact ⟨j, hj.symm⟩

theorem collect_nodup (b : Board) (s : Side) (dr dc : Int) (hd : dr ≠ 0 ∨ dc ≠ 0)
    (fuel : Nat) (r c : Int) : (collect b s dr dc fuel r c).Nodup := by
  rw [collect_eq_map]
  apply List.Nodup.map_on _ (List.nodup_range _)
  intro x _ y _ hxy
  simp only [Prod.mk.injEq] at hxy
  by_contra hne
  have hn : (x : Int) - (y : Int) ≠ 0 := by omega
  exact step_ne_zero dr dc hd _ hn (by linarith [hxy.1]) (by linarith [hxy.2])

theorem lineCells_nodup (b : Board) (s : Side) (row col dr dc : Int) (hd : dr ≠ 0 ∨ dc ≠ 0) :
    (lineCells b s row col ((dr, dc), (-dr, -dc))).Nodup := by
  have hd' : -dr ≠ 0 ∨ -dc ≠ 0 := by
    rcases hd with h | h
    · left; omega
    · right; omega
  unfold lineCells
  simp only
  rw [List.nodup_cons, List.nodup_append]
  refine ⟨?_, collect_nodup _ _ _ _ hd _ _ _, collect_nodup _ _ _ _ hd' _ _ _, ?_⟩
  · intro hmem
    rcases List.mem_append.mp hmem with h | h
    · obtain ⟨j, hj⟩ := mem_collect _ _ _ _ _ _ _ _ h
      simp only [Prod.mk.injEq] at hj
      exact step_ne_zero dr dc hd ((j : Int) + 1) (by omega)
        (by linarith [hj.1]) (by linarith [hj.2])
    · obtain ⟨j, hj⟩ := mem_collect _ _ _ _ _ _ _ _ h
      simp only [Prod.mk.injEq] at hj
      exact step_ne_zero dr dc hd ((j : Int) + 1) (by omega)
        (by linarith [hj.1]) (by linarith [hj.2])
  · intro p hp1 hp2
    obtain ⟨j, hj⟩ := mem_collect _ _ _ _ _ _ _ _ hp1
    obtain ⟨j', hj'⟩ := mem_collect _ _ _ _ _ _ _ _ hp2
    rw [hj] at hj'
    simp only [Prod.mk.injEq] at hj'
    exact step_ne_zero dr dc hd ((j : Int) + (j' : Int) + 2) (by omega)
      (by linarith [hj'.1]) (by linarith [hj'.2])

theorem lineCells_on_line (b : Board) (s : Side) (row col dr dc : Int)
    (hcell : b.get row col = some (some s)) :
    ∀ p ∈ lineCells b s row col ((dr, dc), (-dr, -dc)),
      (inBounds p.1 p.2 ∧ b.get p.1 p.2 = some (some s)) ∧
      ∃ k : Int, p = (row + k * dr, col + k * dc) := by
  intro p hp
  unfold lineCells at hp
  simp only at hp
  rcases List.mem_cons.mp hp with rfl | hp'
  · exact ⟨⟨(get_eq_some _ _ _ _ hcell).1, hcell⟩, 0, by simp⟩
  · rcases List.mem_append.mp hp' with h | h
    · have hg := collect_all _ _ _ _ _ _ _ p h
      refine ⟨⟨(get_eq_some _ _ _ _ hg).1, hg⟩, ?_⟩
      obtain ⟨j, hj⟩ := mem_collect _ _ _ _ _ _ _ _ h
      exact ⟨(j : Int) + 1, by rw [hj]; simp only [Prod.mk.injEq]; constructor <;> ring⟩
    · have hg := collect_all _ _ _ _ _ _ _ p h
      refine ⟨⟨(get_eq_some _ _ _ _ hg).1, hg⟩, ?_⟩
      obtain ⟨j, hj⟩ := mem_collect _ _ _ _ _ _ _ _ h
      exact ⟨-((j : Int) + 1), by rw [hj]; simp only [Prod.mk.injEq]; constructor <;> ring⟩

theorem directions_eq :
    directions = lineDirs.map (fun d => ((d.1, d.2), (-d.1, -d.2))) := by
  decide

theorem lineDirs_ne_zero : ∀ d ∈ lineDirs, d.1 ≠ 0 ∨ d.2 ≠ 0 := by
  decide

theorem checkWinnerCells_eq_some (b : Board) (row col : Int) (s : Side)
    (cells : List (Int × Int)) (h : checkWinnerCells b row col = some (s, cells)) :
    b.get row col = some (some s) ∧
    ∃ d ∈ lineDirs, cells = lineCells b s row col ((d.1, d.2), (-d.1, -d.2)) ∧
      4 ≤ cells.length := by
  have hcell : ∃ s', b.get row col = some (some s') := by
    by_contra hne
    rw [checkWinnerCells_of_empty b row col (fun s' hs => hne ⟨s', hs⟩)] at h
    simp at h
  obtain ⟨s', hs'⟩ := hcell
  rw [checkWinnerCells_of_cell b s' row col hs'] at h
  cases hf : directions.find? (fun d => decide (4 ≤ (lineCells b s' row col d).length)) with
  | none => rw [hf] at h; simp at h
  | some d =>
    rw [hf] at h
    simp only [Option.map_some', Option.some.injEq, Prod.mk.injEq] at h
    obtain ⟨rfl, rfl⟩ := h
    have h1 := List.find?_some hf
    have h2 := List.mem_of_find?_eq_some hf
    simp only [decide_eq_true_eq] at h1
    rw [directions_eq] at h2
    obtain ⟨d', hd', rfl⟩ := List.mem_map.mp h2
    exact ⟨hs', d', hd', rfl, h1⟩

/-- C2: whenever `checkWinner` reports a winner `s` at an in-bounds cell, the
cells it records contain `(row, col)`, are at least 4 pairwise distinct
in-bounds cells, all hold `s`, and all lie on one line through `(row, col)`
with a constant step (horizontal, vertical, diagonal or anti-diagonal). -/
theorem checkWinner_cells_sound (board : Board) (row : Fin 6) (col : Fin 7) (s : Side)
    (cells : List (Int × Int))
    (h : checkWinnerCells board (row.val : Int) (col.val : Int) = some (s, cells)) :
    checkWinner board (row.val : Int) (col.val : Int) = some s ∧
    board row col = some s ∧
    ((row.val : Int), (col.val : Int)) ∈ cells ∧
    4 ≤ cells.length ∧
    cells.Nodup ∧
    (∀ p ∈ cells, inBounds p.1 p.2 ∧ board.get p.1 p.2 = some (some s)) ∧
    ∃ d ∈ lineDirs, ∀ p ∈ cells, ∃ k : Int,
      p = ((row.val : Int) + k * d.1, (col.val : Int) + k * d.2) := by
  obtain ⟨hcell, d, hd, rfl, hlen⟩ := checkWinnerCells_eq_some _ _ _ _ _ h
  refine ⟨by simp [checkWinner, h], ?_, ?_, hlen, ?_, ?_, d, hd, ?_⟩
  · rw [get_fin] at hcell; simpa using hcell
  · simp [lineCells]
  · exact lineCells_nodup _ _ _ _ _ _ (lineDirs_ne_zero d hd)
  · exact fun p hp => (lineCells_on_line _ _ _ _ _ _ hcell p hp).1
  · exact fun p hp => (lineCells_on_line _ _ _ _ _ _ hcell p hp).2

/-! ## Valid columns -/

theorem mem_getValidMoves (b : Board) (c : Int) :
    c ∈ getValidMoves b ↔ (0 ≤ c ∧ c < 7) ∧ getAvailableRow b c ≠ -1 := by
  unfold getValidMoves
  simp only [List.mem_filter, List.mem_cons, List.mem_singleton, List.mem_nil_iff, or_false,
    decide_eq_true_eq]
  constructor
  · rintro ⟨h, h'⟩; exact ⟨by omega, h'⟩
  · rintro ⟨h, h'⟩; exact ⟨by omega, h'⟩

theorem getValidMoves_sorted (b : Board) : (getValidMoves b).Pairwise (· < ·) := by
  unfold getValidMoves
  exact List.Pairwise.sublist (List.filter_sublist _) (by decide)

theorem find?_eq_min?_filter (p : Int → Bool) (l : List Int) (hl : l.Pairwise (· < ·)) :
    l.find? p = (l.filter p).min? := by
  cases hf : l.find? p with
  | none =>
    rw [List.find?_eq_none] at hf
    have : l.filter p = [] := List.filter_eq_nil_iff.mpr hf
    rw [this]; rfl
  | some a =>
    haveI : Std.Antisymm (fun (x y : Int) => x ≤ y) := ⟨fun h1 h2 => le_antisymm h1 h2⟩
    symm
    rw [List.min?_eq_some_iff (fun a => le_refl a) (fun a b => min_choice a b)
      (fun a b c => le_min_iff)]
    obtain ⟨hpa, as, bs, rfl, has⟩ := List.find?_eq_some.mp hf
    refine ⟨List.mem_filter.mpr ⟨by simp, hpa⟩, fun x hx => ?_⟩
    obtain ⟨hx1, hx2⟩ := List.mem_filter.mp hx
    rcases List.mem_append.mp hx1 with h | h
    · have := has x h
      simp [hx2] at this
    · rcases List.mem_cons.mp h with rfl | h'
      · exact le_refl _
      · have hp := (List.pairwise_append.mp hl).2.1
        exact le_of_lt (List.rel_of_pairwise_cons hp h')

/-! ## The fallback choice -/

theorem chain_eq_findSome (o1 o2 o3 o4 o5 : Option Int) :
    (let chosen2 := if o1 = none then o2 else o1
     let chosen3 := if chosen2 = none then o3 else chosen2
     let chosen4 := if chosen3 = none then o4 else chosen3
     if chosen4 = none then o5 else chosen4) = [o1, o2, o3, o4, o5].findSome? id := by
  cases o1 <;> cases o2 <;> cases o3 <;> cases o4 <;> cases o5 <;> rfl

theorem head_filter_column (l : List Threat) (p : Threat → Bool) :
    (match l.filter p with
      | t :: _ => some t.column
      | [] => none) = (l.find? p).map Threat.column := by
  rw [← List.filter_head?]
  cases l.filter p <;> rfl

theorem contains_eq_decide_mem (l : List Int) (c : Int) : l.contains c = decide (c ∈ l) := by
  rw [Bool.eq_iff_iff]; simp

theorem fallbackChoice_eq_priority (board : Board) :
    fallbackChoice board = fallbackPriority board := by
  unfold fallbackPriority
  rw [← chain_eq_findSome]
  unfold fallbackChoice smallestWinning firstThreatColumn firstCenter centerPriority
  simp only [head_filter_column, ← find?_eq_min?_filter _ _ (getValidMoves_sorted board),
    contains_eq_decide_mem, Bool.decide_and]

theorem find?_sorted_least (p : Int → Bool) (l : List Int) (hl : l.Pairwise (· < ·)) (a : Int)
    (hf : l.find? p = some a) : a ∈ l ∧ p a = true ∧ ∀ x ∈ l, p x = true → a ≤ x := by
  obtain ⟨hpa, as, bs, rfl, has⟩ := List.find?_eq_some.mp hf
  refine ⟨by simp, hpa, fun x hx hpx => ?_⟩
  rcases List.mem_append.mp hx with h | h
  · have := has x h
    simp [hpx] at this
  · rcases List.mem_cons.mp h with rfl | h'
    · exact le_refl _
    · have hp := (List.pairwise_append.mp hl).2.1
      exact le_of_lt (List.rel_of_pairwise_cons hp h')

theorem fallbackChoice_of_win (board : Board) (c : Int)
    (h : (getValidMoves board).find? (fun col => checkWinningMove board col Side.yellow)
      = some c) : fallbackChoice board = some c := by
  unfold fallbackChoice
  simp [h]

theorem findSome_id_elim (P : Int → Prop) (l : List (Option Int)) (c : Int)
    (h : ∀ o ∈ l, o = some c → P c) (hf : l.findSome? id = some c) : P c := by
  induction l with
  | nil => simp at hf
  | cons o l ih =>
    cases o with
    | none =>
      rw [List.findSome?_cons] at hf
      exact ih (fun o ho => h o (List.mem_cons_of_mem _ ho)) hf
    | some x =>
      rw [List.findSome?_cons] at hf
      simp only [id, Option.some.injEq] at hf
      subst hf
      exact h (some x) (List.mem_cons_self _ _) rfl

theorem fallbackChoice_mem (board : Board) (c : Int) (h : fallbackChoice board = some c) :
    c ∈ getValidMoves board := by
  rw [fallbackChoice_eq_priority] at h
  unfold fallbackPriority at h
  apply findSome_id_elim (fun c => c ∈ getValidMoves board) _ c _ h
  intro o ho hoc
  have hwin : ∀ side, smallestWinning board side = some c → c ∈ getValidMoves board := by
    intro side hs
    unfold smallestWinning at hs
    rw [← find?_eq_min?_filter _ _ (getValidMoves_sorted board)] at hs
    exact List.mem_of_find?_eq_some hs
  have hthreat : ∀ ty, firstThreatColumn board ty = some c → c ∈ getValidMoves board := by
    intro ty hs
    unfold firstThreatColumn at hs
    obtain ⟨t, ht, rfl⟩ := Option.map_eq_some'.mp hs
    have := List.find?_some ht
    simp only [decide_eq_true_eq] at this
    exact this.2
  simp only [List.mem_cons, List.mem_singleton, List.mem_nil_iff, or_false] at ho
  rcases ho with rfl | rfl | rfl | rfl | rfl
  · exact hwin _ hoc
  · exact hwin _ hoc
  · exact hthreat _ hoc
  · exact hthreat _ hoc
  · unfold firstCenter at hoc
    have := List.find?_some hoc
    simpa using this

theorem fallbackChoice_isSome (board : Board) (h : getValidMoves board ≠ []) :
    ∃ c, fallbackChoice board = some c := by
  obtain ⟨x, hx⟩ := List.exists_mem_of_ne_nil _ h
  have hx' := (mem_getValidMoves board x).mp hx
  have hmem : x ∈ ([3, 2, 4, 1, 5, 0, 6] : List Int) := by
    simp only [List.mem_cons, List.mem_singleton, List.mem_nil_iff, or_false]
    omega
  have hc : ∃ c, firstCenter board = some c := by
    unfold firstCenter
    cases hf : ([3, 2, 4, 1, 5, 0, 6] : List Int).find?
        (fun c => decide (c ∈ getValidMoves board)) with
    | none =>
      rw [List.find?_eq_none] at hf
      exact absurd (by simpa using hx) (hf x hmem)
    | some c => exact ⟨c, rfl⟩
  obtain ⟨c, hc⟩ := hc
  rw [fallbackChoice_eq_priority]
  unfold fallbackPriority
  rw [hc]
  cases smallestWinning board Side.yellow <;> cases smallestWinning board Side.red <;>
    cases firstThreatColumn board ThreatType.critical <;>
    cases firstThreatColumn board ThreatType.immediate <;>
    simp [List.findSome?]

theorem placePiece_board (s : State) (row col : Int) (side : Side) (next : Player) :
    (placePiece s row col side next).board = s.board.set row col (some side) ∧
    (placePiece s row col side next).lastMove = some (row, col) := by
  unfold placePiece
  simp only
  split
  · exact ⟨rfl, rfl⟩
  · split <;> exact ⟨rfl, rfl⟩

/-- C3: on every board with a valid column that wins immediately for yellow,
the fallback chooses the smallest such column, whatever red threatens. -/
theorem fallback_prefers_win (board : Board)
    (h : ∃ c ∈ getValidMoves board, checkWinningMove board c Side.yellow = true) :
    ∃ c, fallbackChoice board = some c ∧ c ∈ getValidMoves board ∧
      checkWinningMove board c Side.yellow = true ∧
      ∀ c' ∈ getValidMoves board, checkWinningMove board c' Side.yellow = true → c ≤ c' := by
  cases hf : (getValidMoves board).find? (fun col => checkWinningMove board col Side.yellow) with
  | none =>
    obtain ⟨c, hc, hw⟩ := h
    rw [List.find?_eq_none] at hf
    exact absurd hw (hf c hc)
  | some c =>
    obtain ⟨h1, h2, h3⟩ := find?_sorted_least _ _ (getValidMoves_sorted board) c hf
    exact ⟨c, fallbackChoice_of_win board c hf, h1, h2, h3⟩

/-- C3 on a board where column 4 wins for yellow and column 0 is a must-block
column for red: the fallback picks column 4. -/
theorem fallback_prefers_win_witness :
    (0 ∈ getValidMoves winBlockBoard ∧ checkWinningMove winBlockBoard 0 Side.red = true) ∧
    fallbackChoice winBlockBoard = some 4 ∧
    ∃ c, fallbackChoice winBlockBoard = some c ∧ c ∈ getValidMoves winBlockBoard ∧
      checkWinningMove winBlockBoard c Side.yellow = true ∧
      ∀ c' ∈ getValidMoves winBlockBoard,
        checkWinningMove winBlockBoard c' Side.yellow = true → c ≤ c' :=
  ⟨by decide, by decide, fallback_prefers_win winBlockBoard ⟨4, by decide, by decide⟩⟩

/-- C4: the column chosen by the fallback is the first defined value of the
priority list (1) smallest valid column winning for yellow, (2) smallest valid
column winning for red, (3) column of the first valid critical red threat,
(4) column of the first valid immediate red threat, (5) first valid column in
the order 3, 2, 4, 1, 5, 0, 6; on a board with a valid column it is defined. -/
theorem fallback_priority_order (board : Board) :
    fallbackChoice board = fallbackPriority board ∧
    (getValidMoves board ≠ [] → ∃ c, fallbackPriority board = some c) := by
  refine ⟨fallbackChoice_eq_priority board, fun h => ?_⟩
  obtain ⟨c, hc⟩ := fallbackChoice_isSome board h
  exact ⟨c, by rw [← fallbackChoice_eq_priority]; exact hc⟩

/-- C4 on a board with a valid column: the priority list is defined and the
fallback returns its value. -/
theorem fallback_priority_order_witness :
    getValidMoves mustBlockBoard ≠ [] ∧
    fallbackChoice mustBlockBoard = fallbackPriority mustBlockBoard ∧
    ∃ c, fallbackPriority mustBlockBoard = some c :=
  ⟨by decide, (fallback_priority_order mustBlockBoard).1,
    (fallback_priority_order mustBlockBoard).2 (by decide)⟩

theorem set_apply (b : Board) (r : Fin 6) (c : Fin 7) (v : Cell) (r' : Fin 6) (c' : Fin 7) :
    (b.set (r.val : Int) (c.val : Int) v) r' c' = if r' = r ∧ c' = c then v else b r' c' := by
  unfold Board.set
  by_cases h : r' = r ∧ c' = c
  · obtain ⟨rfl, rfl⟩ := h
    simp
  · rw [if_neg h, if_neg]
    rintro ⟨h1, h2⟩
    exact h ⟨Fin.ext (by omega), Fin.ext (by omega)⟩

theorem valid_column_cell (board : Board) (col : Int) (h : col ∈ getValidMoves board) :
    ∃ (c : Fin 7) (r : Fin 6), (c.val : Int) = col ∧
      getAvailableRow board col = (r.val : Int) ∧ board r c = none ∧
      ∀ r' : Fin 6, r < r' → board r' c ≠ none := by
  obtain ⟨hb, hne⟩ := (mem_getValidMoves board col).mp h
  have hc : ((⟨col.toNat, by omega⟩ : Fin 7).val : Int) = col := by
    simp only; omega
  rcases getAvailableRow_fin board ⟨col.toNat, by omega⟩ with ⟨h1, -⟩ | ⟨r, h1, h2, h3⟩
  · rw [hc] at h1; exact absurd h1 hne
  · rw [hc] at h1
    exact ⟨_, r, hc, h1, h2, h3⟩

theorem getValidMoves_eq_nil (board : Board) (h : getValidMoves board = []) :
    ∀ (r : Fin 6) (c : Fin 7), board r c ≠ none := by
  intro r c
  have hnot : (c.val : Int) ∉ getValidMoves board := by rw [h]; simp
  rw [mem_getValidMoves] at hnot
  have hc := c.isLt
  have h1 : getAvailableRow board (c.val : Int) = -1 := by
    by_contra hne
    exact hnot ⟨by omega, hne⟩
  exact (getAvailableRow_spec board c).1.mp h1 r

/-- C5: on a board with a valid column the fallback always produces a column,
that column is in `getValidMoves(board)`, and a yellow piece is written on the
lowest empty cell of that column and nowhere else; the fallback produces no
column only when every cell of the board is occupied. -/
theorem fallback_total (s : State) :
    (getValidMoves s.board ≠ [] →
      ∃ (c : Fin 7) (r : Fin 6),
        fallbackChoice s.board = some (c.val : Int) ∧
        (c.val : Int) ∈ getValidMoves s.board ∧
        getAvailableRow s.board (c.val : Int) = (r.val : Int) ∧
        s.board r c = none ∧
        (fallbackMove s).lastMove = some ((r.val : Int), (c.val : Int)) ∧
        (fallbackMove s).board r c = some Side.yellow ∧
        ∀ (r' : Fin 6) (c' : Fin 7), ¬ (r' = r ∧ c' = c) →
          (fallbackMove s).board r' c' = s.board r' c') ∧
    (fallbackChoice s.board = none → ∀ (r : Fin 6) (c : Fin 7), s.board r c ≠ none) := by
  constructor
  · intro h
    obtain ⟨col, hcol⟩ := fallbackChoice_isSome s.board h
    have hmem := fallbackChoice_mem s.board col hcol
    obtain ⟨c, r, rfl, hrow, hempty, -⟩ := valid_column_cell s.board col hmem
    have hmove : fallbackMove s =
        placePiece s (getAvailableRow s.board (c.val : Int)) (c.val : Int) Side.yellow
          Player.human := by
      unfold fallbackMove; rw [hcol]
    have hp := placePiece_board s (getAvailableRow s.board (c.val : Int)) (c.val : Int)
      Side.yellow Player.human
    rw [← hmove, hrow] at hp
    refine ⟨c, r, hcol, hmem, hrow, hempty, hp.2, ?_, ?_⟩
    · rw [hp.1, set_apply]; simp
    · intro r' c' hne
      rw [hp.1, set_apply, if_neg hne]
  · intro h
    apply getValidMoves_eq_nil
    by_contra hne
    obtain ⟨c, hc⟩ := fallbackChoice_isSome s.board hne
    rw [h] at hc
    simp at hc

/-- C5 on the position after three stacked red pieces in column 0: the
fallback drops a yellow piece on `(2, 0)`. -/
theorem fallback_total_witness :
    getValidMoves (aiToMove mustBlockBoard).board ≠ [] ∧
    fallbackChoice (aiToMove mustBlockBoard).board = some 0 ∧
    (fallbackMove (aiToMove mustBlockBoard)).board 2 0 = some Side.yellow ∧
    ∃ (c : Fin 7) (r : Fin 6),
      fallbackChoice (aiToMove mustBlockBoard).board = some (c.val : Int) ∧
      (c.val : Int) ∈ getValidMoves (aiToMove mustBlockBoard).board ∧
      getAvailableRow (aiToMove mustBlockBoard).board (c.val : Int) = (r.val : Int) ∧
      (aiToMove mustBlockBoard).board r c = none ∧
      (fallbackMove (aiToMove mustBlockBoard)).lastMove = some ((r.val : Int), (c.val : Int)) ∧
      (fallbackMove (aiToMove mustBlockBoard)).board r c = some Side.yellow ∧
      ∀ (r' : Fin 6) (c' : Fin 7), ¬ (r' = r ∧ c' = c) →
        (fallbackMove (aiToMove mustBlockBoard)).board r' c' =
          (aiToMove mustBlockBoard).board r' c' :=
  ⟨by decide, by decide, by decide,
    (fallback_total (aiToMove mustBlockBoard)).1 (by decide)⟩

/-! ## A reply whose column is text -/

theorem collectKey_eq_nil (b : Board) (s : Side) (dr dc : Int) (k : Fin 7) (fuel : Nat)
    (r t : Int) (ts : List Int) : collectKey b s dr dc k fuel r (t :: ts) = [] := by
  cases fuel with
  | zero => rfl
  | succ n =>
    have hg : keyGuard b s r k (t :: ts) = false := by simp [keyGuard, keyRead]
    rw [collectKey, hg]
    rfl

theorem checkWinnerKey_eq_none (b : Board) (row : Int) (k : Fin 7) :
    checkWinnerKey b row k = none := by
  unfold checkWinnerKey
  split
  · rw [if_neg]
    simp [directions, collectKey_eq_nil]
  · rfl

theorem placeKeyed_board (s : State) (row : Int) (k : Fin 7) :
    (placeKeyed s row k).board = s.board.set row (k.val : Int) (some Side.yellow) ∧
    (placeKeyed s row k).lastMove = some (row, (k.val : Int)) := by
  unfold placeKeyed
  simp only
  split
  · exact ⟨rfl, rfl⟩
  · split <;> exact ⟨rfl, rfl⟩

theorem placeKeyed_of_draw (s : State) (row : Int) (k : Fin 7)
    (hfull : isBoardFull (s.board.set row (k.val : Int) (some Side.yellow)) = true) :
    (placeKeyed s row k).winner = some Outcome.draw ∧
    (placeKeyed s row k).gameState = Phase.gameOver := by
  unfold placeKeyed
  simp [checkWinnerKey_eq_none, hfull]

theorem placeKeyed_of_continue (s : State) (row : Int) (k : Fin 7)
    (hfull : isBoardFull (s.board.set row (k.val : Int) (some Side.yellow)) = false) :
    (placeKeyed s row k).winner = s.winner ∧
    (placeKeyed s row k).gameState = s.gameState ∧
    (placeKeyed s row k).currentPlayer = Player.human := by
  unfold placeKeyed
  simp only [checkWinnerKey_eq_none, hfull]
  exact ⟨rfl, rfl, rfl⟩

/-! ## The automated turn -/

theorem makeAIMove_of_turn (s : State) (adv : Advisory)
    (hturn : s.currentPlayer = Player.ai ∧ s.gameState = Phase.playing) :
    makeAIMove s adv =
      { (match adv with
          | Advisory.reply column _ => advisoryMove s column
          | _ => fallbackMove s) with isAIThinking := false } := by
  unfold makeAIMove
  rw [if_neg (by simp [hturn.1, hturn.2])]

/-- C8: on the automated side's turn, when the advisory call throws, its text
is not JSON, or the parsed reply has no thoughts list, the turn is exactly the
fallback move for the same board: the piece goes to the fallback's column, and
the result is the same for each of the three failures (the single call is the
only one made). -/
theorem advisory_failure_uses_fallback (s : State) (adv : Advisory)
    (hturn : s.currentPlayer = Player.ai ∧ s.gameState = Phase.playing)
    (hfail : adv = Advisory.callThrows ∨ adv = Advisory.notJson ∨ adv = Advisory.noThoughts) :
    makeAIMove s adv = { fallbackMove s with isAIThinking := false } ∧
    (∀ c, fallbackChoice s.board = some c →
      (makeAIMove s adv).board =
        s.board.set (getAvailableRow s.board c) c (some Side.yellow) ∧
      (makeAIMove s adv).lastMove = some (getAvailableRow s.board c, c)) ∧
    (fallbackChoice s.board = none → (makeAIMove s adv).board = s.board) := by
  have hm : makeAIMove s adv = { fallbackMove s with isAIThinking := false } := by
    rw [makeAIMove_of_turn s adv hturn]
    rcases hfail with rfl | rfl | rfl <;> rfl
  refine ⟨hm, fun c hc => ?_, fun hc => ?_⟩
  · rw [hm]
    have hp := placePiece_board s (getAvailableRow s.board c) c Side.yellow Player.human
    have hf : fallbackMove s =
        placePiece s (getAvailableRow s.board c) c Side.yellow Player.human := by
      unfold fallbackMove; rw [hc]
    rw [hf]
    exact hp
  · rw [hm]
    unfold fallbackMove
    rw [hc]

/-- C8 on the position with three stacked red pieces in column 0 and a call
that throws: the automated turn drops yellow on `(2, 0)`, the fallback's
choice. -/
theorem advisory_failure_uses_fallback_witness :
    fallbackChoice (aiToMove mustBlockBoard).board = some 0 ∧
    (makeAIMove (aiToMove mustBlockBoard) Advisory.callThrows).lastMove = some (2, 0) ∧
    makeAIMove (aiToMove mustBlockBoard) Advisory.callThrows =
      { fallbackMove (aiToMove mustBlockBoard) with isAIThinking := false } :=
  ⟨by decide, by decide,
    (advisory_failure_uses_fallback (aiToMove mustBlockBoard) Advisory.callThrows
      ⟨rfl, rfl⟩ (Or.inl rfl)).1⟩

/-- C6, the claim as stated fails: with three red pieces stacked in column 0
the must-block set is `[0]` and the fallback chooses column 0, yet a reply
suggesting column 6 is played as it is (yellow lands on `(5, 6)` and `(2, 0)`
stays empty), and a reply suggesting column 5 is played on `(5, 5)`: the
column played follows the advisory content. -/
theorem advisory_ignores_must_block :
    (getValidMoves mustBlockBoard).filter
      (fun c => checkWinningMove mustBlockBoard c Side.red) = [0] ∧
    fallbackChoice mustBlockBoard = some 0 ∧
    (makeAIMove (aiToMove mustBlockBoard) (Advisory.reply (JsIndex.int 6) [])).lastMove
      = some (5, 6) ∧
    (makeAIMove (aiToMove mustBlockBoard) (Advisory.reply (JsIndex.int 6) [])).board 5 6
      = some Side.yellow ∧
    (makeAIMove (aiToMove mustBlockBoard) (Advisory.reply (JsIndex.int 6) [])).board 2 0
      = none ∧
    (makeAIMove (aiToMove mustBlockBoard) (Advisory.reply (JsIndex.int 5) [])).lastMove
      = some (5, 5) := by
  decide

/-- C6, amended: on the automated side's turn, for every board (whatever its
must-block set) and every parsed reply whose column is a valid column, the
turn plays exactly the suggested column: yellow is written on the lowest empty
cell of that column. -/
theorem advisory_valid_column_played (s : State) (col : Int) (thoughts : List String)
    (hturn : s.currentPlayer = Player.ai ∧ s.gameState = Phase.playing)
    (hvalid : col ∈ getValidMoves s.board) :
    (makeAIMove s (Advisory.reply (JsIndex.int col) thoughts)).board =
      s.board.set (getAvailableRow s.board col) col (some Side.yellow) ∧
    (makeAIMove s (Advisory.reply (JsIndex.int col) thoughts)).lastMove =
      some (getAvailableRow s.board col, col) := by
  rw [makeAIMove_of_turn s _ hturn]
  have hne := ((mem_getValidMoves s.board col).mp hvalid).2
  simp only [advisoryMove, if_pos hne]
  exact placePiece_board s (getAvailableRow s.board col) col Side.yellow Player.human

/-- C6 amended, on the must-block position with the suggestion 6. -/
theorem advisory_valid_column_played_witness :
    (6 : Int) ∈ getValidMoves (aiToMove mustBlockBoard).board ∧
    (makeAIMove (aiToMove mustBlockBoard) (Advisory.reply (JsIndex.int 6) ["x"])).lastMove =
      some (getAvailableRow (aiToMove mustBlockBoard).board 6, 6) :=
  ⟨by decide,
    (advisory_valid_column_played (aiToMove mustBlockBoard) 6 ["x"] ⟨rfl, rfl⟩
      (by decide)).2⟩

theorem advisory_invalid_column (s : State) (column : JsIndex) (thoughts : List String)
    (hturn : s.currentPlayer = Player.ai ∧ s.gameState = Phase.playing)
    (hbad : ∀ col, column = JsIndex.int col → getAvailableRow s.board col = -1)
    (hkey : ∀ k, column = JsIndex.key k → getAvailableRow s.board (k.val : Int) = -1) :
    makeAIMove s (Advisory.reply column thoughts) = { s with isAIThinking := false } := by
  rw [makeAIMove_of_turn s _ hturn]
  cases column with
  | other => rfl
  | int col =>
    have := hbad col rfl
    simp [advisoryMove, this]
  | key k =>
    have := hkey k rfl
    simp [advisoryMove, this]

/-- C7, the code at a failing input: after the human's first move in column 3
the board has valid columns and the fallback would choose column 3, but a
parsed reply with column 7 (or a column that is no index at all) places no
piece: the board and last move are unchanged and it is still the automated
side's turn. -/
theorem advisory_invalid_column_stalls :
    (handleColumnClick startGame 3).currentPlayer = Player.ai ∧
    (handleColumnClick startGame 3).gameState = Phase.playing ∧
    getValidMoves (handleColumnClick startGame 3).board = [0, 1, 2, 3, 4, 5, 6] ∧
    fallbackChoice (handleColumnClick startGame 3).board = some 3 ∧
    (makeAIMove (handleColumnClick startGame 3) (Advisory.reply (JsIndex.int 7) [])).board
      = (handleColumnClick startGame 3).board ∧
    (makeAIMove (handleColumnClick startGame 3) (Advisory.reply (JsIndex.int 7) [])).lastMove
      = some (5, 3) ∧
    (makeAIMove (handleColumnClick startGame 3)
      (Advisory.reply (JsIndex.int 7) [])).currentPlayer = Player.ai ∧
    (makeAIMove (handleColumnClick startGame 3) (Advisory.reply JsIndex.other [])).board
      = (handleColumnClick startGame 3).board ∧
    (makeAIMove (handleColumnClick startGame 3)
      (Advisory.reply JsIndex.other [])).currentPlayer = Player.ai := by
  decide

/-! ## Instances of the win detector and board model theorems -/

/-- C1 on the bottom row of `redRowBoard`: `checkWinner` returns red at
`(5, 0)`, so four red cells in line include `(5, 0)`. -/
theorem checkWinner_iff_fourInLine_witness :
    redRowBoard 5 0 = some Side.red ∧
    checkWinner redRowBoard 5 0 = some Side.red ∧
    fourInLine redRowBoard Side.red 5 0 :=
  ⟨by decide, by decide,
    ((checkWinner_iff_fourInLine redRowBoard 5 0).2 Side.red (by decide)).1.mp (by decide)⟩

/-- C2 on the bottom row of `redRowBoard`. -/
theorem checkWinner_cells_sound_witness :
    checkWinnerCells redRowBoard 5 0 = some (Side.red, [(5, 0), (5, 1), (5, 2), (5, 3)]) ∧
    ([(5, 0), (5, 1), (5, 2), (5, 3)] : List (Int × Int)).Nodup ∧
    ∃ d ∈ lineDirs, ∀ p ∈ ([(5, 0), (5, 1), (5, 2), (5, 3)] : List (Int × Int)),
      ∃ k : Int, p = (((5 : Fin 6).val : Int) + k * d.1, ((0 : Fin 7).val : Int) + k * d.2) :=
  ⟨by decide,
    (checkWinner_cells_sound redRowBoard 5 0 Side.red _ (by decide)).2.2.2.2.1,
    (checkWinner_cells_sound redRowBoard 5 0 Side.red _ (by decide)).2.2.2.2.2.2⟩

/-- C10 on column 0 of `mustBlockBoard`: the lowest empty row exists. -/
theorem getAvailableRow_lowest_empty_witness :
    getAvailableRow mustBlockBoard ((0 : Fin 7).val : Int) ≠ -1 ∧
    ∃ r : Fin 6, getAvailableRow mustBlockBoard ((0 : Fin 7).val : Int) = (r.val : Int) ∧
      mustBlockBoard r 0 = none ∧ ∀ r' : Fin 6, r < r' → mustBlockBoard r' 0 ≠ none :=
  ⟨by decide, (getAvailableRow_lowest_empty mustBlockBoard 0).2 (by decide)⟩

/-! ## `analyzePositions` -/

theorem playable_iff (board : Board) (r c : Int) (h : board.get r c = some none) :
    playable board r c = true ↔ playableCell board r c := by
  obtain ⟨hb, -⟩ := get_eq_some _ _ _ _ h
  unfold inBounds at hb
  unfold playable playableCell
  rw [decide_eq_true_eq]
  constructor
  · rintro (h5 | ⟨hlt, hne⟩)
    · exact Or.inl h5
    · right
      have hin : inBounds (r + 1) c := by unfold inBounds; omega
      unfold Board.get at hne ⊢
      unfold inBounds at hin
      rw [dif_pos hin] at hne ⊢
      cases hv : board ⟨(r + 1).toNat, by omega⟩ ⟨c.toNat, by omega⟩ with
      | none => rw [hv] at hne; exact absurd rfl hne
      | some s => exact ⟨s, rfl⟩
  · rintro (h5 | ⟨s, hs⟩)
    · exact Or.inl h5
    · right
      obtain ⟨hb', -⟩ := get_eq_some _ _ _ _ hs
      unfold inBounds at hb'
      refine ⟨by omega, ?_⟩
      rw [hs]; simp

theorem find?_filter_playable (board : Board) (w : List (Int × Int)) :
    (w.filter (fun p => decide (board.get p.1 p.2 = some none))).find?
        (fun p => playable board p.1 p.2) =
      w.find? (fun p => decide (board.get p.1 p.2 = some none ∧ playableCell board p.1 p.2)) := by
  induction w with
  | nil => rfl
  | cons p w ih =>
    by_cases he : board.get p.1 p.2 = some none
    · have hp := playable_iff board p.1 p.2 he
      rw [List.filter_cons_of_pos (by simpa using he)]
      by_cases hpl : playableCell board p.1 p.2
      · have h1 : playable board p.1 p.2 = true := hp.mpr hpl
        simp only [List.find?_cons, h1, he, hpl, and_self, decide_True]
      · have h1 : playable board p.1 p.2 = false := by
          rw [Bool.eq_false_iff]; exact fun h => hpl (hp.mp h)
        simp only [List.find?_cons, h1, he, hpl, and_false, decide_False]
        exact ih
    · rw [List.filter_cons_of_neg (by simpa using he)]
      simp only [List.find?_cons, he, false_and, decide_False]
      exact ih

theorem analyzePositions_nf (board : Board) (side : Side) (w : List (Int × Int)) :
    analyzePositions board w side =
      if w.countP (fun p => decide (board.get p.1 p.2 = some (some side))) = 3 ∧
          (w.filter (fun p => decide (board.get p.1 p.2 = some none))).length = 1 then
        (w.filter (fun p => decide (board.get p.1 p.2 = some none))).head?.bind
          (fun e => if playableCell board e.1 e.2 then
            some ⟨ThreatType.immediate, e.2, e.1, none⟩ else none)
      else if w.countP (fun p => decide (board.get p.1 p.2 = some (some side))) = 2 ∧
          (w.filter (fun p => decide (board.get p.1 p.2 = some none))).length = 2 then
        (w.find? (fun p => decide (board.get p.1 p.2 = some none ∧
            playableCell board p.1 p.2))).map
          (fun e => ⟨ThreatType.potential, e.2, e.1, none⟩)
      else none := by
  unfold analyzePositions
  simp only [List.countP_eq_length_filter, find?_filter_playable]
  split_ifs with h1 h2
  · obtain ⟨e, he⟩ := List.length_eq_one.mp h1.2
    have hmem : e ∈ w.filter (fun p => decide (board.get p.1 p.2 = some none)) := by
      rw [he]; simp
    have hempty : board.get e.1 e.2 = some none := by
      simpa using (List.mem_filter.mp hmem).2
    have hp := playable_iff board e.1 e.2 hempty
    rw [he]
    obtain ⟨r, c⟩ := e
    simp only [List.head?_cons, Option.some_bind]
    by_cases hpl : playableCell board r c
    · rw [if_pos hpl, if_pos (hp.mpr hpl)]
    · rw [if_neg hpl, if_neg (fun h => hpl (hp.mp h))]
  · cases w.find? (fun p => decide (board.get p.1 p.2 = some none ∧
        playableCell board p.1 p.2)) with
    | none => rfl
    | some e => obtain ⟨r, c⟩ := e; rfl
  · rfl

theorem analyzePositions_immediate_iff (board : Board) (side : Side) (w : List (Int × Int))
    (r c : Int) :
    analyzePositions board w side = some ⟨ThreatType.immediate, c, r, none⟩ ↔
      w.countP (fun p => decide (board.get p.1 p.2 = some (some side))) = 3 ∧
      w.filter (fun p => decide (board.get p.1 p.2 = some none)) = [(r, c)] ∧
      playableCell board r c := by
  rw [analyzePositions_nf]
  split_ifs with h1 h2
  · obtain ⟨e, he⟩ := List.length_eq_one.mp h1.2
    rw [he]
    simp only [List.head?_cons, Option.some_bind]
    constructor
    · intro h
      by_cases hpl : playableCell board e.1 e.2
      · rw [if_pos hpl] at h
        simp only [Option.some.injEq, Threat.mk.injEq, true_and, and_true] at h
        obtain ⟨rfl, rfl⟩ := h
        exact ⟨h1.1, rfl, hpl⟩
      · rw [if_neg hpl] at h; simp at h
    · rintro ⟨-, h, hpl⟩
      simp only [List.cons.injEq, and_true] at h
      subst h
      rw [if_pos hpl]
  · constructor
    · intro h
      obtain ⟨e, -, he⟩ := Option.map_eq_some'.mp h
      simp at he
    · rintro ⟨h, -, -⟩
      omega
  · constructor
    · intro h; simp at h
    · rintro ⟨h, he, -⟩
      exact absurd ⟨h, by rw [he]; rfl⟩ h1

theorem analyzePositions_potential_iff (board : Board) (side : Side) (w : List (Int × Int))
    (r c : Int) :
    analyzePositions board w side = some ⟨ThreatType.potential, c, r, none⟩ ↔
      w.countP (fun p => decide (board.get p.1 p.2 = some (some side))) = 2 ∧
      w.countP (fun p => decide (board.get p.1 p.2 = some none)) = 2 ∧
      w.find? (fun p => decide (board.get p.1 p.2 = some none ∧
        playableCell board p.1 p.2)) = some (r, c) := by
  rw [analyzePositions_nf, List.countP_eq_length_filter
    (fun p : Int × Int => decide (board.get p.1 p.2 = some none))]
  split_ifs with h1 h2
  · constructor
    · intro h
      obtain ⟨e, -, he⟩ := Option.bind_eq_some.mp h
      split_ifs at he
      simp at he
    · rintro ⟨h, -, -⟩
      omega
  · constructor
    · intro h
      obtain ⟨e, hf, he⟩ := Option.map_eq_some'.mp h
      simp only [Threat.mk.injEq, true_and, and_true] at he
      obtain ⟨rfl, rfl⟩ := he
      exact ⟨h2.1, h2.2, hf⟩
    · rintro ⟨-, -, hf⟩
      rw [hf]; rfl
  · constructor
    · intro h; simp at h
    · rintro ⟨h, he, -⟩
      exact absurd ⟨h, he⟩ h2

theorem analyzePositions_shape (board : Board) (side : Side) (w : List (Int × Int))
    (t : Threat) (h : analyzePositions board w side = some t) :
    ∃ r c, t = ⟨ThreatType.immediate, c, r, none⟩ ∨ t = ⟨ThreatType.potential, c, r, none⟩ := by
  rw [analyzePositions_nf] at h
  split_ifs at h with h1 h2
  · obtain ⟨e, -, he⟩ := Option.bind_eq_some.mp h
    split_ifs at he
    simp only [Option.some.injEq] at he
    exact ⟨e.1, e.2, Or.inl he.symm⟩
  · obtain ⟨e, -, he⟩ := Option.map_eq_some'.mp h
    exact ⟨e.1, e.2, Or.inr he.symm⟩

theorem countP_add_lt (P E : Int × Int → Bool) (w : List (Int × Int))
    (hdisj : ∀ p, P p = true → E p = false)
    (h : ∃ p ∈ w, P p = false ∧ E p = false) :
    w.countP P + w.countP E < w.length := by
  have hle : ∀ l : List (Int × Int), l.countP P + l.countP E ≤ l.length := by
    intro l
    induction l with
    | nil => simp
    | cons a l ih =>
      simp only [List.countP_cons, List.length_cons]
      cases hP : P a
      · cases hE : E a <;> simp <;> omega
      · rw [hdisj a hP]; simp; omega
  induction w with
  | nil => obtain ⟨p, hp, -⟩ := h; simp at hp
  | cons a l ih =>
    obtain ⟨p, hp, hP, hE⟩ := h
    simp only [List.countP_cons, List.length_cons]
    rcases List.mem_cons.mp hp with rfl | hp'
    · have := hle l
      rw [hP, hE]; simp; omega
    · have := ih ⟨p, hp', hP, hE⟩
      cases hP' : P a
      · cases hE' : E a <;> simp <;> omega
      · rw [hdisj a hP']; simp; omega

theorem analyzePositions_opponent (board : Board) (side : Side) (w : List (Int × Int))
    (hlen : w.length = 4)
    (h : ∃ p ∈ w, ∃ o : Side, o ≠ side ∧ board.get p.1 p.2 = some (some o)) :
    analyzePositions board w side = none := by
  obtain ⟨p, hp, o, ho, hget⟩ := h
  have hlt := countP_add_lt
    (fun p => decide (board.get p.1 p.2 = some (some side)))
    (fun p => decide (board.get p.1 p.2 = some none)) w
    (by intro q hq; simp only [decide_eq_true_eq] at hq; simp [hq])
    ⟨p, hp, by simp [hget, ho], by simp [hget]⟩
  rw [analyzePositions_nf, ← List.countP_eq_length_filter]
  rw [if_neg (by omega), if_neg (by omega)]

/-- C11: for a window of 4 in-bounds cells, `analyzePositions` returns an
immediate threat at `(r, c)` exactly when 3 cells hold `side`, `(r, c)` is the
only empty cell and it is playable; a potential threat at `(r, c)` exactly
when 2 cells hold `side`, 2 are empty and `(r, c)` is the first playable empty
cell in window order; it returns nothing else, and nothing at all when the
window contains an opponent piece. -/
theorem analyzePositions_classifies (board : Board) (side : Side) (w : List (Int × Int))
    (hlen : w.length = 4) (_hin : ∀ p ∈ w, inBounds p.1 p.2) :
    (∀ r c, analyzePositions board w side = some ⟨ThreatType.immediate, c, r, none⟩ ↔
      w.countP (fun p => decide (board.get p.1 p.2 = some (some side))) = 3 ∧
      w.filter (fun p => decide (board.get p.1 p.2 = some none)) = [(r, c)] ∧
      playableCell board r c) ∧
    (∀ r c, analyzePositions board w side = some ⟨ThreatType.potential, c, r, none⟩ ↔
      w.countP (fun p => decide (board.get p.1 p.2 = some (some side))) = 2 ∧
      w.countP (fun p => decide (board.get p.1 p.2 = some none)) = 2 ∧
      w.find? (fun p => decide (board.get p.1 p.2 = some none ∧
        playableCell board p.1 p.2)) = some (r, c)) ∧
    (∀ t, analyzePositions board w side = some t →
      ∃ r c, t = ⟨ThreatType.immediate, c, r, none⟩ ∨
        t = ⟨ThreatType.potential, c, r, none⟩) ∧
    ((∃ p ∈ w, ∃ o : Side, o ≠ side ∧ board.get p.1 p.2 = some (some o)) →
      analyzePositions board w side = none) :=
  ⟨analyzePositions_immediate_iff board side w, analyzePositions_potential_iff board side w,
    analyzePositions_shape board side w, analyzePositions_opponent board side w hlen⟩

/-! ## `findThreats` -/

theorem mem_findThreats (board : Board) (side : Side) (t : Threat) :
    t ∈ findThreats board side ↔
      (∃ row : Int, (0 ≤ row ∧ row ≤ 5) ∧ ∃ col : Int, (0 ≤ col ∧ col ≤ 6) ∧
        t ∈ windowThreats board side row col) ∨
      (∃ row : Int, (0 ≤ row ∧ row ≤ 5) ∧ ∃ col : Int, (0 ≤ col ∧ col ≤ 4) ∧
        (t ∈ openEndedThreat board side row col ∨ t ∈ splitThreat board side row col)) := by
  have h6 : ∀ x : Int, x ∈ ([0, 1, 2, 3, 4, 5] : List Int) ↔ (0 ≤ x ∧ x ≤ 5) := by
    intro x
    simp only [List.mem_cons, List.mem_singleton, List.mem_nil_iff, or_false]
    omega
  have h7 : ∀ x : Int, x ∈ ([0, 1, 2, 3, 4, 5, 6] : List Int) ↔ (0 ≤ x ∧ x ≤ 6) := by
    intro x
    simp only [List.mem_cons, List.mem_singleton, List.mem_nil_iff, or_false]
    omega
  have h5 : ∀ x : Int, x ∈ ([0, 1, 2, 3, 4] : List Int) ↔ (0 ≤ x ∧ x ≤ 4) := by
    intro x
    simp only [List.mem_cons, List.mem_singleton, List.mem_nil_iff, or_false]
    omega
  unfold findThreats
  simp only [List.mem_append, List.mem_flatMap, h6, h7, h5]

theorem playableRaw_iff (board : Board) (r c : Int) (h : board.get r c = some none) :
    (r = 5 ∨ board.get (r + 1) c ≠ some none) ↔ playableCell board r c := by
  obtain ⟨hb, -⟩ := get_eq_some _ _ _ _ h
  unfold inBounds at hb
  rw [← playable_iff board r c h]
  unfold playable
  rw [decide_eq_true_eq]
  constructor
  · rintro (h5 | hne)
    · exact Or.inl h5
    · by_cases h5 : r = 5
      · exact Or.inl h5
      · exact Or.inr ⟨by omega, hne⟩
  · rintro (h5 | ⟨-, hne⟩)
    · exact Or.inl h5
    · exact Or.inr hne

theorem mem_openEndedThreat (board : Board) (side : Side) (row col : Int) (t : Threat) :
    t ∈ openEndedThreat board side row col ↔
      (board.get row col = some none ∧
        board.get row (col + 1) = some (some side) ∧
        board.get row (col + 2) = some (some side) ∧
        board.get row (col + 3) = some none) ∧
      (playableCell board row col ∨ playableCell board row (col + 3)) ∧
      t = ⟨ThreatType.critical, if playableCell board row col then col else col + 3, row,
        some Reason.openEnded2⟩ := by
  unfold openEndedThreat
  by_cases hpat : board.get row col = some none ∧
     board.get row (col + 1) = some (some side) ∧
     board.get row (col + 2) = some (some side) ∧
     col + 3 < 7 ∧ board.get row (col + 3) = some none
  · rw [if_pos hpat]
    obtain ⟨h0, h1, h2, _, h3⟩ := hpat
    have hl := playableRaw_iff board row col h0
    have hr := playableRaw_iff board row (col + 3) h3
    simp only [decide_eq_true_eq, hl, hr, h0, h1, h2, h3, and_self, true_and]
    by_cases hp : playableCell board row col ∨ playableCell board row (col + 3)
    · rw [if_pos hp]
      simp only [List.mem_singleton, hp, true_and]
    · rw [if_neg hp]
      simp [hp]
  · rw [if_neg hpat]
    simp only [List.not_mem_nil, false_iff]
    rintro ⟨⟨h0, h1, h2, h3⟩, -, -⟩
    obtain ⟨hb, -⟩ := get_eq_some _ _ _ _ h3
    unfold inBounds at hb
    exact hpat ⟨h0, h1, h2, hb.2.2.2, h3⟩

theorem mem_splitThreat (board : Board) (side : Side) (row col : Int) (t : Threat) :
    t ∈ splitThreat board side row col ↔
      (col ≤ 3 ∧
        board.get row col = some (some side) ∧
        board.get row (col + 1) = some none ∧
        board.get row (col + 2) = some (some side)) ∧
      playableCell board row (col + 1) ∧
      (col = 0 ∨ board.get row (col - 1) = some none) ∧
      (col + 3 ≥ 7 ∨ board.get row (col + 3) = some none) ∧
      t = ⟨ThreatType.critical, col + 1, row, some Reason.preventsOpen3⟩ := by
  unfold splitThreat
  by_cases hpat : col ≤ 3 ∧
     board.get row col = some (some side) ∧
     board.get row (col + 1) = some none ∧
     board.get row (col + 2) = some (some side)
  · rw [if_pos hpat]
    have hm := playableRaw_iff board row (col + 1) hpat.2.2.1
    simp only [decide_eq_true_eq, hm, hpat, and_self, true_and]
    by_cases hp : playableCell board row (col + 1)
    · rw [if_pos hp]
      by_cases ho : (col = 0 ∨ board.get row (col - 1) = some none) ∧
          (col + 3 ≥ 7 ∨ board.get row (col + 3) = some none)
      · rw [if_pos ho]
        simp only [List.mem_singleton, hp, ho.1, ho.2, true_and]
      · rw [if_neg ho]
        simp only [List.not_mem_nil, false_iff]
        rintro ⟨-, h1, h2, -⟩
        exact ho ⟨h1, h2⟩
    · rw [if_neg hp]
      simp [hp]
  · rw [if_neg hpat]
    simp only [List.not_mem_nil, false_iff]
    rintro ⟨h, -⟩
    exact hpat h

theorem mem_windowThreats (board : Board) (side : Side) (row col : Int) (t : Threat)
    (h : t ∈ windowThreats board side row col) :
    ∃ w : List (Int × Int), w.length = 4 ∧ analyzePositions board w side = some t := by
  unfold windowThreats at h
  simp only [List.mem_append] at h
  rcases h with ((h | h) | h) | h
  all_goals
    split_ifs at h
    · simp only [Option.mem_toList, Option.mem_def] at h
      exact ⟨_, by rfl, h⟩
    · simp at h

theorem findThreats_open_ended_mem (board : Board) (side : Side) (r c : Int)
    (h0 : board.get r c = some none)
    (h1 : board.get r (c + 1) = some (some side))
    (h2 : board.get r (c + 2) = some (some side))
    (h3 : board.get r (c + 3) = some none)
    (hp : playableCell board r c ∨ playableCell board r (c + 3)) :
    (⟨ThreatType.critical, if playableCell board r c then c else c + 3, r,
      some Reason.openEnded2⟩ : Threat) ∈ findThreats board side := by
  obtain ⟨hb0, -⟩ := get_eq_some _ _ _ _ h0
  obtain ⟨hb3, -⟩ := get_eq_some _ _ _ _ h3
  unfold inBounds at hb0 hb3
  rw [mem_findThreats]
  right
  refine ⟨r, by omega, c, by omega, Or.inl ?_⟩
  rw [mem_openEndedThreat]
  exact ⟨⟨h0, h1, h2, h3⟩, hp, rfl⟩

/-- C12: when the cells `(r, c)`, `(r, c+1)`, `(r, c+2)`, `(r, c+3)` read
empty, side, side, empty (a read is `some` only inside the grid) and one of the
two empty flanks is playable, `findThreats(board, side)` contains a critical
threat at row `r` whose column is `c` when the left flank is playable and
`c + 3` otherwise. -/
theorem findThreats_open_ended (board : Board) (side : Side) (r c : Int)
    (h0 : board.get r c = some none)
    (h1 : board.get r (c + 1) = some (some side))
    (h2 : board.get r (c + 2) = some (some side))
    (h3 : board.get r (c + 3) = some none)
    (hp : playableCell board r c ∨ playableCell board r (c + 3)) :
    ∃ t ∈ findThreats board side, t.type = ThreatType.critical ∧ t.row = r ∧
      t.column = (if playableCell board r c then c else c + 3) :=
  ⟨_, findThreats_open_ended_mem board side r c h0 h1 h2 h3 hp, rfl, rfl, rfl⟩

theorem findThreats_split_mem_iff (board : Board) (side : Side) (r m : Int) :
    (⟨ThreatType.critical, m, r, some Reason.preventsOpen3⟩ : Threat) ∈ findThreats board side ↔
      ∃ c : Int, (0 ≤ c ∧ c ≤ 3) ∧ m = c + 1 ∧
        board.get r c = some (some side) ∧
        board.get r (c + 1) = some none ∧ playableCell board r (c + 1) ∧
        board.get r (c + 2) = some (some side) ∧
        (board.get r (c - 1) = some none ∨ ¬ inBounds r (c - 1)) ∧
        (board.get r (c + 3) = some none ∨ ¬ inBounds r (c + 3)) := by
  rw [mem_findThreats]
  constructor
  · rintro (⟨row, -, col, -, h⟩ | ⟨row, hrow, col, hcol, h | h⟩)
    · obtain ⟨w, -, hw⟩ := mem_windowThreats _ _ _ _ _ h
      obtain ⟨r', c', h' | h'⟩ := analyzePositions_shape _ _ _ _ hw <;> simp at h'
    · rw [mem_openEndedThreat] at h
      have := h.2.2
      simp at this
    · rw [mem_splitThreat] at h
      obtain ⟨⟨hc3, hp0, hp1, hp2⟩, hmid, hleft, hright, ht⟩ := h
      simp only [Threat.mk.injEq, true_and, and_true] at ht
      obtain ⟨rfl, rfl⟩ := ht
      refine ⟨col, ⟨hcol.1, hc3⟩, rfl, hp0, hp1, hmid, hp2, ?_, ?_⟩
      · rcases hleft with h0 | h0
        · right; unfold inBounds; omega
        · exact Or.inl h0
      · rcases hright with h0 | h0
        · omega
        · exact Or.inl h0
  · rintro ⟨c, hc, rfl, hp0, hp1, hmid, hp2, hleft, hright⟩
    obtain ⟨hb, -⟩ := get_eq_some _ _ _ _ hp0
    unfold inBounds at hb
    right
    refine ⟨r, by omega, c, by omega, Or.inr ?_⟩
    rw [mem_splitThreat]
    refine ⟨⟨hc.2, hp0, hp1, hp2⟩, hmid, ?_, ?_, rfl⟩
    · rcases hleft with h0 | h0
      · exact Or.inr h0
      · left
        unfold inBounds at h0
        omega
    · rcases hright with h0 | h0
      · exact Or.inr h0
      · unfold inBounds at h0
        omega

/-- C13: `findThreats(board, side)` contains a critical threat with reason
`'prevents-open-3'` at row `r`, column `m` exactly when `m = c + 1` for a
starting column `c` in `0..3` with `(r, c)` holding `side`, `(r, c+1)` empty
and playable, `(r, c+2)` holding `side`, `(r, c-1)` empty or out of bounds and
`(r, c+3)` empty or out of bounds. -/
theorem findThreats_split_iff (board : Board) (side : Side) (r m : Int) :
    (∃ t ∈ findThreats board side, t.type = ThreatType.critical ∧
        t.reason = some Reason.preventsOpen3 ∧ t.row = r ∧ t.column = m) ↔
      ∃ c : Int, (0 ≤ c ∧ c ≤ 3) ∧ m = c + 1 ∧
        board.get r c = some (some side) ∧
        board.get r (c + 1) = some none ∧ playableCell board r (c + 1) ∧
        board.get r (c + 2) = some (some side) ∧
        (board.get r (c - 1) = some none ∨ ¬ inBounds r (c - 1)) ∧
        (board.get r (c + 3) = some none ∨ ¬ inBounds r (c + 3)) := by
  rw [← findThreats_split_mem_iff]
  constructor
  · rintro ⟨t, ht, h1, h2, h3, h4⟩
    obtain ⟨ty, col, row, reason⟩ := t
    simp only at h1 h2 h3 h4
    subst h1 h2 h3 h4
    exact ht
  · intro h
    exact ⟨_, h, rfl, rfl, rfl, rfl⟩

/-! ## Split pairs and the open-ended three -/

theorem getAvailableRow_congr (b b' : Board) (c : Int)
    (h : ∀ r : Int, b.get r c = b'.get r c) : getAvailableRow b c = getAvailableRow b' c := by
  unfold getAvailableRow
  simp only [h]

theorem getAvailableRow_of_playable (b : Board) (hg : gravity b) (r c : Int)
    (he : b.get r c = some none) (hp : playableCell b r c) : getAvailableRow b c = r := by
  obtain ⟨hb, -⟩ := get_eq_some _ _ _ _ he
  unfold inBounds at hb
  rcases getAvailableRow_cases b c with ⟨-, hfull⟩ | ⟨h0, h6, hempty, hbelow⟩
  · exact absurd he (hfull r hb.1 hb.2.1)
  · by_contra hne
    rcases lt_or_gt_of_ne hne with hlt | hgt
    · exact hbelow r hlt hb.2.1 he
    · rcases hp with h5 | ⟨s, hs⟩
      · omega
      · obtain ⟨-, i, j, hi, hj, hv⟩ := get_eq_some _ _ _ _ hs
        obtain ⟨-, i', j', hi', hj', hv'⟩ := get_eq_some _ _ _ _ hempty
        have hjj : j' = j := Fin.ext (by omega)
        subst hjj
        have hlt : i < i' ∨ i = i' := by
          have : (i.val : Int) ≤ (i'.val : Int) := by omega
          rcases Nat.lt_or_ge i.val i'.val with h | h
          · exact Or.inl h
          · exact Or.inr (Fin.ext (by omega))
        rcases hlt with hlt | heq
        · exact hg j' i i' hlt (by rw [hv]; simp) hv'
        · subst heq
          rw [hv] at hv'
          simp at hv'

theorem getAvailableRow_mem (b : Board) (j : Int) (h : j ∈ getValidMoves b) :
    (0 ≤ getAvailableRow b j ∧ getAvailableRow b j < 6) ∧
    b.get (getAvailableRow b j) j = some none := by
  have hne := ((mem_getValidMoves b j).mp h).2
  rcases getAvailableRow_cases b j with ⟨h1, -⟩ | ⟨h0, h6, hempty, -⟩
  · exact absurd h1 hne
  · exact ⟨⟨h0, h6⟩, hempty⟩

theorem get_dropPiece_of_piece (b : Board) (j : Int) (o : Side) (hj : j ∈ getValidMoves b)
    (r c : Int) (s : Side) (h : b.get r c = some (some s)) :
    (dropPiece b j o).get r c = some (some s) := by
  obtain ⟨-, hempty⟩ := getAvailableRow_mem b j hj
  unfold dropPiece
  rw [get_set, if_pos (get_eq_some _ _ _ _ h).1, if_neg, h]
  rintro ⟨h1, h2⟩
  rw [h1, h2, hempty] at h
  simp at h

theorem get_dropPiece_of_ne (b : Board) (j : Int) (o : Side) (r c : Int) (hc : c ≠ j) :
    (dropPiece b j o).get r c = b.get r c := by
  unfold dropPiece
  rw [get_set]
  by_cases hb : inBounds r c
  · rw [if_pos hb, if_neg (fun h => hc h.2)]
  · rw [if_neg hb, get_of_not_inBounds _ _ _ hb]

theorem checkWinningMove_of_row (b : Board) (side : Side) (r k : Int) (a : Nat) (ha : a ≤ 3)
    (hrow : getAvailableRow b k = r) (hin : inBounds r k)
    (hcells : ∀ i : Nat, i ≤ 3 → i ≠ a →
      b.get r (k + ((i : Int) - (a : Int))) = some (some side)) :
    checkWinningMove b k side = true := by
  have hr := hin
  unfold inBounds at hr
  unfold checkWinningMove
  simp only [hrow]
  rw [if_neg (by omega), decide_eq_true_eq]
  have hcell : (b.set r k (some side)).get r k = some (some side) := by
    rw [get_set, if_pos hin, if_pos ⟨rfl, rfl⟩]
  rw [(checkWinner_of_cell _ side r k hcell).1, exists_direction_iff_fourInLine _ _ _ _ hcell]
  refine ⟨(0, 1), by simp [lineDirs], a, ha, fun i hi => ?_⟩
  have hrr : r + ((i : Int) - (a : Int)) * (0, (1 : Int)).1 = r := by simp
  have hcc : k + ((i : Int) - (a : Int)) * ((0 : Int), (1 : Int)).2 =
      k + ((i : Int) - (a : Int)) := by simp
  rw [hrr, hcc]
  by_cases hia : i = a
  · subst hia
    simp only [sub_self, add_zero]
    exact ⟨hin, hcell⟩
  · have hg := hcells i hi hia
    have hb := (get_eq_some _ _ _ _ hg).1
    refine ⟨hb, ?_⟩
    rw [get_set, if_pos hb, if_neg, hg]
    rintro ⟨-, h2⟩
    have : (i : Int) = (a : Int) := by omega
    exact hia (by exact_mod_cast this)

theorem open_three_aux (board : Board) (side : Side) (r m : Int) (hg : gravity board)
    (hp0 : board.get r (m - 1) = some (some side))
    (hp1 : board.get r m = some none) (hmid : playableCell board r m)
    (hp2 : board.get r (m + 1) = some (some side))
    (hl : board.get r (m - 2) = some none) (hlp : playableCell board r (m - 2))
    (hr : board.get r (m + 2) = some none) (hrp : playableCell board r (m + 2)) :
    getAvailableRow board m = r ∧
    ((dropPiece board m side).get r (m - 2) = some none ∧
      (dropPiece board m side).get r (m - 1) = some (some side) ∧
      (dropPiece board m side).get r m = some (some side) ∧
      (dropPiece board m side).get r (m + 1) = some (some side) ∧
      (dropPiece board m side).get r (m + 2) = some none) ∧
    ∀ (o : Side) (j : Int), j ∈ getValidMoves (dropPiece board m side) →
      ∃ k ∈ getValidMoves (dropPiece (dropPiece board m side) j o),
        checkWinningMove (dropPiece (dropPiece board m side) j o) k side = true := by
  have hrow : getAvailableRow board m = r := getAvailableRow_of_playable board hg r m hp1 hmid
  have hbm := (get_eq_some _ _ _ _ hp1).1
  have hbl := (get_eq_some _ _ _ _ hl).1
  have hbr := (get_eq_some _ _ _ _ hr).1
  have q1 : (dropPiece board m side).get r m = some (some side) := by
    unfold dropPiece
    rw [hrow, get_set, if_pos hbm, if_pos ⟨rfl, rfl⟩]
  have q0 : (dropPiece board m side).get r (m - 1) = some (some side) := by
    rw [get_dropPiece_of_ne _ _ _ _ _ (by omega)]; exact hp0
  have q2 : (dropPiece board m side).get r (m + 1) = some (some side) := by
    rw [get_dropPiece_of_ne _ _ _ _ _ (by omega)]; exact hp2
  have ql : (dropPiece board m side).get r (m - 2) = some none := by
    rw [get_dropPiece_of_ne _ _ _ _ _ (by omega)]; exact hl
  have qr : (dropPiece board m side).get r (m + 2) = some none := by
    rw [get_dropPiece_of_ne _ _ _ _ _ (by omega)]; exact hr
  refine ⟨hrow, ⟨ql, q0, q1, q2, qr⟩, fun o j hj => ?_⟩
  have w0 := get_dropPiece_of_piece _ j o hj _ _ _ q0
  have w1 := get_dropPiece_of_piece _ j o hj _ _ _ q1
  have w2 := get_dropPiece_of_piece _ j o hj _ _ _ q2
  have hend : ∀ k : Int, k ≠ j → k ≠ m → board.get r k = some none →
      playableCell board r k →
      getAvailableRow (dropPiece (dropPiece board m side) j o) k = r := by
    intro k hkj hkm hke hkp
    rw [getAvailableRow_congr _ board k]
    · exact getAvailableRow_of_playable board hg r k hke hkp
    · intro r'
      rw [get_dropPiece_of_ne _ _ _ _ _ hkj, get_dropPiece_of_ne _ _ _ _ _ hkm]
  have hvalid : ∀ k : Int, inBounds r k →
      getAvailableRow (dropPiece (dropPiece board m side) j o) k = r →
      k ∈ getValidMoves (dropPiece (dropPiece board m side) j o) := by
    intro k hk hkr
    unfold inBounds at hk
    rw [mem_getValidMoves, hkr]
    exact ⟨⟨hk.2.2.1, hk.2.2.2⟩, by omega⟩
  by_cases hjl : j = m - 2
  · have hk := hend (m + 2) (by omega) (by omega) hr hrp
    refine ⟨m + 2, hvalid _ hbr hk, ?_⟩
    apply checkWinningMove_of_row _ side r (m + 2) 3 (le_refl _) hk hbr
    intro i hi hia
    have hcases : i = 0 ∨ i = 1 ∨ i = 2 := by omega
    rcases hcases with rfl | rfl | rfl
    · have e : m + 2 + (((0 : Nat) : Int) - ((3 : Nat) : Int)) = m - 1 := by
        push_cast; ring
      rw [e]; exact w0
    · have e : m + 2 + (((1 : Nat) : Int) - ((3 : Nat) : Int)) = m := by
        push_cast; ring
      rw [e]; exact w1
    · have e : m + 2 + (((2 : Nat) : Int) - ((3 : Nat) : Int)) = m + 1 := by
        push_cast; ring
      rw [e]; exact w2
  · have hk := hend (m - 2) (fun h => hjl h.symm) (by omega) hl hlp
    refine ⟨m - 2, hvalid _ hbl hk, ?_⟩
    apply checkWinningMove_of_row _ side r (m - 2) 0 (by omega) hk hbl
    intro i hi hia
    have hcases : i = 1 ∨ i = 2 ∨ i = 3 := by omega
    rcases hcases with rfl | rfl | rfl
    · have e : m - 2 + (((1 : Nat) : Int) - ((0 : Nat) : Int)) = m - 1 := by
        push_cast; ring
      rw [e]; exact w0
    · have e : m - 2 + (((2 : Nat) : Int) - ((0 : Nat) : Int)) = m := by
        push_cast; ring
      rw [e]; exact w1
    · have e : m - 2 + (((3 : Nat) : Int) - ((0 : Nat) : Int)) = m + 1 := by
        push_cast; ring
      rw [e]; exact w2

/-- C14, the claim as stated fails. On `splitWallBoard` (gravity holds)
`findThreats` reports the split pair of red at columns 0 and 2 with middle
`(5, 1)`; once red is placed there the three red pieces start at the left
wall, so no cell exists at their left end, and after yellow's reply in column
3 red wins in no column. On `splitHangingBoard` the reported middle is
`(4, 3)`; both end cells `(4, 1)` and `(4, 5)` are empty but not playable, and
after yellow's reply in column 0 red wins in no column. -/
theorem split_threat_can_be_blocked :
    (gravity splitWallBoard ∧
      (⟨ThreatType.critical, 1, 5, some Reason.preventsOpen3⟩ : Threat) ∈
        findThreats splitWallBoard Side.red ∧
      (dropPiece splitWallBoard 1 Side.red).get 5 0 = some (some Side.red) ∧
      ¬ inBounds 5 (-1) ∧
      (3 : Int) ∈ getValidMoves (dropPiece splitWallBoard 1 Side.red) ∧
      ∀ k ∈ getValidMoves (dropPiece (dropPiece splitWallBoard 1 Side.red) 3 Side.yellow),
        checkWinningMove (dropPiece (dropPiece splitWallBoard 1 Side.red) 3 Side.yellow)
          k Side.red = false) ∧
    (gravity splitHangingBoard ∧
      (⟨ThreatType.critical, 3, 4, some Reason.preventsOpen3⟩ : Threat) ∈
        findThreats splitHangingBoard Side.red ∧
      getAvailableRow splitHangingBoard 3 = 4 ∧
      (dropPiece splitHangingBoard 3 Side.red).get 4 1 = some none ∧
      (dropPiece splitHangingBoard 3 Side.red).get 4 5 = some none ∧
      (0 : Int) ∈ getValidMoves (dropPiece splitHangingBoard 3 Side.red) ∧
      ∀ k ∈ getValidMoves (dropPiece (dropPiece splitHangingBoard 3 Side.red) 0 Side.yellow),
        checkWinningMove (dropPiece (dropPiece splitHangingBoard 3 Side.red) 0 Side.yellow)
          k Side.red = false) := by
  decide

/-- C14, amended: on a gravity-respecting board, when `findThreats` reports a
split-pair critical threat with middle cell `(r, m)`, the cell `(r, m-2)` is
inside the grid and empty, and both `(r, m-2)` and `(r, m+2)` are playable,
then a piece of `side` dropped in column `m` lands on `(r, m)`, the
row then holds `side` on `(r, m-1)`, `(r, m)`, `(r, m+1)` with an empty cell
at both ends, and after any single reply in a valid column `side` still has a
valid column in which it wins immediately. -/
theorem split_threat_open_three (board : Board) (side : Side) (r m : Int)
    (hg : gravity board)
    (ht : ∃ t ∈ findThreats board side, t.type = ThreatType.critical ∧
      t.reason = some Reason.preventsOpen3 ∧ t.row = r ∧ t.column = m)
    (hleft : board.get r (m - 2) = some none ∧ playableCell board r (m - 2))
    (hright : playableCell board r (m + 2)) :
    getAvailableRow board m = r ∧
    ((dropPiece board m side).get r (m - 2) = some none ∧
      (dropPiece board m side).get r (m - 1) = some (some side) ∧
      (dropPiece board m side).get r m = some (some side) ∧
      (dropPiece board m side).get r (m + 1) = some (some side) ∧
      (dropPiece board m side).get r (m + 2) = some none) ∧
    ∀ (o : Side) (j : Int), j ∈ getValidMoves (dropPiece board m side) →
      ∃ k ∈ getValidMoves (dropPiece (dropPiece board m side) j o),
        checkWinningMove (dropPiece (dropPiece board m side) j o) k side = true := by
  obtain ⟨t, htm, h1, h2, h3, h4⟩ := ht
  obtain ⟨ty, col, row, reason⟩ := t
  simp only at h1 h2 h3 h4
  subst h1 h2 h3 h4
  obtain ⟨c, hc, rfl, hp0, hp1, hmid, hp2, -, hro⟩ :=
    (findThreats_split_mem_iff board side row col).mp htm
  have e0 : c + 1 - 1 = c := by ring
  have e2 : c + 1 + 1 = c + 2 := by ring
  have e3 : c + 1 + 2 = c + 3 := by ring
  have hr : board.get row (c + 1 + 2) = some none := by
    rw [e3]
    rcases hro with h | h
    · exact h
    · have hb := (get_eq_some _ _ _ _ hp0).1
      unfold inBounds at hb h
      omega
  exact open_three_aux board side row (c + 1) hg (by rw [e0]; exact hp0) hp1 hmid
    (by rw [e2]; exact hp2) hleft.1 hleft.2 hr hright

/-- C14 amended, on the bottom row `. R . R . Y Y`: after red fills `(5, 2)`
every reply leaves red a winning column. -/
theorem split_threat_open_three_witness :
    gravity splitOpenBoard ∧
    getAvailableRow splitOpenBoard 2 = 5 ∧
    ∀ (o : Side) (j : Int), j ∈ getValidMoves (dropPiece splitOpenBoard 2 Side.red) →
      ∃ k ∈ getValidMoves (dropPiece (dropPiece splitOpenBoard 2 Side.red) j o),
        checkWinningMove (dropPiece (dropPiece splitOpenBoard 2 Side.red) j o) k Side.red
          = true :=
  ⟨by decide,
    (split_threat_open_three splitOpenBoard Side.red 5 2 (by decide)
      ⟨⟨ThreatType.critical, 2, 5, some Reason.preventsOpen3⟩, by decide, rfl, rfl, rfl, rfl⟩
      (by decide) (by decide)).1,
    (split_threat_open_three splitOpenBoard Side.red 5 2 (by decide)
      ⟨⟨ThreatType.critical, 2, 5, some Reason.preventsOpen3⟩, by decide, rfl, rfl, rfl, rfl⟩
      (by decide) (by decide)).2.2⟩

/-! ## The center-first tier -/

theorem mem_getValidMoves_fin (board : Board) (c : Fin 7) :
    (c.val : Int) ∈ getValidMoves board ↔ ¬ columnFull board c := by
  have hc := c.isLt
  rw [mem_getValidMoves]
  unfold columnFull
  rw [← (getAvailableRow_spec board c).1]
  constructor
  · exact fun h => h.2
  · exact fun h => ⟨by omega, h⟩

theorem firstCenter_eq_firstOpenCenter (board : Board) :
    firstCenter board = firstOpenCenter board := by
  have hl : ([3, 2, 4, 1, 5, 0, 6] : List Int) =
      ([3, 2, 4, 1, 5, 0, 6] : List (Fin 7)).map (fun c => (c.val : Int)) := by decide
  unfold firstCenter firstOpenCenter
  have hf : ((fun c : Int => decide (c ∈ getValidMoves board)) ∘
      fun c : Fin 7 => (c.val : Int)) = fun c => decide (¬ columnFull board c) := by
    funext c
    simp only [Function.comp, decide_eq_decide]
    exact mem_getValidMoves_fin board c
  rw [hl, List.find?_map, hf]

theorem fallbackChoice_center (board : Board)
    (hy : ∀ c ∈ getValidMoves board, checkWinningMove board c Side.yellow = false)
    (hr : ∀ c ∈ getValidMoves board, checkWinningMove board c Side.red = false)
    (ht : ∀ t ∈ findThreats board Side.red,
      t.type = ThreatType.critical ∨ t.type = ThreatType.immediate →
      t.column ∉ getValidMoves board) :
    fallbackChoice board = firstOpenCenter board := by
  have hwin : ∀ side, (∀ c ∈ getValidMoves board, checkWinningMove board c side = false) →
      smallestWinning board side = none := by
    intro side h
    unfold smallestWinning
    have : (getValidMoves board).filter (fun c => checkWinningMove board c side) = [] := by
      rw [List.filter_eq_nil_iff]
      intro c hc
      rw [h c hc]; simp
    rw [this]; rfl
  have hthreat : ∀ ty, (ty = ThreatType.critical ∨ ty = ThreatType.immediate) →
      firstThreatColumn board ty = none := by
    intro ty hty
    unfold firstThreatColumn
    rw [Option.map_eq_none', List.find?_eq_none]
    intro t htm
    simp only [decide_eq_true_eq, not_and]
    intro hty'
    exact ht t htm (by rw [hty']; exact hty)
  rw [fallbackChoice_eq_priority, ← firstCenter_eq_firstOpenCenter]
  unfold fallbackPriority
  rw [hwin _ hy, hwin _ hr, hthreat _ (Or.inl rfl), hthreat _ (Or.inr rfl)]
  cases firstCenter board <;> rfl

/-- C15: on a board where no valid column wins immediately for yellow or for
red and no critical or immediate red threat names a valid column, the fallback
chooses the first column of the order 3, 2, 4, 1, 5, 0, 6 that is not full. -/
theorem fallback_center (board : Board)
    (hy : ∀ c ∈ getValidMoves board, checkWinningMove board c Side.yellow = false)
    (hr : ∀ c ∈ getValidMoves board, checkWinningMove board c Side.red = false)
    (ht : ∀ t ∈ findThreats board Side.red,
      t.type = ThreatType.critical ∨ t.type = ThreatType.immediate →
      t.column ∉ getValidMoves board) :
    fallbackChoice board = firstOpenCenter board :=
  fallbackChoice_center board hy hr ht

/-- C15 on the empty board: the fallback chooses column 3. -/
theorem fallback_center_witness :
    firstOpenCenter emptyBoard = some 3 ∧ fallbackChoice emptyBoard = some 3 ∧
    fallbackChoice emptyBoard = firstOpenCenter emptyBoard :=
  ⟨by decide, by decide, fallback_center emptyBoard (by decide) (by decide) (by decide)⟩

/-! ## Gravity is kept by every move -/

theorem getAvailableRow_ne_iff_mem (b : Board) (c : Int) :
    getAvailableRow b c ≠ -1 ↔ c ∈ getValidMoves b := by
  rw [mem_getValidMoves]
  constructor
  · intro h
    refine ⟨?_, h⟩
    rcases getAvailableRow_cases b c with ⟨h1, -⟩ | ⟨-, -, hempty, -⟩
    · exact absurd h1 h
    · have hb := (get_eq_some _ _ _ _ hempty).1
      unfold inBounds at hb
      exact ⟨hb.2.2.1, hb.2.2.2⟩
  · exact fun h => h.2

theorem dropPiece_apply (b : Board) (col : Int) (o : Side) (h : col ∈ getValidMoves b) :
    ∃ (c : Fin 7) (r : Fin 6), (c.val : Int) = col ∧ getAvailableRow b col = (r.val : Int) ∧
      b r c = none ∧ (∀ r' : Fin 6, r < r' → b r' c ≠ none) ∧
      ∀ (r' : Fin 6) (c' : Fin 7),
        dropPiece b col o r' c' = if r' = r ∧ c' = c then some o else b r' c' := by
  obtain ⟨c, r, hc, hrow, hempty, hbelow⟩ := valid_column_cell b col h
  refine ⟨c, r, hc, hrow, hempty, hbelow, fun r' c' => ?_⟩
  unfold dropPiece
  rw [hrow, ← hc, set_apply]

theorem gravity_dropPiece (b : Board) (col : Int) (o : Side) (hg : gravity b)
    (h : col ∈ getValidMoves b) : gravity (dropPiece b col o) := by
  obtain ⟨c, r, -, -, -, hbelow, hset⟩ := dropPiece_apply b col o h
  intro c' r1 r2 hlt h1
  rw [hset] at h1 ⊢
  by_cases h2 : r2 = r ∧ c' = c
  · rw [if_pos h2]; simp
  · rw [if_neg h2]
    by_cases h1' : r1 = r ∧ c' = c
    · obtain ⟨rfl, rfl⟩ := h1'
      exact hbelow r2 hlt
    · rw [if_neg h1'] at h1
      exact hg c' r1 r2 hlt h1

theorem handleColumnClick_board (s : State) (col : Int) :
    (handleColumnClick s col).board = s.board ∨
    (col ∈ getValidMoves s.board ∧
      (handleColumnClick s col).board = dropPiece s.board col Side.red) := by
  unfold handleColumnClick
  by_cases h1 : s.gameState ≠ Phase.playing ∨ s.currentPlayer ≠ Player.human ∨
      s.isAIThinking = true
  · rw [if_pos h1]; exact Or.inl rfl
  · rw [if_neg h1]
    simp only
    by_cases h2 : getAvailableRow s.board col = -1
    · rw [if_pos h2]; exact Or.inl rfl
    · rw [if_neg h2]
      right
      exact ⟨(getAvailableRow_ne_iff_mem _ _).mp h2, (placePiece_board _ _ _ _ _).1⟩

theorem fallbackMove_board (s : State) :
    (fallbackMove s).board = s.board ∨
    ∃ c ∈ getValidMoves s.board, fallbackChoice s.board = some c ∧
      (fallbackMove s).board = dropPiece s.board c Side.yellow := by
  unfold fallbackMove
  cases hc : fallbackChoice s.board with
  | none => exact Or.inl rfl
  | some c =>
    right
    exact ⟨c, fallbackChoice_mem _ _ hc, rfl, (placePiece_board _ _ _ _ _).1⟩

theorem advisoryMove_board (s : State) (column : JsIndex) :
    (advisoryMove s column).board = s.board ∨
    ∃ c ∈ getValidMoves s.board, (advisoryMove s column).board = dropPiece s.board c Side.yellow := by
  unfold advisoryMove
  cases column with
  | other => exact Or.inl rfl
  | int col =>
    simp only
    split_ifs with h
    · right
      exact ⟨col, (getAvailableRow_ne_iff_mem _ _).mp h, (placePiece_board _ _ _ _ _).1⟩
    · exact Or.inl rfl
  | key k =>
    simp only
    split_ifs with h
    · right
      exact ⟨(k.val : Int), (getAvailableRow_ne_iff_mem _ _).mp h, (placeKeyed_board _ _ _).1⟩
    · exact Or.inl rfl

theorem makeAIMove_board (s : State) (adv : Advisory) :
    (makeAIMove s adv).board = s.board ∨
    ∃ c ∈ getValidMoves s.board, (makeAIMove s adv).board = dropPiece s.board c Side.yellow := by
  unfold makeAIMove
  split_ifs with h
  · exact Or.inl rfl
  · cases adv with
    | reply column thoughts => exact advisoryMove_board s column
    | callThrows =>
      rcases fallbackMove_board s with h | ⟨c, hc, -, h⟩
      · exact Or.inl h
      · exact Or.inr ⟨c, hc, h⟩
    | notJson =>
      rcases fallbackMove_board s with h | ⟨c, hc, -, h⟩
      · exact Or.inl h
      · exact Or.inr ⟨c, hc, h⟩
    | noThoughts =>
      rcases fallbackMove_board s with h | ⟨c, hc, -, h⟩
      · exact Or.inl h
      · exact Or.inr ⟨c, hc, h⟩

theorem gravity_emptyBoard : gravity emptyBoard := by
  intro c r r' _ h
  exact absurd rfl h

theorem reachable_gravity (s : State) (h : Reachable s) : gravity s.board := by
  induction h with
  | start => exact gravity_emptyBoard
  | human s col _ ih =>
    rcases handleColumnClick_board s col with h | ⟨hc, h⟩
    · rw [h]; exact ih
    · rw [h]; exact gravity_dropPiece _ _ _ ih hc
  | auto s adv _ ih =>
    rcases makeAIMove_board s adv with h | ⟨c, hc, h⟩
    · rw [h]; exact ih
    · rw [h]; exact gravity_dropPiece _ _ _ ih hc

theorem reachable_playText (s : State) (col : Int) (k : Fin 7) (hs : Reachable s) :
    Reachable (playText s col k) :=
  Reachable.auto _ _ (Reachable.human s col hs)

theorem reachable_textStackState : Reachable textStackState :=
  reachable_playText _ _ _ (reachable_playText _ _ _ (reachable_playText _ _ _
    (reachable_playText _ _ _ Reachable.start)))

/-- C16: in every state reachable from `startGame` by column clicks and
automated turns (advisory-chosen or fallback-chosen) no column has an empty
cell below a non-empty one; every click and every automated turn either
leaves the board as it is or writes the piece on the cell
`(getAvailableRow(board, column), column)` of a valid column and changes no
other cell. -/
theorem gravity_invariant (s : State) (h : Reachable s) :
    gravity s.board ∧
    (∀ col : Int, (handleColumnClick s col).board = s.board ∨
      (col ∈ getValidMoves s.board ∧
        (handleColumnClick s col).board =
          s.board.set (getAvailableRow s.board col) col (some Side.red))) ∧
    (∀ adv : Advisory, (makeAIMove s adv).board = s.board ∨
      ∃ c ∈ getValidMoves s.board,
        (makeAIMove s adv).board =
          s.board.set (getAvailableRow s.board c) c (some Side.yellow)) :=
  ⟨reachable_gravity s h, handleColumnClick_board s, makeAIMove_board s⟩

/-- C16 after the human's first click and a fallback move, and after four
rounds in which the advisory reply names its column as text. -/
theorem gravity_invariant_witness :
    Reachable (playFallback startGame 3) ∧ gravity (playFallback startGame 3).board ∧
    Reachable textStackState ∧ gravity textStackState.board :=
  ⟨Reachable.auto _ _ (Reachable.human _ _ Reachable.start),
    (gravity_invariant (playFallback startGame 3)
      (Reachable.auto _ _ (Reachable.human _ _ Reachable.start))).1,
    reachable_textStackState,
    (gravity_invariant textStackState reachable_textStackState).1⟩

/-! ## `getAvailableRow` counts the pieces of a column -/

/-- C9: on every board of a game, which keeps gravity (every board passed to
`getAvailableRow` is the board of a state reachable from `startGame`), and
for every column `c` in `0..6`, `getAvailableRow(board, c)` is 5 minus the
number of occupied cells of column `c`; and it is `-1` exactly when the column
has 6 occupied cells. -/
theorem getAvailableRow_count (board : Board) (c : Fin 7) :
    (gravity board →
      getAvailableRow board (c.val : Int) = 5 - (occupiedCount board c : Int)) ∧
    (∀ s : State, Reachable s → s.board = board →
      getAvailableRow board (c.val : Int) = 5 - (occupiedCount board c : Int)) ∧
    (getAvailableRow board (c.val : Int) = -1 ↔ occupiedCount board c = 6) :=
  ⟨(getAvailableRow_count_aux board c).2,
    fun s hs hb => (getAvailableRow_count_aux board c).2 (hb ▸ reachable_gravity s hs),
    (getAvailableRow_count_aux board c).1⟩

/-- C9 on column 0 of `mustBlockBoard` (3 pieces, row 2) and on column 3 of
the game state `textStackState` (4 pieces, row 1). -/
theorem getAvailableRow_count_witness :
    gravity mustBlockBoard ∧ occupiedCount mustBlockBoard 0 = 3 ∧
    getAvailableRow mustBlockBoard ((0 : Fin 7).val : Int) =
      5 - (occupiedCount mustBlockBoard 0 : Int) ∧
    occupiedCount textStackState.board 3 = 4 ∧
    getAvailableRow textStackState.board ((3 : Fin 7).val : Int) =
      5 - (occupiedCount textStackState.board 3 : Int) :=
  ⟨by decide, by decide, (getAvailableRow_count mustBlockBoard 0).1 (by decide), by decide,
    (getAvailableRow_count textStackState.board 3).2.1 textStackState
      reachable_textStackState rfl⟩

/-! ## `isBoardFull` -/

theorem isBoardFull_top (b : Board) : isBoardFull b = true ↔ ∀ c : Fin 7, b 0 c ≠ none := by
  have h0 : b.get 0 0 = some (b 0 0) := get_fin b 0 0
  have h1 : b.get 0 1 = some (b 0 1) := get_fin b 0 1
  have h2 : b.get 0 2 = some (b 0 2) := get_fin b 0 2
  have h3 : b.get 0 3 = some (b 0 3) := get_fin b 0 3
  have h4 : b.get 0 4 = some (b 0 4) := get_fin b 0 4
  have h5 : b.get 0 5 = some (b 0 5) := get_fin b 0 5
  have h6 : b.get 0 6 = some (b 0 6) := get_fin b 0 6
  unfold isBoardFull
  simp only [List.all_cons, List.all_nil, Bool.and_true, Bool.and_eq_true, decide_eq_true_eq,
    h0, h1, h2, h3, h4, h5, h6, ne_eq, Option.some.injEq]
  constructor
  · rintro ⟨a0, a1, a2, a3, a4, a5, a6⟩ c
    fin_cases c <;> assumption
  · intro h
    exact ⟨h 0, h 1, h 2, h 3, h 4, h 5, h 6⟩

theorem getValidMoves_eq_nil_iff (b : Board) :
    getValidMoves b = [] ↔ ∀ (r : Fin 6) (c : Fin 7), b r c ≠ none := by
  constructor
  · exact getValidMoves_eq_nil b
  · intro h
    rw [List.eq_nil_iff_forall_not_mem]
    intro col hcol
    obtain ⟨c, r, -, -, hempty, -⟩ := valid_column_cell b col hcol
    exact h r c hempty

theorem isBoardFull_of_gravity (b : Board) (hg : gravity b) :
    isBoardFull b = true ↔ ∀ (r : Fin 6) (c : Fin 7), b r c ≠ none := by
  rw [isBoardFull_top]
  constructor
  · intro h r c
    by_cases hr : r = 0
    · rw [hr]; exact h c
    · exact hg c 0 r (Fin.pos_of_ne_zero hr) (h c)
  · exact fun h c => h 0 c

/-- C17: on a gravity-respecting board `isBoardFull` is true exactly when all
42 cells are non-empty, and exactly when `getValidMoves` is empty; on any
board its value depends on row 0 only. -/
theorem isBoardFull_iff (board : Board) :
    (gravity board →
      (isBoardFull board = true ↔ ∀ (r : Fin 6) (c : Fin 7), board r c ≠ none) ∧
      (isBoardFull board = true ↔ getValidMoves board = [])) ∧
    (∀ b' : Board, (∀ c : Fin 7, b' 0 c = board 0 c) → isBoardFull b' = isBoardFull board) := by
  constructor
  · intro hg
    refine ⟨isBoardFull_of_gravity board hg, ?_⟩
    rw [getValidMoves_eq_nil_iff]
    exact isBoardFull_of_gravity board hg
  · intro b' h
    rw [Bool.eq_iff_iff, isBoardFull_top, isBoardFull_top]
    simp only [h]

/-- C17 on `mustBlockBoard`, which respects gravity and is not full. -/
theorem isBoardFull_iff_witness :
    gravity mustBlockBoard ∧ isBoardFull mustBlockBoard = false ∧
    (isBoardFull mustBlockBoard = true ↔ getValidMoves mustBlockBoard = []) :=
  ⟨by decide, by decide, ((isBoardFull_iff mustBlockBoard).1 (by decide)).2⟩

/-! ## `handleColumnClick` -/

theorem handleColumnClick_rejects (s : State) (c : Fin 7)
    (h : s.gameState ≠ Phase.playing ∨ s.currentPlayer ≠ Player.human ∨
      s.isAIThinking = true ∨ columnFull s.board c) :
    handleColumnClick s (c.val : Int) = s := by
  unfold handleColumnClick
  by_cases h1 : s.gameState ≠ Phase.playing ∨ s.currentPlayer ≠ Player.human ∨
      s.isAIThinking = true
  · rw [if_pos h1]
  · rw [if_neg h1]
    have hfull : columnFull s.board c := by
      rcases h with h | h | h | h
      · exact absurd (Or.inl h) h1
      · exact absurd (Or.inr (Or.inl h)) h1
      · exact absurd (Or.inr (Or.inr h)) h1
      · exact h
    have hrow : getAvailableRow s.board (c.val : Int) = -1 :=
      (getAvailableRow_spec s.board c).1.mpr hfull
    simp only [hrow, if_true]

theorem handleColumnClick_accepts (s : State) (col : Int)
    (h1 : s.gameState = Phase.playing) (h2 : s.currentPlayer = Player.human)
    (h3 : s.isAIThinking = false) (h4 : col ∈ getValidMoves s.board) :
    handleColumnClick s col =
      placePiece s (getAvailableRow s.board col) col Side.red Player.ai := by
  unfold handleColumnClick
  rw [if_neg (by simp [h1, h2, h3])]
  simp only
  rw [if_neg ((getAvailableRow_ne_iff_mem _ _).mpr h4)]

/-- C19: a click on column `c` leaves the whole state unchanged when the game
is not in play, it is not the human's turn, the automated decision is pending
or column `c` is full; in every other case one red piece is written on
`(getAvailableRow(board, c), c)`, an empty cell, and no other cell changes. -/
theorem handleColumnClick_spec (s : State) (c : Fin 7) :
    ((s.gameState ≠ Phase.playing ∨ s.currentPlayer ≠ Player.human ∨
        s.isAIThinking = true ∨ columnFull s.board c) →
      handleColumnClick s (c.val : Int) = s) ∧
    (s.gameState = Phase.playing → s.currentPlayer = Player.human →
      s.isAIThinking = false → ¬ columnFull s.board c →
      ∃ r : Fin 6, getAvailableRow s.board (c.val : Int) = (r.val : Int) ∧
        s.board r c = none ∧
        (handleColumnClick s (c.val : Int)).board r c = some Side.red ∧
        (handleColumnClick s (c.val : Int)).lastMove = some ((r.val : Int), (c.val : Int)) ∧
        ∀ (r' : Fin 6) (c' : Fin 7), ¬ (r' = r ∧ c' = c) →
          (handleColumnClick s (c.val : Int)).board r' c' = s.board r' c') := by
  refine ⟨handleColumnClick_rejects s c, fun h1 h2 h3 h4 => ?_⟩
  have hmem := (mem_getValidMoves_fin s.board c).mpr h4
  rw [handleColumnClick_accepts s _ h1 h2 h3 hmem]
  obtain ⟨c', r, hc, hrow, hempty, -⟩ := valid_column_cell s.board _ hmem
  have hcc : c' = c := Fin.ext (by omega)
  subst hcc
  have hp := placePiece_board s (getAvailableRow s.board (c'.val : Int)) (c'.val : Int)
    Side.red Player.ai
  rw [hrow] at hp ⊢
  refine ⟨r, rfl, hempty, ?_, hp.2, fun r' c'' hne => ?_⟩
  · rw [hp.1, set_apply]; simp
  · rw [hp.1, set_apply, if_neg hne]

/-- C19 at the start of a game (a click on column 3 is applied) and on the
state after it (the automated side is to move, the click is rejected). -/
theorem handleColumnClick_spec_witness :
    handleColumnClick (handleColumnClick startGame 3) ((3 : Fin 7).val : Int) =
      handleColumnClick startGame 3 ∧
    ∃ r : Fin 6, getAvailableRow startGame.board ((3 : Fin 7).val : Int) = (r.val : Int) ∧
      startGame.board r 3 = none ∧
      (handleColumnClick startGame ((3 : Fin 7).val : Int)).board r 3 = some Side.red ∧
      (handleColumnClick startGame ((3 : Fin 7).val : Int)).lastMove =
        some ((r.val : Int), ((3 : Fin 7).val : Int)) ∧
      ∀ (r' : Fin 6) (c' : Fin 7), ¬ (r' = r ∧ c' = 3) →
        (handleColumnClick startGame ((3 : Fin 7).val : Int)).board r' c' =
          startGame.board r' c' :=
  ⟨(handleColumnClick_spec (handleColumnClick startGame 3) 3).1 (Or.inr (Or.inl (by decide))),
    (handleColumnClick_spec startGame 3).2 rfl rfl rfl (by decide)⟩

/-! ## The outcome of a move -/

theorem placePiece_of_win (s : State) (row col : Int) (side : Side) (next : Player) (w : Side)
    (h : checkWinner (s.board.set row col (some side)) row col = some w) :
    (placePiece s row col side next).winner = some (Outcome.win w) ∧
    (placePiece s row col side next).gameState = Phase.gameOver := by
  unfold placePiece
  simp [h]

theorem placePiece_of_draw (s : State) (row col : Int) (side : Side) (next : Player)
    (h : checkWinner (s.board.set row col (some side)) row col = none)
    (hfull : isBoardFull (s.board.set row col (some side)) = true) :
    (placePiece s row col side next).winner = some Outcome.draw ∧
    (placePiece s row col side next).gameState = Phase.gameOver := by
  unfold placePiece
  simp [h, hfull]

theorem placePiece_of_continue (s : State) (row col : Int) (side : Side) (next : Player)
    (h : checkWinner (s.board.set row col (some side)) row col = none)
    (hfull : isBoardFull (s.board.set row col (some side)) = false) :
    (placePiece s row col side next).winner = s.winner ∧
    (placePiece s row col side next).gameState = s.gameState ∧
    (placePiece s row col side next).currentPlayer = next := by
  unfold placePiece
  simp only [h, hfull]
  exact ⟨rfl, rfl, rfl⟩

theorem placePiece_outcome (s : State) (row col : Int) (side : Side) (next : Player)
    (hin : inBounds row col) (hg : gravity (s.board.set row col (some side)))
    (hplay : s.gameState = Phase.playing) :
    MoveOutcome s (placePiece s row col side next) side row col next := by
  have hcell : (s.board.set row col (some side)).get row col = some (some side) := by
    rw [get_set, if_pos hin, if_pos ⟨rfl, rfl⟩]
  have hw := checkWinner_of_cell _ side row col hcell
  have hf := exists_direction_iff_fourInLine _ side row col hcell
  have hfull := isBoardFull_of_gravity _ hg
  have hb := (placePiece_board s row col side next).1
  unfold MoveOutcome
  refine ⟨hb, ?_⟩
  rw [hb]
  by_cases h4 : fourInLine (s.board.set row col (some side)) side row col
  · have hwin := placePiece_of_win s row col side next side (hw.1.mpr (hf.mpr h4))
    refine ⟨⟨fun h => ?_, fun h => absurd h4 h.1⟩, fun _ => hwin, fun h => absurd h4 h⟩
    rw [hwin.1] at h
    simp at h
  · have hnone : checkWinner (s.board.set row col (some side)) row col = none :=
      hw.2.mpr (fun he => h4 (hf.mp he))
    by_cases hfl : isBoardFull (s.board.set row col (some side)) = true
    · have hdraw := placePiece_of_draw s row col side next hnone hfl
      refine ⟨⟨fun _ => ⟨h4, hfull.mp hfl⟩, fun _ => hdraw⟩, fun h => absurd h h4, ?_⟩
      rintro - ⟨r, c, hrc⟩
      exact absurd hrc (hfull.mp hfl r c)
    · have hfl' : isBoardFull (s.board.set row col (some side)) = false := by
        simpa using hfl
      have hcont := placePiece_of_continue s row col side next hnone hfl'
      refine ⟨⟨fun h => ?_, fun h => absurd (hfull.mpr h.2) hfl⟩, fun h => absurd h h4,
        fun _ _ => ⟨by rw [hcont.2.1]; exact hplay, hcont.1, hcont.2.2⟩⟩
      rw [hcont.2.1, hplay] at h
      simp at h

theorem makeAIMove_of_failure (s : State) (adv : Advisory)
    (hturn : s.currentPlayer = Player.ai ∧ s.gameState = Phase.playing)
    (hfail : adv = Advisory.callThrows ∨ adv = Advisory.notJson ∨ adv = Advisory.noThoughts) :
    makeAIMove s adv = { fallbackMove s with isAIThinking := false } := by
  rw [makeAIMove_of_turn s adv hturn]
  rcases hfail with rfl | rfl | rfl <;> rfl

theorem move_outcome_human (s : State) (hg : gravity s.board)
    (hplay : s.gameState = Phase.playing) (col : Int)
    (h2 : s.currentPlayer = Player.human) (h3 : s.isAIThinking = false)
    (h4 : col ∈ getValidMoves s.board) :
    MoveOutcome s (handleColumnClick s col) Side.red (getAvailableRow s.board col) col
      Player.ai := by
  rw [handleColumnClick_accepts s col hplay h2 h3 h4]
  obtain ⟨hr, hempty⟩ := getAvailableRow_mem s.board col h4
  exact placePiece_outcome s _ col Side.red Player.ai (get_eq_some _ _ _ _ hempty).1
    (gravity_dropPiece s.board col Side.red hg h4) hplay

theorem move_outcome_fallback (s : State) (hg : gravity s.board)
    (hplay : s.gameState = Phase.playing) (adv : Advisory) (col : Int)
    (h2 : s.currentPlayer = Player.ai)
    (hfail : adv = Advisory.callThrows ∨ adv = Advisory.notJson ∨ adv = Advisory.noThoughts)
    (hc : fallbackChoice s.board = some col) :
    MoveOutcome s (makeAIMove s adv) Side.yellow (getAvailableRow s.board col) col
      Player.human := by
  have h4 := fallbackChoice_mem s.board col hc
  obtain ⟨hr, hempty⟩ := getAvailableRow_mem s.board col h4
  have hout := placePiece_outcome s _ col Side.yellow Player.human
    (get_eq_some _ _ _ _ hempty).1 (gravity_dropPiece s.board col Side.yellow hg h4) hplay
  have hm : makeAIMove s adv =
      { placePiece s (getAvailableRow s.board col) col Side.yellow Player.human with
        isAIThinking := false } := by
    rw [makeAIMove_of_failure s adv ⟨h2, hplay⟩ hfail]
    unfold fallbackMove
    rw [hc]
  rw [hm]
  exact hout

/-- C18: in every in-play state of a game (every state reachable from
`startGame` by clicks and automated turns, whatever the advisory replied), for
a human move that is applied and for an automated move decided by the
fallback: the piece is written on the lowest empty cell of the column, and the
outcome becomes a draw (winner `'draw'`, game over) exactly when the placed
piece completes no four in line and the resulting board has all 42 cells
occupied; when the placed piece completes a four in line the outcome is that
side's win, full board or not; otherwise the game stays in play and the turn
passes. -/
theorem move_outcome (s : State) (hs : Reachable s) (hplay : s.gameState = Phase.playing) :
    (∀ col : Int, s.currentPlayer = Player.human → s.isAIThinking = false →
      col ∈ getValidMoves s.board →
      MoveOutcome s (handleColumnClick s col) Side.red (getAvailableRow s.board col) col
        Player.ai) ∧
    (∀ (adv : Advisory) (col : Int), s.currentPlayer = Player.ai →
      (adv = Advisory.callThrows ∨ adv = Advisory.notJson ∨ adv = Advisory.noThoughts) →
      fallbackChoice s.board = some col →
      MoveOutcome s (makeAIMove s adv) Side.yellow (getAvailableRow s.board col) col
        Player.human) :=
  ⟨fun col h2 h3 h4 => move_outcome_human s (reachable_gravity s hs) hplay col h2 h3 h4,
    fun adv col h2 hfail hc =>
      move_outcome_fallback s (reachable_gravity s hs) hplay adv col h2 hfail hc⟩

/-! ## Three stacked pieces against the fallback -/

/-- C20: from a new game with the fallback deciding every automated move, the
human plays column 0 three times; the automated side answers in column 3,
column 3 and then column 0, on top of the three red pieces at rows 5, 4, 3 of
column 0, and the game is still in play with the human to move. -/
theorem three_stack_blocked :
    (playFallback startGame 0).lastMove = some (5, 3) ∧
    (playFallback (playFallback startGame 0) 0).lastMove = some (4, 3) ∧
    (handleColumnClick (playFallback (playFallback startGame 0) 0) 0).board 5 0 =
      some Side.red ∧
    (handleColumnClick (playFallback (playFallback startGame 0) 0) 0).board 4 0 =
      some Side.red ∧
    (handleColumnClick (playFallback (playFallback startGame 0) 0) 0).board 3 0 =
      some Side.red ∧
    fallbackChoice (handleColumnClick (playFallback (playFallback startGame 0) 0) 0).board =
      some 0 ∧
    (playFallback (playFallback (playFallback startGame 0) 0) 0).lastMove = some (2, 0) ∧
    (playFallback (playFallback (playFallback startGame 0) 0) 0).board 2 0 =
      some Side.yellow ∧
    (playFallback (playFallback (playFallback startGame 0) 0) 0).gameState = Phase.playing ∧
    (playFallback (playFallback (playFallback startGame 0) 0) 0).winner = none ∧
    (playFallback (playFallback (playFallback startGame 0) 0) 0).currentPlayer =
      Player.human := by
  decide

theorem reachable_playAdvised_aux (n : Nat) :
    ∀ l : List Int, l.length ≤ n → ∀ s : State, Reachable s → Reachable (playAdvised s l) := by
  induction n with
  | zero =>
    intro l hl s hs
    have : l = [] := List.length_eq_zero.mp (Nat.le_zero.mp hl)
    subst this; exact hs
  | succ n ihn =>
    intro l hl s hs
    match l, hl with
    | [], _ => exact hs
    | [c], _ => exact Reachable.human s c hs
    | c :: a :: r, hl =>
      simp only [List.length_cons] at hl
      exact ihn r (by omega) _ (Reachable.auto _ _ (Reachable.human s c hs))

theorem reachable_playAdvised (l : List Int) (s : State) (hs : Reachable s) :
    Reachable (playAdvised s l) :=
  reachable_playAdvised_aux l.length l (le_refl _) s hs

set_option maxRecDepth 100000 in
theorem lastCellState_facts :
    lastCellState.gameState = Phase.playing ∧
    lastCellState.currentPlayer = Player.ai ∧
    getValidMoves lastCellState.board = [6] ∧
    fallbackChoice lastCellState.board = some 6 ∧
    (makeAIMove lastCellState Advisory.callThrows).winner = some Outcome.draw ∧
    (makeAIMove lastCellState Advisory.callThrows).gameState = Phase.gameOver := by
  decide

/-- C18 on three states of a game: at the start a click on column 3 is applied
and the game goes on; after the 41 moves of `drawMoves` the fallback fills the
last cell, no four in line exists, and the game ends in a draw; and in the
state reached through replies that name their column as text a click on
column 0 is applied and the game goes on. -/
theorem move_outcome_witness :
    MoveOutcome startGame (handleColumnClick startGame 3) Side.red
      (getAvailableRow startGame.board 3) 3 Player.ai ∧
    Reachable lastCellState ∧
    (makeAIMove lastCellState Advisory.callThrows).winner = some Outcome.draw ∧
    MoveOutcome lastCellState (makeAIMove lastCellState Advisory.callThrows) Side.yellow
      (getAvailableRow lastCellState.board 6) 6 Player.human ∧
    MoveOutcome textStackState (handleColumnClick textStackState 0) Side.red
      (getAvailableRow textStackState.board 0) 0 Player.ai :=
  ⟨(move_outcome startGame Reachable.start rfl).1 3 rfl rfl (by decide),
    reachable_playAdvised drawMoves startGame Reachable.start,
    lastCellState_facts.2.2.2.2.1,
    (move_outcome lastCellState (reachable_playAdvised drawMoves startGame Reachable.start)
      lastCellState_facts.1).2 Advisory.callThrows 6 lastCellState_facts.2.1 (Or.inl rfl)
      lastCellState_facts.2.2.2.1,
    (move_outcome textStackState reachable_textStackState (by decide)).1 0 (by decide)
      (by decide) (by decide)⟩

/-! ## Instances of the threat theorems -/

/-- C11 on the vertical window of column 0 of `mustBlockBoard`: three red
pieces below the playable empty cell `(2, 0)` give an immediate threat there,
and the same window holds no threat for yellow. -/
theorem analyzePositions_classifies_witness :
    analyzePositions mustBlockBoard [(2, 0), (3, 0), (4, 0), (5, 0)] Side.red =
      some ⟨ThreatType.immediate, 0, 2, none⟩ ∧
    ([(2, 0), (3, 0), (4, 0), (5, 0)] : List (Int × Int)).countP
      (fun p => decide (mustBlockBoard.get p.1 p.2 = some (some Side.red))) = 3 ∧
    playableCell mustBlockBoard 2 0 ∧
    analyzePositions mustBlockBoard [(2, 0), (3, 0), (4, 0), (5, 0)] Side.yellow = none :=
  ⟨by decide,
    (((analyzePositions_classifies mustBlockBoard Side.red [(2, 0), (3, 0), (4, 0), (5, 0)]
      (by decide) (by decide)).1 2 0).mp (by decide)).1,
    (((analyzePositions_classifies mustBlockBoard Side.red [(2, 0), (3, 0), (4, 0), (5, 0)]
      (by decide) (by decide)).1 2 0).mp (by decide)).2.2,
    (analyzePositions_classifies mustBlockBoard Side.yellow [(2, 0), (3, 0), (4, 0), (5, 0)]
      (by decide) (by decide)).2.2.2 ⟨(3, 0), by decide, Side.red, by decide, by decide⟩⟩

/-- C12 on the board whose only pieces are red on `(5, 2)` and `(5, 3)`:
`findThreats(board, red)` contains a critical threat, its column is 1. -/
theorem findThreats_open_ended_witness :
    (findThreats openTwoBoard Side.red).filter
        (fun t => decide (t.type = ThreatType.critical)) =
      [⟨ThreatType.critical, 1, 5, some Reason.openEnded2⟩] ∧
    ∃ t ∈ findThreats openTwoBoard Side.red, t.type = ThreatType.critical ∧ t.row = 5 ∧
      t.column = (if playableCell openTwoBoard 5 1 then 1 else 1 + 3) :=
  ⟨by decide,
    findThreats_open_ended openTwoBoard Side.red 5 1 (by decide) (by decide) (by decide)
      (by decide) (Or.inl (by decide))⟩

/-! ## Every threat names a playable empty cell -/

theorem analyzePositions_cell (board : Board) (side : Side) (w : List (Int × Int)) (t : Threat)
    (h : analyzePositions board w side = some t) :
    board.get t.row t.column = some none ∧ playableCell board t.row t.column := by
  obtain ⟨r, c, rfl | rfl⟩ := analyzePositions_shape board side w t h
  · obtain ⟨-, hf, hp⟩ := (analyzePositions_immediate_iff board side w r c).mp h
    have hmem : (r, c) ∈ w.filter (fun p => decide (board.get p.1 p.2 = some none)) := by
      rw [hf]; simp
    have := (List.mem_filter.mp hmem).2
    simp only [decide_eq_true_eq] at this
    exact ⟨this, hp⟩
  · obtain ⟨-, -, hf⟩ := (analyzePositions_potential_iff board side w r c).mp h
    have := List.find?_some hf
    simp only [decide_eq_true_eq] at this
    exact this

theorem findThreats_cell (board : Board) (side : Side) (t : Threat)
    (h : t ∈ findThreats board side) :
    board.get t.row t.column = some none ∧ playableCell board t.row t.column := by
  rw [mem_findThreats] at h
  rcases h with ⟨row, -, col, -, h⟩ | ⟨row, -, col, -, h | h⟩
  · obtain ⟨w, -, hw⟩ := mem_windowThreats _ _ _ _ _ h
    exact analyzePositions_cell board side w t hw
  · rw [mem_openEndedThreat] at h
    obtain ⟨⟨h0, -, -, h3⟩, hp, rfl⟩ := h
    by_cases hl : playableCell board row col
    · simp only [if_pos hl]
      exact ⟨h0, hl⟩
    · simp only [if_neg hl]
      rcases hp with hp | hp
      · exact absurd hp hl
      · exact ⟨h3, hp⟩
  · rw [mem_splitThreat] at h
    obtain ⟨⟨-, -, h1, -⟩, hp, -, -, rfl⟩ := h
    exact ⟨h1, hp⟩

theorem get_dropPiece_self (b : Board) (c : Int) (o : Side) (h : c ∈ getValidMoves b) :
    (dropPiece b c o).get (getAvailableRow b c) c = some (some o) := by
  obtain ⟨-, hempty⟩ := getAvailableRow_mem b c h
  unfold dropPiece
  rw [get_set, if_pos (get_eq_some _ _ _ _ hempty).1, if_pos ⟨rfl, rfl⟩]

theorem mem_getValidMoves_of_empty (b : Board) (r c : Int) (h : b.get r c = some none) :
    c ∈ getValidMoves b := by
  obtain ⟨hb, -⟩ := get_eq_some _ _ _ _ h
  unfold inBounds at hb
  rw [← getAvailableRow_ne_iff_mem]
  intro hneg
  rcases getAvailableRow_cases b c with ⟨-, hfull⟩ | ⟨h0, -, -, -⟩
  · exact hfull r hb.1 hb.2.1 h
  · omega

/-- C26: every threat returned by `findThreats` (immediate, potential or
critical) names a cell inside the grid that is empty and playable (row 5, or
the cell directly below holds a piece); on a gravity-respecting board the
threat's row is `getAvailableRow(board, column)`, its column is a valid column
and a piece dropped in that column lands on the threat's cell. -/
theorem findThreats_cells_playable (board : Board) (side : Side) :
    (∀ t ∈ findThreats board side,
      inBounds t.row t.column ∧ board.get t.row t.column = some none ∧
      playableCell board t.row t.column) ∧
    (gravity board → ∀ t ∈ findThreats board side,
      getAvailableRow board t.column = t.row ∧ t.column ∈ getValidMoves board ∧
      ∀ o : Side, (dropPiece board t.column o).get t.row t.column = some (some o)) := by
  constructor
  · intro t ht
    obtain ⟨h1, h2⟩ := findThreats_cell board side t ht
    exact ⟨(get_eq_some _ _ _ _ h1).1, h1, h2⟩
  · intro hg t ht
    obtain ⟨h1, h2⟩ := findThreats_cell board side t ht
    have hrow := getAvailableRow_of_playable board hg t.row t.column h1 h2
    have hmem := mem_getValidMoves_of_empty board t.row t.column h1
    refine ⟨hrow, hmem, fun o => ?_⟩
    have := get_dropPiece_self board t.column o hmem
    rw [hrow] at this
    exact this

/-- C26 on `mustBlockBoard` (gravity holds) for red: each threat's row is the
landing row of its column. -/
theorem findThreats_cells_playable_witness :
    gravity mustBlockBoard ∧ findThreats mustBlockBoard Side.red ≠ [] ∧
    ∀ t ∈ findThreats mustBlockBoard Side.red,
      getAvailableRow mustBlockBoard t.column = t.row ∧
      t.column ∈ getValidMoves mustBlockBoard ∧
      ∀ o : Side, (dropPiece mustBlockBoard t.column o).get t.row t.column = some (some o) :=
  ⟨by decide, by decide,
    (findThreats_cells_playable mustBlockBoard Side.red).2 (by decide)⟩

/-! ## Immediate threats and winning columns -/

theorem checkWinningMove_of_window (b : Board) (side : Side) (r k : Int) (d : Int × Int)
    (hd : d ∈ lineDirs) (a : Nat) (ha : a ≤ 3)
    (hrow : getAvailableRow b k = r) (hin : inBounds r k)
    (hcells : threeAround b side r k d a) :
    checkWinningMove b k side = true := by
  have hr := hin
  unfold inBounds at hr
  unfold checkWinningMove
  simp only [hrow]
  rw [if_neg (by omega), decide_eq_true_eq]
  have hcell : (b.set r k (some side)).get r k = some (some side) := by
    rw [get_set, if_pos hin, if_pos ⟨rfl, rfl⟩]
  rw [(checkWinner_of_cell _ side r k hcell).1, exists_direction_iff_fourInLine _ _ _ _ hcell]
  refine ⟨d, hd, a, ha, fun i hi => ?_⟩
  by_cases hia : i = a
  · subst hia
    simp only [sub_self, zero_mul, add_zero]
    exact ⟨hin, hcell⟩
  · have hg := hcells i hi hia
    have hb := (get_eq_some _ _ _ _ hg).1
    refine ⟨hb, ?_⟩
    rw [get_set, if_pos hb, if_neg, hg]
    rintro ⟨h1, h2⟩
    have hne : (i : Int) - (a : Int) ≠ 0 := by omega
    exact step_ne_zero d.1 d.2 (lineDirs_ne_zero d hd) _ hne (by linarith) (by linarith)

theorem checkWinningMove_window (b : Board) (side : Side) (k : Int)
    (h : checkWinningMove b k side = true) :
    k ∈ getValidMoves b ∧
    ∃ d ∈ lineDirs, ∃ a : Nat, a ≤ 3 ∧ threeAround b side (getAvailableRow b k) k d a := by
  unfold checkWinningMove at h
  simp only at h
  by_cases hrow : getAvailableRow b k = -1
  · rw [if_pos hrow] at h; simp at h
  · rw [if_neg hrow, decide_eq_true_eq] at h
    have hmem := (getAvailableRow_ne_iff_mem b k).mp hrow
    obtain ⟨-, hempty⟩ := getAvailableRow_mem b k hmem
    have hin := (get_eq_some _ _ _ _ hempty).1
    have hcell : (b.set (getAvailableRow b k) k (some side)).get (getAvailableRow b k) k
        = some (some side) := by
      rw [get_set, if_pos hin, if_pos ⟨rfl, rfl⟩]
    rw [(checkWinner_of_cell _ side _ k hcell).1,
      exists_direction_iff_fourInLine _ _ _ _ hcell] at h
    obtain ⟨d, hd, a, ha, hw⟩ := h
    refine ⟨hmem, d, hd, a, ha, fun i hi hia => ?_⟩
    obtain ⟨hb, hg⟩ := hw i hi
    rw [get_set, if_pos hb] at hg
    split_ifs at hg with heq
    · exfalso
      have hne : (i : Int) - (a : Int) ≠ 0 := by omega
      exact step_ne_zero d.1 d.2 (lineDirs_ne_zero d hd) _ hne (by linarith [heq.1])
        (by linarith [heq.2])
    · exact hg


theorem threeAround_flip (b : Board) (s : Side) (r c : Int) (d : Int × Int) (a : Nat)
    (ha : a ≤ 3) (h : threeAround b s r c d a) :
    threeAround b s r c (-d.1, -d.2) (3 - a) := by
  intro i hi hia
  have := h (3 - i) (by omega) (by omega)
  have e : ((3 - i : Nat) : Int) - (a : Int) = -(((i : Int)) - ((3 - a : Nat) : Int)) := by
    omega
  rw [e] at this
  have e1 : r + -(((i : Int)) - ((3 - a : Nat) : Int)) * d.1 =
      r + (((i : Int)) - ((3 - a : Nat) : Int)) * (-d.1, -d.2).1 := by
    show _ = r + _ * (-d.1); ring
  have e2 : c + -(((i : Int)) - ((3 - a : Nat) : Int)) * d.2 =
      c + (((i : Int)) - ((3 - a : Nat) : Int)) * (-d.1, -d.2).2 := by
    show _ = c + _ * (-d.2); ring
  rw [e1, e2] at this
  exact this

theorem exists_scan_iff_exists_line (b : Board) (s : Side) (r c : Int) :
    (∃ d ∈ scanDirs, ∃ a : Nat, a ≤ 3 ∧ threeAround b s r c d a) ↔
    (∃ d ∈ lineDirs, ∃ a : Nat, a ≤ 3 ∧ threeAround b s r c d a) := by
  constructor
  · rintro ⟨d, hd, a, ha, h⟩
    simp only [scanDirs, List.mem_cons, List.mem_singleton, List.mem_nil_iff, or_false] at hd
    rcases hd with rfl | rfl | rfl | rfl
    · exact ⟨_, by simp [lineDirs], a, ha, h⟩
    · exact ⟨_, by simp [lineDirs], a, ha, h⟩
    · exact ⟨_, by simp [lineDirs], a, ha, h⟩
    · have := threeAround_flip b s r c _ a ha h
      simp only [neg_neg] at this
      exact ⟨(1, -1), by simp [lineDirs], 3 - a, by omega, this⟩
  · rintro ⟨d, hd, a, ha, h⟩
    simp only [lineDirs, List.mem_cons, List.mem_singleton, List.mem_nil_iff, or_false] at hd
    rcases hd with rfl | rfl | rfl | rfl
    · exact ⟨_, by simp [scanDirs], a, ha, h⟩
    · exact ⟨_, by simp [scanDirs], a, ha, h⟩
    · exact ⟨_, by simp [scanDirs], a, ha, h⟩
    · have := threeAround_flip b s r c _ a ha h
      exact ⟨(-1, 1), by simp [scanDirs], 3 - a, by omega, this⟩

theorem analyzePositions_map (b : Board) (s : Side) (f : Nat → Int × Int) (a : Nat)
    (ha : a ≤ 3)
    (hside : ∀ i : Nat, i ≤ 3 → i ≠ a → b.get (f i).1 (f i).2 = some (some s))
    (hempty : b.get (f a).1 (f a).2 = some none)
    (hp : playableCell b (f a).1 (f a).2) :
    analyzePositions b [f 0, f 1, f 2, f 3] s =
      some ⟨ThreatType.immediate, (f a).2, (f a).1, none⟩ := by
  rw [analyzePositions_immediate_iff]
  refine ⟨?_, ?_, hp⟩
  · have hcases : a = 0 ∨ a = 1 ∨ a = 2 ∨ a = 3 := by omega
    rcases hcases with rfl | rfl | rfl | rfl
    · have h1 := hside 1 (by omega) (by omega)
      have h2 := hside 2 (by omega) (by omega)
      have h3 := hside 3 (by omega) (by omega)
      simp [List.countP_cons, h1, h2, h3, hempty]
    · have h1 := hside 0 (by omega) (by omega)
      have h2 := hside 2 (by omega) (by omega)
      have h3 := hside 3 (by omega) (by omega)
      simp [List.countP_cons, h1, h2, h3, hempty]
    · have h1 := hside 0 (by omega) (by omega)
      have h2 := hside 1 (by omega) (by omega)
      have h3 := hside 3 (by omega) (by omega)
      simp [List.countP_cons, h1, h2, h3, hempty]
    · have h1 := hside 0 (by omega) (by omega)
      have h2 := hside 1 (by omega) (by omega)
      have h3 := hside 2 (by omega) (by omega)
      simp [List.countP_cons, h1, h2, h3, hempty]
  · have hcases : a = 0 ∨ a = 1 ∨ a = 2 ∨ a = 3 := by omega
    rcases hcases with rfl | rfl | rfl | rfl
    · have h1 := hside 1 (by omega) (by omega)
      have h2 := hside 2 (by omega) (by omega)
      have h3 := hside 3 (by omega) (by omega)
      simp [List.filter_cons, h1, h2, h3, hempty]
    · have h1 := hside 0 (by omega) (by omega)
      have h2 := hside 2 (by omega) (by omega)
      have h3 := hside 3 (by omega) (by omega)
      simp [List.filter_cons, h1, h2, h3, hempty]
    · have h1 := hside 0 (by omega) (by omega)
      have h2 := hside 1 (by omega) (by omega)
      have h3 := hside 3 (by omega) (by omega)
      simp [List.filter_cons, h1, h2, h3, hempty]
    · have h1 := hside 0 (by omega) (by omega)
      have h2 := hside 1 (by omega) (by omega)
      have h3 := hside 2 (by omega) (by omega)
      simp [List.filter_cons, h1, h2, h3, hempty]


theorem window_extract (b : Board) (s : Side) (p0 p1 p2 p3 e : Int × Int)
    (hc : [p0, p1, p2, p3].countP (fun p => decide (b.get p.1 p.2 = some (some s))) = 3)
    (hf : [p0, p1, p2, p3].filter (fun p => decide (b.get p.1 p.2 = some none)) = [e]) :
    (p0 = e ∧ b.get p1.1 p1.2 = some (some s) ∧ b.get p2.1 p2.2 = some (some s) ∧
      b.get p3.1 p3.2 = some (some s)) ∨
    (p1 = e ∧ b.get p0.1 p0.2 = some (some s) ∧ b.get p2.1 p2.2 = some (some s) ∧
      b.get p3.1 p3.2 = some (some s)) ∨
    (p2 = e ∧ b.get p0.1 p0.2 = some (some s) ∧ b.get p1.1 p1.2 = some (some s) ∧
      b.get p3.1 p3.2 = some (some s)) ∨
    (p3 = e ∧ b.get p0.1 p0.2 = some (some s) ∧ b.get p1.1 p1.2 = some (some s) ∧
      b.get p2.1 p2.2 = some (some s)) := by
  have hdisj : ∀ p : Int × Int, b.get p.1 p.2 = some (some s) → b.get p.1 p.2 ≠ some none := by
    intro p h; rw [h]; simp
  by_cases s0 : b.get p0.1 p0.2 = some (some s) <;>
  by_cases s1 : b.get p1.1 p1.2 = some (some s) <;>
  by_cases s2 : b.get p2.1 p2.2 = some (some s) <;>
  by_cases s3 : b.get p3.1 p3.2 = some (some s) <;>
  simp only [List.countP_cons, List.countP_nil, s0, s1, s2, s3, decide_True, decide_False,
    if_true, if_false] at hc <;>
  try omega
  · have e0 := hdisj p0 s0
    have e1 := hdisj p1 s1
    have e2 := hdisj p2 s2
    by_cases e3 : b.get p3.1 p3.2 = some none
    · simp [List.filter_cons, e0, e1, e2, e3] at hf
      exact Or.inr (Or.inr (Or.inr ⟨hf, s0, s1, s2⟩))
    · simp [List.filter_cons, e0, e1, e2, e3] at hf
  · have e0 := hdisj p0 s0
    have e1 := hdisj p1 s1
    have e3 := hdisj p3 s3
    by_cases e2 : b.get p2.1 p2.2 = some none
    · simp [List.filter_cons, e0, e1, e2, e3] at hf
      exact Or.inr (Or.inr (Or.inl ⟨hf, s0, s1, s3⟩))
    · simp [List.filter_cons, e0, e1, e2, e3] at hf
  · have e0 := hdisj p0 s0
    have e2 := hdisj p2 s2
    have e3 := hdisj p3 s3
    by_cases e1 : b.get p1.1 p1.2 = some none
    · simp [List.filter_cons, e0, e1, e2, e3] at hf
      exact Or.inr (Or.inl ⟨hf, s0, s2, s3⟩)
    · simp [List.filter_cons, e0, e1, e2, e3] at hf
  · have e1 := hdisj p1 s1
    have e2 := hdisj p2 s2
    have e3 := hdisj p3 s3
    by_cases e0 : b.get p0.1 p0.2 = some none
    · simp [List.filter_cons, e0, e1, e2, e3] at hf
      exact Or.inl ⟨hf, s1, s2, s3⟩
    · simp [List.filter_cons, e0, e1, e2, e3] at hf


theorem mem_windowThreats_iff (b : Board) (s : Side) (row col : Int) (t : Threat)
    (hrow : 0 ≤ row ∧ row ≤ 5) (hcol : 0 ≤ col ∧ col ≤ 6) :
    t ∈ windowThreats b s row col ↔
      ∃ d ∈ scanDirs, inBounds (row + 3 * d.1) (col + 3 * d.2) ∧
        analyzePositions b (scanWindow row col d) s = some t := by
  have hH : scanWindow row col (0, 1) =
      [(row, col), (row, col + 1), (row, col + 2), (row, col + 3)] := by
    simp [scanWindow]
  have hV : scanWindow row col (1, 0) =
      [(row, col), (row + 1, col), (row + 2, col), (row + 3, col)] := by
    simp [scanWindow]
  have hD : scanWindow row col (1, 1) =
      [(row, col), (row + 1, col + 1), (row + 2, col + 2), (row + 3, col + 3)] := by
    simp [scanWindow]
  have hA : scanWindow row col (-1, 1) =
      [(row, col), (row - 1, col + 1), (row - 2, col + 2), (row - 3, col + 3)] := by
    simp [scanWindow, sub_eq_add_neg]
  have bH : inBounds (row + 3 * ((0 : Int), (1 : Int)).1) (col + 3 * ((0 : Int), (1 : Int)).2) ↔
      col ≤ 3 := by
    unfold inBounds; simp only; omega
  have bV : inBounds (row + 3 * ((1 : Int), (0 : Int)).1) (col + 3 * ((1 : Int), (0 : Int)).2) ↔
      row ≤ 2 := by
    unfold inBounds; simp only; omega
  have bD : inBounds (row + 3 * ((1 : Int), (1 : Int)).1) (col + 3 * ((1 : Int), (1 : Int)).2) ↔
      (row ≤ 2 ∧ col ≤ 3) := by
    unfold inBounds; simp only; omega
  have bA : inBounds (row + 3 * ((-1 : Int), (1 : Int)).1)
      (col + 3 * ((-1 : Int), (1 : Int)).2) ↔ (row ≥ 3 ∧ col ≤ 3) := by
    unfold inBounds; simp only; omega
  unfold windowThreats
  simp only [scanDirs, List.mem_cons, List.mem_singleton, List.mem_nil_iff, or_false,
    exists_eq_or_imp, exists_eq_left, hH, hV, hD, hA, bH, bV, bD, bA, List.mem_append]
  constructor
  · rintro (((h | h) | h) | h)
    · split_ifs at h with hc
      · exact Or.inl ⟨hc, by simpa using h⟩
      · simp at h
    · split_ifs at h with hc
      · exact Or.inr (Or.inl ⟨hc, by simpa using h⟩)
      · simp at h
    · split_ifs at h with hc
      · exact Or.inr (Or.inr (Or.inl ⟨hc, by simpa using h⟩))
      · simp at h
    · split_ifs at h with hc
      · exact Or.inr (Or.inr (Or.inr ⟨hc, by simpa using h⟩))
      · simp at h
  · rintro (⟨hc, h⟩ | ⟨hc, h⟩ | ⟨hc, h⟩ | ⟨hc, h⟩)
    · exact Or.inl (Or.inl (Or.inl (by rw [if_pos hc, h]; simp)))
    · exact Or.inl (Or.inl (Or.inr (by rw [if_pos hc, h]; simp)))
    · exact Or.inl (Or.inr (by rw [if_pos hc, h]; simp))
    · exact Or.inr (by rw [if_pos hc, h]; simp)


theorem threeAround_of_start (b : Board) (s : Side) (row col : Int) (d : Int × Int) (a : Nat)
    (h : ∀ i : Nat, i ≤ 3 → i ≠ a →
      b.get (row + (i : Int) * d.1) (col + (i : Int) * d.2) = some (some s)) :
    threeAround b s (row + (a : Int) * d.1) (col + (a : Int) * d.2) d a := by
  intro i hi hia
  have e1 : row + (a : Int) * d.1 + ((i : Int) - (a : Int)) * d.1 = row + (i : Int) * d.1 := by
    ring
  have e2 : col + (a : Int) * d.2 + ((i : Int) - (a : Int)) * d.2 = col + (i : Int) * d.2 := by
    ring
  rw [e1, e2]
  exact h i hi hia

theorem scanWindow_eq (row col : Int) (d : Int × Int) :
    scanWindow row col d =
      [(row + ((0 : Nat) : Int) * d.1, col + ((0 : Nat) : Int) * d.2),
       (row + ((1 : Nat) : Int) * d.1, col + ((1 : Nat) : Int) * d.2),
       (row + ((2 : Nat) : Int) * d.1, col + ((2 : Nat) : Int) * d.2),
       (row + ((3 : Nat) : Int) * d.1, col + ((3 : Nat) : Int) * d.2)] := by
  simp [scanWindow]

theorem immediate_of_window (b : Board) (s : Side) (r c : Int) (d : Int × Int)
    (hd : d ∈ scanDirs) (a : Nat) (ha : a ≤ 3) (h3 : threeAround b s r c d a)
    (he : b.get r c = some none) (hp : playableCell b r c) :
    (⟨ThreatType.immediate, c, r, none⟩ : Threat) ∈ findThreats b s := by
  have hra : r - (a : Int) * d.1 + (a : Int) * d.1 = r := by ring
  have hca : c - (a : Int) * d.2 + (a : Int) * d.2 = c := by ring
  have hside : ∀ i : Nat, i ≤ 3 → i ≠ a →
      b.get (r - (a : Int) * d.1 + (i : Int) * d.1) (c - (a : Int) * d.2 + (i : Int) * d.2)
        = some (some s) := by
    intro i hi hia
    have := h3 i hi hia
    have e1 : r - (a : Int) * d.1 + (i : Int) * d.1 = r + ((i : Int) - (a : Int)) * d.1 := by
      ring
    have e2 : c - (a : Int) * d.2 + (i : Int) * d.2 = c + ((i : Int) - (a : Int)) * d.2 := by
      ring
    rw [e1, e2]; exact this
  have hin : ∀ i : Nat, i ≤ 3 →
      inBounds (r - (a : Int) * d.1 + (i : Int) * d.1) (c - (a : Int) * d.2 + (i : Int) * d.2) := by
    intro i hi
    by_cases hia : i = a
    · subst hia
      rw [hra, hca]
      exact (get_eq_some _ _ _ _ he).1
    · exact (get_eq_some _ _ _ _ (hside i hi hia)).1
  have hmap := analyzePositions_map b s
    (fun i : Nat => (r - (a : Int) * d.1 + (i : Int) * d.1, c - (a : Int) * d.2 + (i : Int) * d.2))
    a ha hside (by simp only [hra, hca]; exact he) (by simp only [hra, hca]; exact hp)
  simp only [hra, hca] at hmap
  have h0 := hin 0 (by omega)
  have h3' := hin 3 (by omega)
  simp only [Nat.cast_zero, zero_mul, add_zero, Nat.cast_ofNat] at h0 h3'
  have hb0 := h0
  unfold inBounds at hb0
  rw [mem_findThreats]
  left
  refine ⟨r - (a : Int) * d.1, by omega, c - (a : Int) * d.2, by omega, ?_⟩
  rw [mem_windowThreats_iff b s _ _ _ (by omega) (by omega)]
  refine ⟨d, hd, h3', ?_⟩
  rw [scanWindow_eq]
  exact hmap

theorem window_of_immediate (b : Board) (s : Side) (t : Threat)
    (ht : t ∈ findThreats b s) (hty : t.type = ThreatType.immediate) :
    b.get t.row t.column = some none ∧ playableCell b t.row t.column ∧
    ∃ d ∈ scanDirs, ∃ a : Nat, a ≤ 3 ∧ threeAround b s t.row t.column d a := by
  obtain ⟨hempty, hplay⟩ := findThreats_cell b s t ht
  refine ⟨hempty, hplay, ?_⟩
  rw [mem_findThreats] at ht
  rcases ht with ⟨row, hrow, col, hcol, h⟩ | ⟨row, -, col, -, h | h⟩
  · rw [mem_windowThreats_iff b s row col t hrow hcol] at h
    obtain ⟨d, hd, -, han⟩ := h
    obtain ⟨r, c, rfl | rfl⟩ := analyzePositions_shape _ _ _ _ han
    · obtain ⟨hc, hf, -⟩ := (analyzePositions_immediate_iff _ _ _ _ _).mp han
      rw [scanWindow_eq] at hc hf
      refine ⟨d, hd, ?_⟩
      rcases window_extract b s _ _ _ _ _ hc hf with ⟨he, s1, s2, s3⟩ | ⟨he, s0, s2, s3⟩ |
        ⟨he, s0, s1, s3⟩ | ⟨he, s0, s1, s2⟩
      · simp only [Prod.mk.injEq] at he
        obtain ⟨rfl, rfl⟩ := he
        refine ⟨0, by omega, ?_⟩
        apply threeAround_of_start
        intro i hi hia
        have : i = 1 ∨ i = 2 ∨ i = 3 := by omega
        rcases this with rfl | rfl | rfl <;> assumption
      · simp only [Prod.mk.injEq] at he
        obtain ⟨rfl, rfl⟩ := he
        refine ⟨1, by omega, ?_⟩
        apply threeAround_of_start
        intro i hi hia
        have : i = 0 ∨ i = 2 ∨ i = 3 := by omega
        rcases this with rfl | rfl | rfl <;> assumption
      · simp only [Prod.mk.injEq] at he
        obtain ⟨rfl, rfl⟩ := he
        refine ⟨2, by omega, ?_⟩
        apply threeAround_of_start
        intro i hi hia
        have : i = 0 ∨ i = 1 ∨ i = 3 := by omega
        rcases this with rfl | rfl | rfl <;> assumption
      · simp only [Prod.mk.injEq] at he
        obtain ⟨rfl, rfl⟩ := he
        refine ⟨3, by omega, ?_⟩
        apply threeAround_of_start
        intro i hi hia
        have : i = 0 ∨ i = 1 ∨ i = 2 := by omega
        rcases this with rfl | rfl | rfl <;> assumption
    · simp at hty
  · rw [mem_openEndedThreat] at h
    rw [h.2.2] at hty
    simp at hty
  · rw [mem_splitThreat] at h
    rw [h.2.2.2.2] at hty
    simp at hty

theorem playableCell_lowest (b : Board) (c : Int) (h : c ∈ getValidMoves b) :
    playableCell b (getAvailableRow b c) c := by
  obtain ⟨hr, hempty⟩ := getAvailableRow_mem b c h
  rw [← playableRaw_iff b _ c hempty]
  rcases getAvailableRow_cases b c with ⟨h1, -⟩ | ⟨-, -, -, hbelow⟩
  · omega
  · by_cases h5 : getAvailableRow b c = 5
    · exact Or.inl h5
    · exact Or.inr (hbelow _ (by omega) (by omega))

theorem immediate_of_winning (b : Board) (s : Side) (c : Int)
    (h : checkWinningMove b c s = true) :
    (⟨ThreatType.immediate, c, getAvailableRow b c, none⟩ : Threat) ∈ findThreats b s := by
  obtain ⟨hmem, hline⟩ := checkWinningMove_window b s c h
  obtain ⟨d, hd, a, ha, h3⟩ := (exists_scan_iff_exists_line b s _ c).mpr hline
  exact immediate_of_window b s _ c d hd a ha h3 (getAvailableRow_mem b c hmem).2
    (playableCell_lowest b c hmem)

theorem winning_of_immediate (b : Board) (s : Side) (hg : gravity b) (t : Threat)
    (ht : t ∈ findThreats b s) (hty : t.type = ThreatType.immediate) :
    checkWinningMove b t.column s = true := by
  obtain ⟨hempty, hplay, hscan⟩ := window_of_immediate b s t ht hty
  obtain ⟨d, hd, a, ha, h3⟩ := (exists_scan_iff_exists_line b s _ _).mp hscan
  exact checkWinningMove_of_window b s t.row t.column d hd a ha
    (getAvailableRow_of_playable b hg _ _ hempty hplay) (get_eq_some _ _ _ _ hempty).1 h3

/-- C23: for every board, a column in which `checkWinningMove` is true is the
column of an immediate threat of `findThreats`; on a gravity-respecting board
the columns of the immediate threats are exactly the columns in which
`checkWinningMove` is true. -/
theorem immediate_columns_eq_winning (board : Board) (side : Side) :
    (∀ c : Int, checkWinningMove board c side = true →
      ∃ t ∈ findThreats board side, t.type = ThreatType.immediate ∧ t.column = c) ∧
    (gravity board → ∀ c : Int,
      (∃ t ∈ findThreats board side, t.type = ThreatType.immediate ∧ t.column = c) ↔
        checkWinningMove board c side = true) := by
  have h1 : ∀ c : Int, checkWinningMove board c side = true →
      ∃ t ∈ findThreats board side, t.type = ThreatType.immediate ∧ t.column = c :=
    fun c hc => ⟨_, immediate_of_winning board side c hc, rfl, rfl⟩
  refine ⟨h1, fun hg c => ⟨?_, h1 c⟩⟩
  rintro ⟨t, ht, hty, rfl⟩
  exact winning_of_immediate board side hg t ht hty

/-- C23 on `mustBlockBoard`: column 0 wins for red and carries an immediate
red threat. -/
theorem immediate_columns_eq_winning_witness :
    gravity mustBlockBoard ∧ checkWinningMove mustBlockBoard 0 Side.red = true ∧
    ((∃ t ∈ findThreats mustBlockBoard Side.red,
        t.type = ThreatType.immediate ∧ t.column = 0) ↔
      checkWinningMove mustBlockBoard 0 Side.red = true) :=
  ⟨by decide, by decide, (immediate_columns_eq_winning mustBlockBoard Side.red).2 (by decide) 0⟩

/-! ## Tier 4 of the fallback -/

theorem smallestWinning_eq_none (board : Board) (side : Side)
    (h : ∀ c ∈ getValidMoves board, checkWinningMove board c side = false) :
    smallestWinning board side = none := by
  unfold smallestWinning
  have : (getValidMoves board).filter (fun c => checkWinningMove board c side) = [] := by
    rw [List.filter_eq_nil_iff]
    intro c hc
    rw [h c hc]; simp
  rw [this]; rfl

theorem no_immediate_of_no_win (board : Board) (side : Side) (hg : gravity board)
    (h : ∀ c ∈ getValidMoves board, checkWinningMove board c side = false) :
    ∀ t ∈ findThreats board side, t.type ≠ ThreatType.immediate := by
  intro t ht hty
  have hw := winning_of_immediate board side hg t ht hty
  have hmem := mem_getValidMoves_of_empty board t.row t.column (findThreats_cell board side t ht).1
  rw [h _ hmem] at hw
  simp at hw

theorem firstThreatColumn_immediate (board : Board) (hg : gravity board)
    (h : smallestWinning board Side.red = none) :
    firstThreatColumn board ThreatType.immediate = none := by
  unfold firstThreatColumn
  rw [Option.map_eq_none', List.find?_eq_none]
  intro t ht
  simp only [decide_eq_true_eq, not_and]
  intro hty hmem
  have hw := winning_of_immediate board Side.red hg t ht hty
  unfold smallestWinning at h
  rw [List.min?_eq_none_iff, List.filter_eq_nil_iff] at h
  exact h _ hmem hw

theorem fallbackChoice_skips_tier4 (board : Board) (hg : gravity board) :
    fallbackChoice board =
      [smallestWinning board Side.yellow, smallestWinning board Side.red,
       firstThreatColumn board ThreatType.critical, firstCenter board].findSome? id := by
  rw [fallbackChoice_eq_priority]
  unfold fallbackPriority
  cases h2 : smallestWinning board Side.red with
  | none =>
    rw [firstThreatColumn_immediate board hg h2]
    cases smallestWinning board Side.yellow <;>
      cases firstThreatColumn board ThreatType.critical <;> rfl
  | some c =>
    cases smallestWinning board Side.yellow <;> rfl

/-- C25: on a gravity-respecting board tier 4 never determines the fallback's
move. The choice is always the first defined value of tiers 1, 2, 3 and 5;
and when no valid column wins immediately for yellow or for red,
`findThreats(board, red)` holds no immediate threat at all, so the choice is
the first defined value of tier 3 and tier 5. -/
theorem tier4_never_decides (board : Board) (hg : gravity board) :
    fallbackChoice board =
      [smallestWinning board Side.yellow, smallestWinning board Side.red,
       firstThreatColumn board ThreatType.critical, firstCenter board].findSome? id ∧
    ((∀ c ∈ getValidMoves board, checkWinningMove board c Side.yellow = false) →
      (∀ c ∈ getValidMoves board, checkWinningMove board c Side.red = false) →
      (∀ t ∈ findThreats board Side.red, t.type = ThreatType.immediate →
        t.column ∉ getValidMoves board) ∧
      (∀ t ∈ findThreats board Side.red, t.type ≠ ThreatType.immediate) ∧
      fallbackChoice board =
        [firstThreatColumn board ThreatType.critical, firstCenter board].findSome? id) := by
  refine ⟨fallbackChoice_skips_tier4 board hg, fun hy hr => ?_⟩
  have hno := no_immediate_of_no_win board Side.red hg hr
  refine ⟨fun t ht hty => absurd hty (hno t ht), hno, ?_⟩
  rw [fallbackChoice_skips_tier4 board hg, smallestWinning_eq_none board _ hy,
    smallestWinning_eq_none board _ hr]
  rfl

/-- C25 on the board with red on `(5, 2)` and `(5, 3)` only: nobody wins at
once, there is no immediate red threat, and tier 3 chooses column 1. -/
theorem tier4_never_decides_witness :
    gravity openTwoBoard ∧ fallbackChoice openTwoBoard = some 1 ∧
    (∀ t ∈ findThreats openTwoBoard Side.red, t.type ≠ ThreatType.immediate) ∧
    fallbackChoice openTwoBoard =
      [firstThreatColumn openTwoBoard ThreatType.critical,
       firstCenter openTwoBoard].findSome? id :=
  ⟨by decide, by decide,
    ((tier4_never_decides openTwoBoard (by decide)).2 (by decide) (by decide)).2.1,
    ((tier4_never_decides openTwoBoard (by decide)).2 (by decide) (by decide)).2.2⟩

/-! ## The recorded winning cells are the whole run -/

theorem mem_collect_iff (b : Board) (s : Side) (row col dr dc : Int)
    (hin : inBounds row col)
    (hdr : dr = 0 ∨ dr = 1 ∨ dr = -1) (hdc : dc = 0 ∨ dc = 1 ∨ dc = -1)
    (hd : dr ≠ 0 ∨ dc ≠ 0) (p : Int × Int) :
    p ∈ collect b s dr dc 7 (row + dr) (col + dc) ↔
      ∃ n : Nat, p = (row + ((n : Int) + 1) * dr, col + ((n : Int) + 1) * dc) ∧
        ∀ i : Nat, i ≤ n →
          b.get (row + ((i : Int) + 1) * dr) (col + ((i : Int) + 1) * dc) = some (some s) := by
  have e1 : ∀ i : Nat, row + dr + (i : Int) * dr = row + ((i : Int) + 1) * dr := by
    intro i; ring
  have e2 : ∀ i : Nat, col + dc + (i : Int) * dc = col + ((i : Int) + 1) * dc := by
    intro i; ring
  constructor
  · intro hp
    rw [collect_eq_map] at hp
    obtain ⟨n, hn, rfl⟩ := List.mem_map.mp hp
    rw [List.mem_range] at hn
    refine ⟨n, by rw [e1, e2], fun i hi => ?_⟩
    have := get_collect b s dr dc 7 (row + dr) (col + dc) i (by omega)
    rw [e1, e2] at this
    exact this
  · rintro ⟨n, rfl, hall⟩
    have hn7 : n + 1 ≤ 7 := by
      have hb := (get_eq_some _ _ _ _ (hall n (le_refl _))).1
      unfold inBounds at hb hin
      rcases hdr with rfl | rfl | rfl <;> rcases hdc with rfl | rfl | rfl <;>
        simp only [mul_zero, mul_one, mul_neg, add_zero] at hb <;> omega
    have hlen := le_length_collect b s dr dc 7 (row + dr) (col + dc) (n + 1) hn7 (by
      intro k hk
      rw [e1, e2]
      exact hall k (by omega))
    rw [collect_eq_map]
    refine List.mem_map.mpr ⟨n, List.mem_range.mpr (by omega), ?_⟩
    rw [e1, e2]

theorem mem_lineCells_iff (b : Board) (s : Side) (row col : Int) (d : Int × Int)
    (hd : d ∈ lineDirs) (hcell : b.get row col = some (some s)) (p : Int × Int) :
    p ∈ lineCells b s row col ((d.1, d.2), (-d.1, -d.2)) ↔ onRun b s row col d p := by
  have hin := (get_eq_some _ _ _ _ hcell).1
  have hdr : d.1 = 0 ∨ d.1 = 1 ∨ d.1 = -1 := by
    simp only [lineDirs, List.mem_cons, List.mem_singleton, List.mem_nil_iff, or_false] at hd
    rcases hd with rfl | rfl | rfl | rfl <;> simp
  have hdc : d.2 = 0 ∨ d.2 = 1 ∨ d.2 = -1 := by
    simp only [lineDirs, List.mem_cons, List.mem_singleton, List.mem_nil_iff, or_false] at hd
    rcases hd with rfl | rfl | rfl | rfl <;> simp
  have hne := lineDirs_ne_zero d hd
  have hdr' : -d.1 = 0 ∨ -d.1 = 1 ∨ -d.1 = -1 := by omega
  have hdc' : -d.2 = 0 ∨ -d.2 = 1 ∨ -d.2 = -1 := by omega
  have hne' : -d.1 ≠ 0 ∨ -d.2 ≠ 0 := by
    rcases hne with h | h
    · left; omega
    · right; omega
  unfold lineCells
  simp only [List.mem_cons, List.mem_append]
  rw [mem_collect_iff b s row col d.1 d.2 hin hdr hdc hne,
    mem_collect_iff b s row col (-d.1) (-d.2) hin hdr' hdc' hne']
  unfold onRun
  constructor
  · rintro (rfl | ⟨n, rfl, hall⟩ | ⟨n, rfl, hall⟩)
    · refine ⟨0, by simp, fun j hj => ?_⟩
      have : j = 0 := by omega
      subst this
      simpa using hcell
    · refine ⟨(n : Int) + 1, rfl, fun j hj => ?_⟩
      rcases hj with ⟨h0, hk⟩ | ⟨hk, h0⟩
      · by_cases hj0 : j = 0
        · subst hj0; simpa using hcell
        · obtain ⟨i, hi⟩ : ∃ i : Nat, j = (i : Int) + 1 := ⟨(j - 1).toNat, by omega⟩
          subst hi
          exact hall i (by omega)
      · omega
    · refine ⟨-((n : Int) + 1), by rw [Prod.mk.injEq]; constructor <;> ring, fun j hj => ?_⟩
      rcases hj with ⟨h0, hk⟩ | ⟨hk, h0⟩
      · omega
      · by_cases hj0 : j = 0
        · subst hj0; simpa using hcell
        · obtain ⟨i, hi⟩ : ∃ i : Nat, j = -((i : Int) + 1) := ⟨(-j - 1).toNat, by omega⟩
          subst hi
          have := hall i (by omega)
          have e1 : row + -((i : Int) + 1) * d.1 = row + ((i : Int) + 1) * -d.1 := by ring
          have e2 : col + -((i : Int) + 1) * d.2 = col + ((i : Int) + 1) * -d.2 := by ring
          rw [e1, e2]
          exact this
  · rintro ⟨k, rfl, hall⟩
    rcases lt_trichotomy k 0 with hk | hk | hk
    · right; right
      obtain ⟨n, hn⟩ : ∃ n : Nat, k = -((n : Int) + 1) := ⟨(-k - 1).toNat, by omega⟩
      subst hn
      refine ⟨n, by rw [Prod.mk.injEq]; constructor <;> ring, fun i hi => ?_⟩
      have := hall (-((i : Int) + 1)) (Or.inr ⟨by omega, by omega⟩)
      have e1 : row + -((i : Int) + 1) * d.1 = row + ((i : Int) + 1) * -d.1 := by ring
      have e2 : col + -((i : Int) + 1) * d.2 = col + ((i : Int) + 1) * -d.2 := by ring
      rw [e1, e2] at this
      exact this
    · left
      subst hk
      simp
    · right; left
      obtain ⟨n, hn⟩ : ∃ n : Nat, k = (n : Int) + 1 := ⟨(k - 1).toNat, by omega⟩
      subst hn
      exact ⟨n, rfl, fun i hi => hall ((i : Int) + 1) (Or.inl ⟨by omega, by omega⟩)⟩


theorem checkWinnerCells_first (b : Board) (row col : Int) (s : Side)
    (cells : List (Int × Int)) (h : checkWinnerCells b row col = some (s, cells)) :
    b.get row col = some (some s) ∧
    ∃ (pre : List (Int × Int)) (d : Int × Int) (post : List (Int × Int)),
      lineDirs = pre ++ d :: post ∧
      cells = lineCells b s row col ((d.1, d.2), (-d.1, -d.2)) ∧ 4 ≤ cells.length ∧
      ∀ d' ∈ pre, (lineCells b s row col ((d'.1, d'.2), (-d'.1, -d'.2))).length < 4 := by
  have hcell := (checkWinnerCells_eq_some b row col s cells h).1
  refine ⟨hcell, ?_⟩
  rw [checkWinnerCells_of_cell b s row col hcell, directions_eq, List.find?_map] at h
  cases hf : lineDirs.find? ((fun d => decide (4 ≤ (lineCells b s row col d).length)) ∘
      fun d => ((d.1, d.2), (-d.1, -d.2))) with
  | none => rw [hf] at h; simp at h
  | some d =>
    rw [hf] at h
    simp only [Option.map_some', Option.some.injEq, Prod.mk.injEq, true_and] at h
    obtain ⟨hp, pre, post, hsplit, hpre⟩ := List.find?_eq_some.mp hf
    simp only [Function.comp, decide_eq_true_eq] at hp
    refine ⟨pre, d, post, hsplit, h.symm, by rw [← h]; exact hp, fun d' hd' => ?_⟩
    have := hpre d' hd'
    simp only [Function.comp, Bool.not_eq_true', decide_eq_false_iff_not, not_le] at this
    exact this

theorem checkWinner_cells_exact_aux (b : Board) (row col : Int) (s : Side)
    (cells : List (Int × Int)) (h : checkWinnerCells b row col = some (s, cells)) :
    ∃ (pre : List (Int × Int)) (d : Int × Int) (post : List (Int × Int)),
      lineDirs = pre ++ d :: post ∧
      (∀ p, p ∈ cells ↔ onRun b s row col d p) ∧ cells.Nodup ∧ 4 ≤ cells.length ∧
      ∀ d' ∈ pre, ∀ l : List (Int × Int), l.Nodup →
        (∀ p ∈ l, onRun b s row col d' p) → l.length < 4 := by
  obtain ⟨hcell, pre, d, post, hsplit, rfl, hlen, hpre⟩ := checkWinnerCells_first b row col s cells h
  have hd : d ∈ lineDirs := by rw [hsplit]; simp
  refine ⟨pre, d, post, hsplit, fun p => mem_lineCells_iff b s row col d hd hcell p,
    lineCells_nodup b s row col d.1 d.2 (lineDirs_ne_zero d hd), hlen, fun d' hd' l hl hall => ?_⟩
  have hd'mem : d' ∈ lineDirs := by rw [hsplit]; simp [hd']
  have hsub : l ⊆ lineCells b s row col ((d'.1, d'.2), (-d'.1, -d'.2)) :=
    fun p hp => (mem_lineCells_iff b s row col d' hd'mem hcell p).mpr (hall p hp)
  have := (List.subperm_of_subset hl hsub).length_le
  have := hpre d' hd'
  omega

/-- C22: when `checkWinner` reports a win at an in-bounds cell, the recorded
cells are exactly the cells of the maximal contiguous run of the winner's
pieces through `(row, col)` along one direction `d` (each once, at least 4 of
them), and `d` is the first direction in the order horizontal, vertical,
diagonal, anti-diagonal whose run has at least 4 cells: along every earlier
direction the run through `(row, col)` has fewer than 4 cells. -/
theorem checkWinner_cells_exact (board : Board) (row : Fin 6) (col : Fin 7) (s : Side)
    (cells : List (Int × Int))
    (h : checkWinnerCells board (row.val : Int) (col.val : Int) = some (s, cells)) :
    ∃ (pre : List (Int × Int)) (d : Int × Int) (post : List (Int × Int)),
      lineDirs = pre ++ d :: post ∧
      (∀ p, p ∈ cells ↔ onRun board s (row.val : Int) (col.val : Int) d p) ∧
      cells.Nodup ∧ 4 ≤ cells.length ∧
      ∀ d' ∈ pre, ∀ l : List (Int × Int), l.Nodup →
        (∀ p ∈ l, onRun board s (row.val : Int) (col.val : Int) d' p) → l.length < 4 :=
  checkWinner_cells_exact_aux board _ _ s cells h

/-- C22 on `longRunBoard`: at `(5, 2)` red has five cells in the bottom row
and four in column 2; the recorded cells are the five of the row. -/
theorem checkWinner_cells_exact_witness :
    checkWinnerCells longRunBoard 5 2 =
      some (Side.red, [(5, 2), (5, 3), (5, 4), (5, 1), (5, 0)]) ∧
    ∃ (pre : List (Int × Int)) (d : Int × Int) (post : List (Int × Int)),
      lineDirs = pre ++ d :: post ∧
      (∀ p, p ∈ ([(5, 2), (5, 3), (5, 4), (5, 1), (5, 0)] : List (Int × Int)) ↔
        onRun longRunBoard Side.red ((5 : Fin 6).val : Int) ((2 : Fin 7).val : Int) d p) ∧
      ([(5, 2), (5, 3), (5, 4), (5, 1), (5, 0)] : List (Int × Int)).Nodup ∧
      4 ≤ ([(5, 2), (5, 3), (5, 4), (5, 1), (5, 0)] : List (Int × Int)).length ∧
      ∀ d' ∈ pre, ∀ l : List (Int × Int), l.Nodup →
        (∀ p ∈ l, onRun longRunBoard Side.red ((5 : Fin 6).val : Int)
          ((2 : Fin 7).val : Int) d' p) → l.length < 4 :=
  ⟨by decide, checkWinner_cells_exact longRunBoard 5 2 Side.red _ (by decide)⟩

/-! ## Turn ownership and the win invariant -/

theorem countPieces_dropPiece_same (b : Board) (col : Int) (o : Side)
    (h : col ∈ getValidMoves b) :
    countPieces (dropPiece b col o) o = countPieces b o + 1 := by
  obtain ⟨c, r, -, -, hempty, -, hset⟩ := dropPiece_apply b col o h
  unfold countPieces
  have hfilter : Finset.univ.filter (fun p : Fin 6 × Fin 7 => dropPiece b col o p.1 p.2 = some o) =
      insert (r, c) (Finset.univ.filter (fun p : Fin 6 × Fin 7 => b p.1 p.2 = some o)) := by
    ext p
    simp only [Finset.mem_filter, Finset.mem_univ, true_and, Finset.mem_insert, hset]
    by_cases hp : p = (r, c)
    · subst hp; simp
    · have : ¬ (p.1 = r ∧ p.2 = c) := fun h => hp (Prod.ext h.1 h.2)
      simp [hp, this]
  rw [hfilter, Finset.card_insert_of_not_mem]
  simp [hempty]

theorem countPieces_dropPiece_other (b : Board) (col : Int) (o o' : Side) (hne : o' ≠ o)
    (h : col ∈ getValidMoves b) :
    countPieces (dropPiece b col o) o' = countPieces b o' := by
  obtain ⟨c, r, -, -, hempty, -, hset⟩ := dropPiece_apply b col o h
  unfold countPieces
  congr 1
  ext p
  simp only [Finset.mem_filter, Finset.mem_univ, true_and, hset]
  by_cases hp : p.1 = r ∧ p.2 = c
  · rw [if_pos hp, hp.1, hp.2, hempty]
    simp [hne.symm]
  · rw [if_neg hp]

theorem handleColumnClick_step (s : State) (col : Int) :
    handleColumnClick s col = s ∨
    (s.gameState = Phase.playing ∧ s.currentPlayer = Player.human ∧
      col ∈ getValidMoves s.board ∧
      handleColumnClick s col =
        placePiece s (getAvailableRow s.board col) col Side.red Player.ai) := by
  by_cases h1 : s.gameState ≠ Phase.playing ∨ s.currentPlayer ≠ Player.human ∨
      s.isAIThinking = true
  · left; unfold handleColumnClick; rw [if_pos h1]
  · by_cases h2 : getAvailableRow s.board col = -1
    · left; unfold handleColumnClick; rw [if_neg h1]; simp only [h2, if_true]
    · right
      have hp : s.gameState = Phase.playing := by
        by_contra h; exact h1 (Or.inl h)
      have hh : s.currentPlayer = Player.human := by
        by_contra h; exact h1 (Or.inr (Or.inl h))
      have ht : s.isAIThinking = false := by
        cases hb : s.isAIThinking
        · rfl
        · exact absurd (Or.inr (Or.inr hb)) h1
      have hmem := (getAvailableRow_ne_iff_mem _ _).mp h2
      exact ⟨hp, hh, hmem, handleColumnClick_accepts s col hp hh ht hmem⟩

theorem placePiece_placed (s : State) (row col : Int) (side : Side) (next : Player) :
    Placed s (placePiece s row col side next) side row col next := by
  obtain ⟨hb, hl⟩ := placePiece_board s row col side next
  refine ⟨hb, hl, ?_⟩
  cases hw : checkWinner (s.board.set row col (some side)) row col with
  | some w => exact Or.inl ⟨w, rfl, placePiece_of_win s row col side next w hw⟩
  | none =>
    cases hf : isBoardFull (s.board.set row col (some side)) with
    | true => exact Or.inr (Or.inl (placePiece_of_draw s row col side next hw hf))
    | false => exact Or.inr (Or.inr (placePiece_of_continue s row col side next hw hf))

theorem placeKeyed_placed (s : State) (row : Int) (k : Fin 7) :
    Placed s (placeKeyed s row k) Side.yellow row (k.val : Int) Player.human := by
  obtain ⟨hb, hl⟩ := placeKeyed_board s row k
  refine ⟨hb, hl, ?_⟩
  cases hf : isBoardFull (s.board.set row (k.val : Int) (some Side.yellow)) with
  | true => exact Or.inr (Or.inl (placeKeyed_of_draw s row k hf))
  | false => exact Or.inr (Or.inr (placeKeyed_of_continue s row k hf))

theorem placed_thinking (s s1 : State) (side : Side) (row col : Int) (next : Player)
    (h : Placed s s1 side row col next) :
    Placed s { s1 with isAIThinking := false } side row col next := h

theorem placed_over_or_next (s s' : State) (side : Side) (row col : Int) (next : Player)
    (h : Placed s s' side row col next) :
    s'.gameState = Phase.gameOver ∨ s'.currentPlayer = next := by
  rcases h.2.2 with ⟨w, -, -, h⟩ | ⟨-, h⟩ | ⟨-, -, h⟩
  · exact Or.inl h
  · exact Or.inl h
  · exact Or.inr h


theorem handleColumnClick_placed (s : State) (col : Int) :
    handleColumnClick s col = s ∨
    (s.gameState = Phase.playing ∧ s.currentPlayer = Player.human ∧
      col ∈ getValidMoves s.board ∧
      Placed s (handleColumnClick s col) Side.red (getAvailableRow s.board col) col Player.ai) := by
  rcases handleColumnClick_step s col with h | ⟨hp, hh, hmem, h⟩
  · exact Or.inl h
  · right
    refine ⟨hp, hh, hmem, ?_⟩
    rw [h]
    exact placePiece_placed _ _ _ _ _

theorem makeAIMove_step (s : State) (adv : Advisory) :
    ((makeAIMove s adv).board = s.board ∧ (makeAIMove s adv).gameState = s.gameState ∧
      (makeAIMove s adv).currentPlayer = s.currentPlayer ∧
      (makeAIMove s adv).winner = s.winner ∧ (makeAIMove s adv).lastMove = s.lastMove) ∨
    (s.gameState = Phase.playing ∧ s.currentPlayer = Player.ai ∧
      ∃ c ∈ getValidMoves s.board,
        Placed s (makeAIMove s adv) Side.yellow (getAvailableRow s.board c) c Player.human) := by
  by_cases hg : s.currentPlayer ≠ Player.ai ∨ s.gameState ≠ Phase.playing
  · left
    unfold makeAIMove
    rw [if_pos hg]
    exact ⟨rfl, rfl, rfl, rfl, rfl⟩
  · have hai : s.currentPlayer = Player.ai := by
      by_contra h; exact hg (Or.inl h)
    have hp : s.gameState = Phase.playing := by
      by_contra h; exact hg (Or.inr h)
    rw [makeAIMove_of_turn s adv ⟨hai, hp⟩]
    have hfb : (fallbackMove s = s) ∨ ∃ c ∈ getValidMoves s.board,
        Placed s (fallbackMove s) Side.yellow (getAvailableRow s.board c) c Player.human := by
      unfold fallbackMove
      cases hc : fallbackChoice s.board with
      | none => exact Or.inl rfl
      | some c => exact Or.inr ⟨c, fallbackChoice_mem _ _ hc, placePiece_placed _ _ _ _ _⟩
    have hadv : ∀ column, (advisoryMove s column = s) ∨ ∃ c ∈ getValidMoves s.board,
        Placed s (advisoryMove s column) Side.yellow (getAvailableRow s.board c) c
          Player.human := by
      intro column
      unfold advisoryMove
      cases column with
      | other => exact Or.inl rfl
      | int col =>
        simp only
        by_cases h : getAvailableRow s.board col ≠ -1
        · rw [if_pos h]
          exact Or.inr ⟨col, (getAvailableRow_ne_iff_mem _ _).mp h, placePiece_placed _ _ _ _ _⟩
        · rw [if_neg h]; exact Or.inl rfl
      | key k =>
        simp only
        by_cases h : getAvailableRow s.board (k.val : Int) ≠ -1
        · rw [if_pos h]
          exact Or.inr ⟨(k.val : Int), (getAvailableRow_ne_iff_mem _ _).mp h,
            placeKeyed_placed _ _ _⟩
        · rw [if_neg h]; exact Or.inl rfl
    have key : ∀ s1 : State, (s1 = s ∨ ∃ c ∈ getValidMoves s.board,
        Placed s s1 Side.yellow (getAvailableRow s.board c) c Player.human) →
        (({ s1 with isAIThinking := false } : State).board = s.board ∧
          ({ s1 with isAIThinking := false } : State).gameState = s.gameState ∧
          ({ s1 with isAIThinking := false } : State).currentPlayer = s.currentPlayer ∧
          ({ s1 with isAIThinking := false } : State).winner = s.winner ∧
          ({ s1 with isAIThinking := false } : State).lastMove = s.lastMove) ∨
        (s.gameState = Phase.playing ∧ s.currentPlayer = Player.ai ∧
          ∃ c ∈ getValidMoves s.board,
            Placed s ({ s1 with isAIThinking := false } : State) Side.yellow
              (getAvailableRow s.board c) c Player.human) := by
      rintro s1 (rfl | ⟨c, hc, h⟩)
      · exact Or.inl ⟨rfl, rfl, rfl, rfl, rfl⟩
      · exact Or.inr ⟨hp, hai, c, hc, placed_thinking _ _ _ _ _ _ h⟩
    cases adv with
    | reply column thoughts => exact key _ (hadv column)
    | callThrows => exact key _ hfb
    | notJson => exact key _ hfb
    | noThoughts => exact key _ hfb

theorem reachable_induction (P : State → Prop) (h0 : P startGame)
    (hsame : ∀ s s' : State, P s → s'.board = s.board → s'.gameState = s.gameState →
      s'.currentPlayer = s.currentPlayer → s'.winner = s.winner →
      s'.lastMove = s.lastMove → P s')
    (hmove : ∀ (s s' : State) (side : Side) (next : Player) (col : Int), Reachable s → P s →
      s.gameState = Phase.playing →
      ((side = Side.red ∧ s.currentPlayer = Player.human ∧ next = Player.ai) ∨
        (side = Side.yellow ∧ s.currentPlayer = Player.ai ∧ next = Player.human)) →
      col ∈ getValidMoves s.board →
      Placed s s' side (getAvailableRow s.board col) col next → P s') :
    ∀ s : State, Reachable s → P s := by
  intro s hs
  induction hs with
  | start => exact h0
  | human s col hs ih =>
    rcases handleColumnClick_placed s col with h | ⟨hp, hh, hmem, h⟩
    · rw [h]; exact ih
    · exact hmove s _ Side.red Player.ai col hs ih hp (Or.inl ⟨rfl, hh, rfl⟩) hmem h
  | auto s adv hs ih =>
    rcases makeAIMove_step s adv with ⟨h1, h2, h3, h4, h5⟩ | ⟨hp, hai, c, hmem, h⟩
    · exact hsame s _ ih h1 h2 h3 h4 h5
    · exact hmove s _ Side.yellow Player.human c hs ih hp (Or.inr ⟨rfl, hai, rfl⟩) hmem h

theorem turnInv_startGame : TurnInv startGame := by
  intro _
  refine ⟨fun _ => by decide, fun h => by simp [startGame] at h, fun r c h => ?_⟩
  simp [startGame] at h

theorem reachable_turnInv (s : State) (hs : Reachable s) : TurnInv s := by
  apply reachable_induction TurnInv turnInv_startGame
  · intro s s' h h1 h2 h3 _ h5
    unfold TurnInv at h ⊢
    rw [h1, h2, h3, h5]
    exact h
  · intro s s' side next col _ hP hplay hside hmem hpl hplay'
    obtain ⟨hb, hl, hcase⟩ := hpl
    have hnext : s'.currentPlayer = next := by
      rcases hcase with ⟨w, -, -, h⟩ | ⟨-, h⟩ | ⟨-, -, h⟩
      · rw [h] at hplay'; simp at hplay'
      · rw [h] at hplay'; simp at hplay'
      · exact h
    have hb' : s'.board = dropPiece s.board col side := hb
    obtain ⟨hh, ha, -⟩ := hP hplay
    rw [hb', hnext, hl]
    have hself := get_dropPiece_self s.board col side hmem
    rcases hside with ⟨rfl, hcur, rfl⟩ | ⟨rfl, hcur, rfl⟩
    · have h1 := countPieces_dropPiece_same s.board col Side.red hmem
      have h2 := countPieces_dropPiece_other s.board col Side.red Side.yellow (by decide) hmem
      have h0 := hh hcur
      refine ⟨fun h => by simp at h, fun _ => by rw [h1, h2]; push_cast; omega, ?_⟩
      intro r c hrc
      simp only [Option.some.injEq, Prod.mk.injEq] at hrc
      obtain ⟨rfl, rfl⟩ := hrc
      simpa using hself
    · have h1 := countPieces_dropPiece_same s.board col Side.yellow hmem
      have h2 := countPieces_dropPiece_other s.board col Side.yellow Side.red (by decide) hmem
      have h0 := ha hcur
      refine ⟨fun _ => by rw [h1, h2]; push_cast; omega, fun h => by simp at h, ?_⟩
      intro r c hrc
      simp only [Option.some.injEq, Prod.mk.injEq] at hrc
      obtain ⟨rfl, rfl⟩ := hrc
      simpa using hself
  · exact hs

theorem handleColumnClick_twice (s : State) (c c' : Int)
    (h : (handleColumnClick s c).board ≠ s.board) :
    handleColumnClick (handleColumnClick s c) c' = handleColumnClick s c := by
  rcases handleColumnClick_placed s c with h0 | ⟨-, -, -, h1⟩
  · rw [h0] at h; exact absurd rfl h
  · have := placed_over_or_next _ _ _ _ _ _ h1
    generalize handleColumnClick s c = s' at this
    unfold handleColumnClick
    rw [if_pos]
    rcases this with h2 | h2
    · left; rw [h2]; simp
    · right; left; rw [h2]; simp

theorem makeAIMove_twice (s : State) (adv adv' : Advisory)
    (h : (makeAIMove s adv).board ≠ s.board) :
    makeAIMove (makeAIMove s adv) adv' = makeAIMove s adv := by
  rcases makeAIMove_step s adv with ⟨h0, -⟩ | ⟨-, -, c, -, h1⟩
  · exact absurd h0 h
  · have := placed_over_or_next _ _ _ _ _ _ h1
    generalize makeAIMove s adv = s' at this
    unfold makeAIMove
    rw [if_pos]
    rcases this with h2 | h2
    · right; rw [h2]; simp
    · left; rw [h2]; simp

theorem winInv_startGame : WinInv startGame :=
  ⟨fun _ => rfl, fun w h => by simp [startGame] at h⟩

theorem reachable_winInv (s : State) (hs : Reachable s) : WinInv s := by
  apply reachable_induction WinInv winInv_startGame
  · intro s s' h h1 h2 _ h4 h5
    unfold WinInv at h ⊢
    rw [h1, h2, h4, h5]
    exact h
  · intro s s' side next col _ hP hplay _ hmem hpl
    have hnone := hP.1 hplay
    obtain ⟨hb, hl, hcase⟩ := hpl
    have hself := get_dropPiece_self s.board col side hmem
    have hw := checkWinner_of_cell _ side _ col hself
    have hf := exists_direction_iff_fourInLine _ side _ col hself
    have hbd : s'.board = dropPiece s.board col side := hb
    constructor
    · intro hplay'
      rcases hcase with ⟨w, -, -, h⟩ | ⟨-, h⟩ | ⟨h, -, -⟩
      · rw [h] at hplay'; simp at hplay'
      · rw [h] at hplay'; simp at hplay'
      · rw [h]; exact hnone
    · intro w hwin
      rcases hcase with ⟨w', hcw, h1, h2⟩ | ⟨h, -⟩ | ⟨h, -, -⟩
      · rw [h1] at hwin
        simp only [Option.some.injEq, Outcome.win.injEq] at hwin
        subst hwin
        have hww : w' = side := by
          by_contra hne
          have hnone' : checkWinner (dropPiece s.board col side)
              (getAvailableRow s.board col) col = none := by
            rw [hw.2]
            intro hex
            have := hw.1.mpr hex
            unfold dropPiece at this
            rw [hcw] at this
            simp only [Option.some.injEq] at this
            exact hne this
          unfold dropPiece at hnone'
          rw [hcw] at hnone'
          simp at hnone'
        subst hww
        refine ⟨h2, _, _, hl, ?_⟩
        rw [hbd]
        exact hf.mp (hw.1.mp hcw)
      · rw [h] at hwin; simp at hwin
      · rw [h, hnone] at hwin; simp at hwin
  · exact hs

theorem fourInLine_dropPiece (b : Board) (col : Int) (o side : Side) (r c : Int)
    (hmem : col ∈ getValidMoves b) (h : fourInLine (dropPiece b col o) side r c) :
    fourInLine b side r c ∨
    (side = o ∧ fourInLine (dropPiece b col o) o (getAvailableRow b col) col) := by
  obtain ⟨d, hd, a, ha, hw⟩ := h
  have hself := get_dropPiece_self b col o hmem
  by_cases hex : ∃ k0 : Nat, k0 ≤ 3 ∧
      r + ((k0 : Int) - (a : Int)) * d.1 = getAvailableRow b col ∧
      c + ((k0 : Int) - (a : Int)) * d.2 = col
  · right
    obtain ⟨k0, hk0, hr, hc⟩ := hex
    have hso : side = o := by
      have := (hw k0 hk0).2
      rw [hr, hc, hself] at this
      simp only [Option.some.injEq] at this
      exact this.symm
    subst hso
    refine ⟨rfl, d, hd, k0, hk0, fun k hk => ?_⟩
    have e1 : getAvailableRow b col + ((k : Int) - (k0 : Int)) * d.1 =
        r + ((k : Int) - (a : Int)) * d.1 := by rw [← hr]; ring
    have e2 : col + ((k : Int) - (k0 : Int)) * d.2 = c + ((k : Int) - (a : Int)) * d.2 := by
      have : c + ((k0 : Int) - (a : Int)) * d.2 + ((k : Int) - (k0 : Int)) * d.2 =
          c + ((k : Int) - (a : Int)) * d.2 := by ring
      rw [← this, hc]
    rw [e1, e2]
    exact hw k hk
  · left
    refine ⟨d, hd, a, ha, fun k hk => ?_⟩
    obtain ⟨hb, hg⟩ := hw k hk
    refine ⟨hb, ?_⟩
    unfold dropPiece at hg
    rw [get_set, if_pos hb, if_neg] at hg
    · exact hg
    · rintro ⟨h1, h2⟩
      exact hex ⟨k, hk, h1, h2⟩

/-- C21: in every state reachable from `startGame` (by clicks and automated
turns, whatever the advisory replied) that is in play, red has
as many pieces as yellow when the human is to move and exactly one more when
the automated side is to move, and the last placed piece belongs to the side
that is not to move; a click that placed a piece is followed by no further
placing click, and an automated turn that placed a piece by no further
placing automated turn. -/
theorem turn_alternation (s : State) (hs : Reachable s) (hplay : s.gameState = Phase.playing) :
    (s.currentPlayer = Player.human →
      (countPieces s.board Side.red : Int) - (countPieces s.board Side.yellow : Int) = 0) ∧
    (s.currentPlayer = Player.ai →
      (countPieces s.board Side.red : Int) - (countPieces s.board Side.yellow : Int) = 1) ∧
    (∀ r c : Int, s.lastMove = some (r, c) →
      s.board.get r c =
        some (some (if s.currentPlayer = Player.ai then Side.red else Side.yellow))) ∧
    (∀ c c' : Int, (handleColumnClick s c).board ≠ s.board →
      handleColumnClick (handleColumnClick s c) c' = handleColumnClick s c) ∧
    (∀ adv adv' : Advisory, (makeAIMove s adv).board ≠ s.board →
      makeAIMove (makeAIMove s adv) adv' = makeAIMove s adv) :=
  ⟨(reachable_turnInv s hs hplay).1, (reachable_turnInv s hs hplay).2.1,
    (reachable_turnInv s hs hplay).2.2, fun c c' h => handleColumnClick_twice s c c' h,
    fun adv adv' h => makeAIMove_twice s adv adv' h⟩

/-- C21 after the human's first click (the automated side is to move, red is
one piece ahead), after the fallback's answer (the human is to move, the
counts are equal), and after four rounds answered by replies that name their
column as text (the human is to move, the counts are equal). -/
theorem turn_alternation_witness :
    (handleColumnClick startGame 3).currentPlayer = Player.ai ∧
    (countPieces (handleColumnClick startGame 3).board Side.red : Int) -
      (countPieces (handleColumnClick startGame 3).board Side.yellow : Int) = 1 ∧
    (playFallback startGame 3).currentPlayer = Player.human ∧
    (countPieces (playFallback startGame 3).board Side.red : Int) -
      (countPieces (playFallback startGame 3).board Side.yellow : Int) = 0 ∧
    textStackState.currentPlayer = Player.human ∧
    (countPieces textStackState.board Side.red : Int) -
      (countPieces textStackState.board Side.yellow : Int) = 0 :=
  ⟨by decide,
    (turn_alternation (handleColumnClick startGame 3)
      (Reachable.human _ _ Reachable.start) (by decide)).2.1 (by decide),
    by decide,
    (turn_alternation (playFallback startGame 3)
      (Reachable.auto _ _ (Reachable.human _ _ Reachable.start)) (by decide)).1 (by decide),
    by decide,
    (turn_alternation textStackState reachable_textStackState (by decide)).1 (by decide)⟩

theorem textStackState_four : fourInLine textStackState.board Side.yellow 2 3 := by
  have hcell : textStackState.board.get 2 3 = some (some Side.yellow) := by decide
  exact (exists_direction_iff_fourInLine _ Side.yellow 2 3 hcell).mp
    ((checkWinner_of_cell _ Side.yellow 2 3 hcell).1.mp (by decide))

/-- C24, the code at a failing input: the human clicks columns 0, 0, 1, 1 and
every advisory reply is `{"column": "3", "thoughts": []}`.  Each reply is
played in column 3, so yellow holds rows 5 to 2 of that column, four cells in
line through the last placed piece `(2, 3)`; `checkWinner` called with the
number 3 reports yellow there, but called with the text it reports nothing: no
winner is set and the game is still in play with the human to move.  With the
replies `{"column": 3, "thoughts": []}` the same moves end the game with
yellow as the winner. -/
theorem text_column_win_undetected :
    Reachable textStackState ∧
    textStackState.gameState = Phase.playing ∧ textStackState.winner = none ∧
    textStackState.currentPlayer = Player.human ∧
    textStackState.lastMove = some (2, 3) ∧
    textStackState.board.get 5 3 = some (some Side.yellow) ∧
    textStackState.board.get 4 3 = some (some Side.yellow) ∧
    textStackState.board.get 3 3 = some (some Side.yellow) ∧
    textStackState.board.get 2 3 = some (some Side.yellow) ∧
    fourInLine textStackState.board Side.yellow 2 3 ∧
    checkWinner textStackState.board 2 3 = some Side.yellow ∧
    checkWinnerKey textStackState.board 2 3 = none ∧
    (playAdvised startGame [0, 3, 0, 3, 1, 3, 1, 3]).board = textStackState.board ∧
    (playAdvised startGame [0, 3, 0, 3, 1, 3, 1, 3]).gameState = Phase.gameOver ∧
    (playAdvised startGame [0, 3, 0, 3, 1, 3, 1, 3]).winner =
      some (Outcome.win Side.yellow) :=
  ⟨reachable_textStackState,
    by decide, by decide, by decide, by decide, by decide, by decide, by decide, by decide,
    textStackState_four, by decide, by decide, by decide, by decide, by decide⟩

end JoinDots
